import Mathlib

/-!
Verification development for the AWARE emergency-alert caching simulator.

The definitions below are a shallow embedding of the simulator's TypeScript
core: JS numbers are modelled as exact rationals (`ℚ`), 32-bit integer
operations carry explicit `% 2^32` reductions, JS `Map` objects are modelled
as insertion-ordered association lists, and the transcendental functions of
the JS `Math` object (`exp`, `log`, `sin`, `cos`, `sqrt`, and the constant
`PI`) are collected in a `MathModel` parameter so that every engine function
is an executable Lean function of that parameter.  `Math.random` is modelled
as an explicit oracle stream.  Each definition mirrors one function of the
source tree (file and symbol named in its doc comment).
-/

set_option linter.unusedVariables false

namespace Aware

/-! ## 32-bit integer primitives (JS bit operations) -/

/-- Modulus of unsigned 32-bit arithmetic. -/
def U32MOD : ℕ := 4294967296

/-- Reduce to an unsigned 32-bit value (the JS `>>> 0` coercion). -/
def u32 (n : ℕ) : ℕ := n % U32MOD

/-- JS `Math.imul`: 32-bit modular multiplication (bit pattern of the result). -/
def imul (a b : ℕ) : ℕ := (a * b) % U32MOD

/-- JS `^` on 32-bit values (bit pattern). -/
def xor32 (a b : ℕ) : ℕ := u32 (Nat.xor a b)

/-- JS `|` on 32-bit values (bit pattern). -/
def or32 (a b : ℕ) : ℕ := u32 (Nat.lor a b)

/-- JS `&` on 32-bit values (bit pattern). -/
def and32 (a b : ℕ) : ℕ := u32 (Nat.land a b)

/-- JS `>>>` (unsigned right shift) on an unsigned 32-bit value. -/
def shr32 (a k : ℕ) : ℕ := u32 a >>> k

/-- JS `ToInt32` coercion: interpret a mathematical integer as signed 32-bit. -/
def toInt32 (n : ℤ) : ℤ := ((n + 2147483648) % 4294967296) - 2147483648

/-- JS `ToUint32` coercion of a mathematical integer. -/
def toUint32 (n : ℤ) : ℕ := (n % 4294967296).toNat

/-! ## Seeded PRNG: `src/sim/core/RandomGenerator.ts`, `mulberry32` -/

/-- One step of the Mulberry32 PRNG (`mulberry32` in RandomGenerator.ts).
The state is the JS closure variable `a` (kept as an exact integer, as JS
float addition is exact in the simulated range); all bit operations reduce
mod `2^32` exactly as the JS coercions do.  Returns the new state and the
uniform draw in `[0, 1)`. -/
def mulberry32Next (a : ℕ) : ℕ × ℚ :=
  let s := a + 1831565813
  let s0 := u32 s
  let t1 := imul (xor32 s0 (shr32 s0 15)) (or32 s0 1)
  let t2 := xor32 t1 (u32 (t1 + imul (xor32 t1 (shr32 t1 7)) (or32 t1 61)))
  (s, ((xor32 t2 (shr32 t2 14) : ℕ) : ℚ) / 4294967296)

/-- Rotate a 32-bit value left by `k` (used by the seed hash). -/
def rotl32 (x k : ℕ) : ℕ := or32 (u32 (x <<< k)) (shr32 x (32 - k))

/-- Modelled from the spec: `hashStringToSeed` (imported by `run.ts` from
`core/RandomGenerator`, but the defining source file is not part of the
provided tree).  Per spec section 4.1: start with `h = 1779033703 XOR len(s)`;
for each code point `c`, `h ← imul(h XOR c, 3432918353)` then
`h ← rotl32(h, 13)`; finalize to unsigned 32-bit. -/
def hashStringToSeed (s : String) : ℕ :=
  s.data.foldl (fun h c => rotl32 (imul (xor32 h c.toNat) 3432918353) 13)
    (xor32 1779033703 s.length)

/-! ## JS `Map` model: insertion-ordered association list -/

/-- Model of a JS `Map`: an insertion-ordered list of key/value pairs with
unique keys.  `set` on an existing key updates the pair in place (JS keeps
the original insertion position); `set` on a new key appends; `delete`
removes; iteration order is the list order. -/
structure JsMap (κ β : Type) where
  entries : List (κ × β)
deriving DecidableEq, Repr

namespace JsMap

variable {κ β : Type} [DecidableEq κ]

/-- Empty map (JS `new Map()`). -/
def empty : JsMap κ β := ⟨[]⟩

/-- Lookup (JS `map.get`). -/
def get? (m : JsMap κ β) (k : κ) : Option β :=
  (m.entries.find? (fun p => p.1 = k)).map (·.2)

/-- Membership (JS `map.has`). -/
def has (m : JsMap κ β) (k : κ) : Bool :=
  (m.get? k).isSome

/-- JS `map.set`: update in place when the key exists, else append. -/
def set (m : JsMap κ β) (k : κ) (v : β) : JsMap κ β :=
  if m.entries.any (fun p => p.1 = k) then
    ⟨m.entries.map (fun p => if p.1 = k then (k, v) else p)⟩
  else
    ⟨m.entries ++ [(k, v)]⟩

/-- JS `map.delete`. -/
def delete (m : JsMap κ β) (k : κ) : JsMap κ β :=
  ⟨m.entries.filter (fun p => ¬ p.1 = k)⟩

/-- JS `map.size`. -/
def size (m : JsMap κ β) : ℕ := m.entries.length

/-- JS `[...map.keys()]`. -/
def keys (m : JsMap κ β) : List κ := m.entries.map (·.1)

/-- JS `[...map.values()]`. -/
def values (m : JsMap κ β) : List β := m.entries.map (·.2)

/-- JS `map.get(k) ?? d`. -/
def getD (m : JsMap κ β) (k : κ) (d : β) : β := (m.get? k).getD d

end JsMap

/-! ## Core data model: `src/sim/types.ts` -/

/-- Alert severity (`Severity` in types.ts). -/
inductive Severity
  | minor | moderate | severe | extreme | unknown
deriving DecidableEq, Repr

/-- Alert urgency (`Urgency` in types.ts). -/
inductive Urgency
  | immediate | expected | future | past | unknown
deriving DecidableEq, Repr

/-- Alert record (`Alert` in types.ts).  JS numbers are exact rationals. -/
structure Alert where
  id : String
  eventType : String
  severity : Severity
  urgency : Urgency
  issuedAt : ℚ
  ttlSec : ℚ
  sender : Option String := none
  headline : Option String := none
  instruction : Option String := none
  geokey : Option String := none
  regionId : Option String := none
  sizeBytes : Option ℚ := none
  threadKey : Option String := none
  updateNo : Option ℚ := none
deriving DecidableEq, Repr

/-- Default alert value (used only to model in-range JS array indexing). -/
def defaultAlert : Alert :=
  { id := "", eventType := "", severity := .unknown, urgency := .unknown,
    issuedAt := 0, ttlSec := 0 }

instance : Inhabited Alert := ⟨defaultAlert⟩

/-- Timeline sample (`Sample` in types.ts). -/
structure Sample where
  t : ℚ
  cacheSize : ℕ
  hits : ℕ
  misses : ℕ
deriving DecidableEq, Repr

/-- Final metrics of a run (`Metrics` in types.ts). -/
structure Metrics where
  cacheHitRate : ℚ
  deliveryRate : ℚ
  avgFreshness : ℚ
  staleAccessRate : ℚ
  redundancyIndex : ℚ
  actionabilityFirstRatio : ℚ
  timelinessConsistency : ℚ
  pushesSent : ℕ
  pushSuppressRate : ℚ
  pushDuplicateRate : ℚ
  pushTimelyFirstRatio : ℚ
deriving DecidableEq, Repr

/-- Expiry test (`isExpired` in policies/base.ts): `now >= issuedAt + ttlSec`. -/
def isExpired (a : Alert) (now : ℚ) : Bool :=
  decide (a.issuedAt + a.ttlSec ≤ now)

/-! ## Clamp helpers used across the source tree -/

/-- JS `Math.max(min, Math.min(max, x))` (`clamp` in geo/generate.ts and
learning/pfModel.ts). -/
def clampQ (lo hi x : ℚ) : ℚ := max lo (min hi x)

/-- Clamp to `[0, 1]` (`clamp01` in run.ts and pfModel.ts). -/
def clamp01 (x : ℚ) : ℚ := max 0 (min 1 x)

/-- JS `Math.floor` on a rational. -/
def jsFloor (x : ℚ) : ℚ := (⌊x⌋ : ℚ)

/-- JS `Math.round` (round half toward positive infinity). -/
def jsRound (x : ℚ) : ℚ := (⌊x + 1/2⌋ : ℚ)

/-- JS `Math.trunc`-style integer part, used to model the JS `%` operator. -/
def jsTrunc (x : ℚ) : ℤ := if 0 ≤ x then ⌊x⌋ else ⌈x⌉

/-- JS remainder operator `%` on numbers (sign follows the dividend). -/
def jsMod (a n : ℚ) : ℚ := a - n * (jsTrunc (a / n) : ℚ)

end Aware

namespace Aware

/-! ## Geometry types: `src/sim/geo/types.ts` -/

/-- Region severity class (`Region['severity']` in geo/types.ts). -/
inductive RegionSev
  | moderate | severe | extreme
deriving DecidableEq, Repr

/-- A 2D point. -/
abbrev Point := ℚ × ℚ

/-- Region record (`Region` in geo/types.ts). -/
structure Region where
  id : String
  center : Point
  polygon : List Point
  localFactor : ℚ
  severity : RegionSev
deriving DecidableEq, Repr

/-- Environment record (`Environment` in geo/types.ts). -/
structure Environment where
  width : ℚ
  height : ℚ
  regions : List Region
deriving DecidableEq, Repr

/-! ## Scenario catalogue: `src/sim/scenarios` -/

/-- Scenario names (`ScenarioName` in scenarios/types.ts). -/
inductive ScenarioName
  | Urban | Suburban | Rural
deriving DecidableEq, Repr

/-- Piecewise schedule segment (`ScenarioSegment` in scenarios/types.ts). -/
structure ScenarioSegment where
  startSec : ℚ
  endSec : ℚ
  reliability : ℚ
  alertRateMul : Option ℚ := none
  queryRateMul : Option ℚ := none
deriving DecidableEq, Repr

/-- Scenario specification (`ScenarioSpec` in scenarios/types.ts). -/
structure ScenarioSpec where
  name : ScenarioName
  baseAlertRatePerMin : ℚ
  meanTTL : ℚ
  targetFirstDeliverySec : ℚ
  segments : List ScenarioSegment
deriving DecidableEq, Repr

/-- Active segment for a time (`getSegment` in scenarios/types.ts): the first
segment with `startSec ≤ t < endSec`, else the last segment.  The source
indexes `segments[length - 1]` unconditionally; the fallback value models the
(unreachable for the three catalogue scenarios) empty-list case. -/
def getSegment (spec : ScenarioSpec) (t : ℚ) : ScenarioSegment :=
  match spec.segments.find? (fun seg => decide (seg.startSec ≤ t) && decide (t < seg.endSec)) with
  | some seg => seg
  | none => spec.segments.getLastD { startSec := 0, endSec := 0, reliability := 0 }

/-- Urban scenario constant (`UrbanScenario` in scenarios/urban.ts). -/
def UrbanScenario : ScenarioSpec :=
  { name := .Urban, baseAlertRatePerMin := 36, meanTTL := 900,
    targetFirstDeliverySec := 120,
    segments :=
      [ { startSec := 0, endSec := 180, reliability := 95/100 },
        { startSec := 180, endSec := 420, reliability := 6/10, alertRateMul := some (15/10) },
        { startSec := 420, endSec := 900, reliability := 88/100, queryRateMul := some (18/10) },
        { startSec := 900, endSec := 1000000000, reliability := 96/100 } ] }

/-- Suburban scenario constant (`SuburbanScenario` in scenarios/suburban.ts). -/
def SuburbanScenario : ScenarioSpec :=
  { name := .Suburban, baseAlertRatePerMin := 12, meanTTL := 1200,
    targetFirstDeliverySec := 180,
    segments :=
      [ { startSec := 0, endSec := 240, reliability := 92/100 },
        { startSec := 240, endSec := 720, reliability := 75/100, alertRateMul := some (12/10) },
        { startSec := 720, endSec := 1200, reliability := 85/100, queryRateMul := some (14/10) },
        { startSec := 1200, endSec := 1000000000, reliability := 93/100 } ] }

/-- Rural scenario constant (`RuralScenario` in scenarios/rural.ts). -/
def RuralScenario : ScenarioSpec :=
  { name := .Rural, baseAlertRatePerMin := 6, meanTTL := 1800,
    targetFirstDeliverySec := 300,
    segments :=
      [ { startSec := 0, endSec := 300, reliability := 9/10 },
        { startSec := 300, endSec := 900, reliability := 55/100, alertRateMul := some (12/10), queryRateMul := some (8/10) },
        { startSec := 900, endSec := 1500, reliability := 8/10, alertRateMul := some 1, queryRateMul := some (15/10) },
        { startSec := 1500, endSec := 1000000000, reliability := 92/100 } ] }

/-! ## Model of the JS `Math` transcendental functions -/

/-- Parameter collecting the transcendental functions of the JS `Math`
object.  The engine is a pure function of this parameter; theorems either
hold for every `MathModel` or state their (IEEE-double-true) hypotheses
about it explicitly. -/
structure MathModel where
  exp : ℚ → ℚ
  log : ℚ → ℚ
  sin : ℚ → ℚ
  cos : ℚ → ℚ
  sqrt : ℚ → ℚ
  pi : ℚ

/-! ## PF model data: `src/sim/learning/pfModel.ts` -/

/-- Per-region weather record (`RegionWeatherRecord` in pfModel.ts). -/
structure RegionWeatherRecord where
  regionId : String
  floodFrequency : ℚ
  rainfallMeanMm : ℚ
  rainfallVolatility : ℚ
  drainageScore : ℚ
  shelterDemandIndex : ℚ
deriving DecidableEq, Repr

/-- Per-region anomaly record (`RegionAnomalyHistory` in pfModel.ts). -/
structure RegionAnomalyHistory where
  regionId : String
  falseAlarmRate : ℚ
  lastMinuteDiversionRate : ℚ
  historicalAccuracy : ℚ
  typicalLeadTimeSec : ℚ
  underestimationRate : ℚ
  overestimationRate : ℚ
  accuracyTrend : ℚ
deriving DecidableEq, Repr

/-- Scoring context (`ForecastScoreContext` in pfModel.ts). -/
structure ForecastScoreContext where
  now : ℚ
  freshness : ℚ
  baseScore : ℚ
deriving DecidableEq, Repr

/-- Score breakdown (`ScoreDetail` in pfModel.ts). -/
structure ScoreDetail where
  base : ℚ
  boost : ℚ
  total : ℚ
  probability : ℚ
  exploration : ℚ
deriving DecidableEq, Repr

/-- Serializable PF model state (`PFState` in pfModel.ts). -/
structure PFState where
  weights : List ℚ
  g2 : List ℚ
  featureCount : ℕ
  hashBucketCount : ℕ
  temperature : ℚ
  learningRate : ℚ
  regularization : ℚ
  decay : ℚ
deriving DecidableEq, Repr

/-- Historical training sample (`PFTrainingSample` in pfModel.ts). -/
structure PFTrainingSample where
  severity : Severity
  urgency : Urgency
  ttlSec : ℚ
  regionId : Option String := none
  geokey : Option String := none
  regionSeverity : Option RegionSev := none
  localReliability : Option ℚ := none
  floodFrequency : Option ℚ := none
  rainfallMeanMm : Option ℚ := none
  rainfallVolatility : Option ℚ := none
  drainageScore : Option ℚ := none
  shelterDemandIndex : Option ℚ := none
  falseAlarmRate : Option ℚ := none
  lastMinuteDiversionRate : Option ℚ := none
  historicalAccuracy : Option ℚ := none
  typicalLeadTimeSec : Option ℚ := none
  underestimationRate : Option ℚ := none
  overestimationRate : Option ℚ := none
  accuracyTrend : Option ℚ := none
  freshness : ℚ
  baseScore : Option ℚ := none
  label : ℚ
deriving DecidableEq, Repr

/-- The PF model's random source (`this.rng` in pfModel.ts): either a
seeded Mulberry32 stream (the deterministic default of the engine) or the
nondeterministic `Math.random`, modelled as an explicit oracle stream read
at an advancing cursor. -/
inductive PfRng
  | seeded (state : ℕ)
  | external (oracle : ℕ → ℚ) (idx : ℕ)

/-- Draw one uniform value from the PF random source. -/
def PfRng.next : PfRng → PfRng × ℚ
  | .seeded s => let r := mulberry32Next s; (.seeded r.1, r.2)
  | .external oracle i => (.external oracle (i + 1), oracle i)

/-- Numeric severity used by PF features (`severityNumeric` in pfModel.ts). -/
def severityNumeric : Severity → ℚ
  | .extreme => 1
  | .severe => 75/100
  | .moderate => 45/100
  | .minor => 25/100
  | .unknown => 4/10

/-- Numeric severity of a region, same mapping (`severityNumeric` accepts
`Region['severity']` values as well). -/
def regionSevNumeric : RegionSev → ℚ
  | .extreme => 1
  | .severe => 75/100
  | .moderate => 45/100

/-- FNV-1a string hash of pfModel.ts (`hashString`). -/
def pfHashString (s : String) : ℕ :=
  s.data.foldl (fun h c => imul (xor32 h c.toNat) 16777619) 2166136261

end Aware

namespace Aware

/-! ## PF model: `src/sim/learning/pfModel.ts`, class `PriorityForecastModel` -/

/-- State of a `PriorityForecastModel` instance (its private fields). -/
structure PFModel where
  weights : List ℚ
  g2 : List ℚ
  learningRate : ℚ
  regularization : ℚ
  decay : ℚ
  baseScoreNorm : ℚ
  explorationEpsilon : ℚ
  temperature : ℚ
  rng : PfRng
  regionLookup : JsMap String Region
  weatherLookup : JsMap String RegionWeatherRecord
  anomalyLookup : JsMap String RegionAnomalyHistory
  hashBucketCount : ℕ

namespace PFModel

/-- Inputs record of `deriveFeatures` in pfModel.ts. -/
structure FeatureInputs where
  severity : ℚ
  urgency : ℚ
  ttl : ℚ
  freshness : ℚ
  regionSeverity : ℚ
  localReliability : ℚ
  floodFrequency : ℚ
  rainfallMean : ℚ
  rainfallVolatility : ℚ
  drainageRisk : ℚ
  shelterDemand : ℚ
  baseScoreNorm : ℚ
  falseAlarmRate : ℚ
  diversionRate : ℚ
  historicalAccuracy : ℚ
  leadTimeNorm : ℚ
  underestimationRate : ℚ
  overestimationRate : ℚ
  accuracyTrend : ℚ
  now : ℚ
  updateNo : ℚ
  hashes : List ℚ

/-- Hashed bag-of-items features (`hashedFeatures` in pfModel.ts): `count`
zero-initialised buckets; every non-empty item adds `1 / max(1, |items|)` to
bucket `hashString(item) % count`. -/
def hashedFeatures (model : PFModel) (items : List String) : List ℚ :=
  let count := model.hashBucketCount
  let buckets : List ℚ := List.replicate count 0
  if count = 0 then buckets
  else
    let n : ℚ := (max 1 items.length : ℕ)
    items.foldl
      (fun buckets s =>
        if s = "" then buckets
        else
          let idx := pfHashString s % count
          buckets.set idx (buckets.getD idx 0 + 1 / n))
      buckets

/-- Feature vector assembly (`deriveFeatures` in pfModel.ts). -/
def deriveFeatures (M : MathModel) (inputs : FeatureInputs) : List ℚ :=
  let tod := jsMod (jsMod inputs.now 86400 + 86400) 86400
  let phase := 2 * M.pi * tod / 86400
  let timeSin := M.sin phase
  let timeCos := M.cos phase
  let updateNoNorm := clamp01 (inputs.updateNo / 4)
  let alertReliability := clamp01
    (inputs.historicalAccuracy * (5/10) +
     (1 - inputs.falseAlarmRate) * (25/100) +
     (1 - inputs.diversionRate) * (15/100) +
     inputs.accuracyTrend * (1/10))
  [1, inputs.severity, inputs.urgency, inputs.ttl, inputs.freshness,
   inputs.regionSeverity, inputs.localReliability, inputs.floodFrequency,
   inputs.rainfallMean, inputs.rainfallVolatility, inputs.drainageRisk,
   inputs.shelterDemand, inputs.baseScoreNorm, inputs.falseAlarmRate,
   inputs.diversionRate, inputs.historicalAccuracy, inputs.leadTimeNorm,
   inputs.underestimationRate, inputs.overestimationRate, alertReliability,
   timeSin, timeCos, updateNoNorm] ++ inputs.hashes

/-- Feature extraction from a live alert (`buildFeatures` in pfModel.ts). -/
def buildFeatures (M : MathModel) (model : PFModel) (alert : Alert)
    (ctx : ForecastScoreContext) : List ℚ :=
  let regionId := (alert.regionId.orElse (fun _ => alert.geokey)).getD ""
  let region := if regionId = "" then none else model.regionLookup.get? regionId
  let weather := if regionId = "" then none else model.weatherLookup.get? regionId
  let anomaly := if regionId = "" then none else model.anomalyLookup.get? regionId
  deriveFeatures M
    { severity := severityNumeric alert.severity
      urgency := if alert.urgency = .immediate then 1 else 0
      ttl := clamp01 (alert.ttlSec / 3600)
      freshness := clamp01 ctx.freshness
      regionSeverity := match region with
        | some r => regionSevNumeric r.severity
        | none => 4/10
      localReliability := match region with
        | some r => clamp01 ((r.localFactor - 7/10) / (6/10))
        | none => 5/10
      floodFrequency := (weather.map (·.floodFrequency)).getD (3/10)
      rainfallMean := match weather with
        | some w => clamp01 (w.rainfallMeanMm / 160)
        | none => 5/10
      rainfallVolatility := (weather.map (·.rainfallVolatility)).getD (4/10)
      drainageRisk := match weather with
        | some w => 1 - w.drainageScore
        | none => 5/10
      shelterDemand := (weather.map (·.shelterDemandIndex)).getD (3/10)
      baseScoreNorm := clamp01 (ctx.baseScore / model.baseScoreNorm)
      falseAlarmRate := (anomaly.map (·.falseAlarmRate)).getD (1/10)
      diversionRate := (anomaly.map (·.lastMinuteDiversionRate)).getD (5/100)
      historicalAccuracy := (anomaly.map (·.historicalAccuracy)).getD (7/10)
      leadTimeNorm := match anomaly with
        | some an => clamp01 (an.typicalLeadTimeSec / 3600)
        | none => 3/10
      underestimationRate := (anomaly.map (·.underestimationRate)).getD (8/100)
      overestimationRate := (anomaly.map (·.overestimationRate)).getD (12/100)
      accuracyTrend := match anomaly with
        | some an => clamp01 ((an.accuracyTrend - 75/100) / (5/10))
        | none => 5/10
      now := ctx.now
      updateNo := alert.updateNo.getD 1
      hashes := hashedFeatures model
        [alert.eventType, regionId, alert.threadKey.getD ""] }

/-- Linear prediction through the calibrated sigmoid (`predict` in
pfModel.ts): `z = Σ wᵢ·xᵢ`, result `1 / (1 + exp(-(z / temperature)))`. -/
def predict (M : MathModel) (model : PFModel) (features : List ℚ) : ℚ :=
  let z := (model.weights.zipWith (· * ·) features).foldl (· + ·) 0
  let scaled := z / model.temperature
  1 / (1 + M.exp (-scaled))

/-- Elementwise AdaGrad update loop of `train` in pfModel.ts. -/
def trainLoop (M : MathModel) (lr reg decay error : ℚ) :
    List ℚ → List ℚ → List ℚ → List ℚ × List ℚ
  | w :: ws, g :: gs, x :: xs =>
    let grad := error * x
    let g2i := decay * g + grad * grad
    let step := lr / M.sqrt (g2i + 1/1000000)
    let rest := trainLoop M lr reg decay error ws gs xs
    (((1 - reg) * w + step * grad) :: rest.1, g2i :: rest.2)
  | ws, gs, _ => (ws, gs)

/-- One training step (`train` in pfModel.ts): squared-error gradient on the
linear output with AdaGrad-style scaling and multiplicative regularization. -/
def train (M : MathModel) (model : PFModel) (features : List ℚ) (label : ℚ) :
    PFModel :=
  let prediction := predict M model features
  let error := label - prediction
  let wg := trainLoop M model.learningRate model.regularization model.decay
    error model.weights model.g2 features
  { model with weights := wg.1, g2 := wg.2 }

/-- Base eviction score of an alert (`baseScore` in pfModel.ts). -/
def baseScore (model : PFModel) (alert : Alert) : ℚ :=
  model.baseScoreNorm * (6/10) + severityNumeric alert.severity * 3 +
    (if alert.urgency = .immediate then 2 else 0)

/-- Scoring with optional ε-greedy exploration (`score` in pfModel.ts).
Returns the detail record and the model with its random cursor advanced
(the JS method mutates only the rng closure). -/
def score (M : MathModel) (model : PFModel) (alert : Alert)
    (ctx : ForecastScoreContext) (explore : Bool) : ScoreDetail × PFModel :=
  let features := buildFeatures M model alert ctx
  let probability := predict M model features
  let boost0 := ctx.baseScore * (probability - 1/2)
  if explore ∧ 0 < model.explorationEpsilon then
    let d1 := model.rng.next
    if d1.2 < model.explorationEpsilon then
      let d2 := d1.1.next
      let exploration := (d2.2 - 1/2) * ctx.baseScore * (6/10)
      ({ base := ctx.baseScore, boost := boost0 + exploration,
         total := ctx.baseScore + boost0 + exploration,
         probability := probability, exploration := exploration },
       { model with rng := d2.1 })
    else
      ({ base := ctx.baseScore, boost := boost0,
         total := ctx.baseScore + boost0,
         probability := probability, exploration := 0 },
       { model with rng := d1.1 })
  else
    ({ base := ctx.baseScore, boost := boost0, total := ctx.baseScore + boost0,
       probability := probability, exploration := 0 }, model)

/-- Label of a retrieval outcome (`labelForOutcome` in pfModel.ts). -/
def labelForOutcome (alert : Alert)
    (freshness latencySec : ℚ) (slaSec : Option ℚ) : ℚ :=
  let severity := severityNumeric alert.severity
  let urgency : ℚ := if alert.urgency = .immediate then 1 else 4/10
  let freshnessComponent := clamp01 freshness
  let timeliness := match slaSec with
    | some sla =>
      if sla = 0 then 6/10
      else clamp01 (1 - latencySec / max (sla * (15/10)) 1)
    | none => 6/10
  clamp01 ((4/10) * severity + (2/10) * urgency +
    (25/100) * freshnessComponent + (15/100) * timeliness)

/-- Training entry point on a retrieval (`observeRetrieval` in pfModel.ts). -/
def observeRetrieval (M : MathModel) (model : PFModel) (alert : Alert)
    (freshness latencySec servedAt : ℚ) (slaSec : Option ℚ) : PFModel :=
  let label := labelForOutcome alert freshness latencySec slaSec
  let features := buildFeatures M model alert
    { now := servedAt, freshness := freshness, baseScore := baseScore model alert }
  train M model features label

/-- Training entry point on a drop (`observeDrop` in pfModel.ts): label 0,
freshness 0. -/
def observeDrop (M : MathModel) (model : PFModel) (alert : Alert)
    (servedAt : ℚ) : PFModel :=
  let features := buildFeatures M model alert
    { now := servedAt, freshness := 0, baseScore := baseScore model alert }
  train M model features 0

/-- State snapshot (`getState` in pfModel.ts). -/
def getState (model : PFModel) : PFState :=
  { weights := model.weights, g2 := model.g2,
    featureCount := model.weights.length,
    hashBucketCount := model.hashBucketCount,
    temperature := model.temperature, learningRate := model.learningRate,
    regularization := model.regularization, decay := model.decay }

/-- Feature extraction from a historical sample (`buildFeaturesFromSample`
in pfModel.ts). -/
def buildFeaturesFromSample (M : MathModel) (model : PFModel)
    (sample : PFTrainingSample) : List ℚ :=
  let base := sample.baseScore.getD
    (model.baseScoreNorm * (6/10) + severityNumeric sample.severity * 3 +
      (if sample.urgency = .immediate then 2 else 0))
  deriveFeatures M
    { severity := severityNumeric sample.severity
      urgency := if sample.urgency = .immediate then 1 else 0
      ttl := clamp01 (sample.ttlSec / 3600)
      freshness := clamp01 sample.freshness
      regionSeverity := match sample.regionSeverity with
        | some rs => regionSevNumeric rs
        | none => 4/10
      localReliability := sample.localReliability.getD (5/10)
      floodFrequency := sample.floodFrequency.getD (3/10)
      rainfallMean := match sample.rainfallMeanMm with
        | some r => if r = 0 then 5/10 else clamp01 (r / 160)
        | none => 5/10
      rainfallVolatility := sample.rainfallVolatility.getD (4/10)
      drainageRisk := match sample.drainageScore with
        | some d => 1 - d
        | none => 5/10
      shelterDemand := sample.shelterDemandIndex.getD (3/10)
      baseScoreNorm := clamp01 (base / model.baseScoreNorm)
      falseAlarmRate := sample.falseAlarmRate.getD (1/10)
      diversionRate := sample.lastMinuteDiversionRate.getD (5/100)
      historicalAccuracy := sample.historicalAccuracy.getD (7/10)
      leadTimeNorm := match sample.typicalLeadTimeSec with
        | some l => if l = 0 then 3/10 else clamp01 (l / 3600)
        | none => 3/10
      underestimationRate := sample.underestimationRate.getD (8/100)
      overestimationRate := sample.overestimationRate.getD (12/100)
      accuracyTrend := match sample.accuracyTrend with
        | some tr => if tr = 0 then 5/10 else clamp01 ((tr - 75/100) / (5/10))
        | none => 5/10
      now := 0
      updateNo := 1
      hashes := hashedFeatures model
        ["hist", (sample.regionId.orElse (fun _ => sample.geokey)).getD "",
         sample.geokey.getD ""] }

/-- Pre-run training on historical samples (`ingestHistoricalSamples` in
pfModel.ts). -/
def ingestHistoricalSamples (M : MathModel) (model : PFModel)
    (samples : List PFTrainingSample) : PFModel :=
  samples.foldl
    (fun model sample =>
      train M model (buildFeaturesFromSample M model sample)
        (clamp01 sample.label))
    model

end PFModel

/-! ## History synthesizers: `src/sim/learning/pfModel.ts` -/

/-- Weather history synthesis (`synthesizeWeatherHistory` in pfModel.ts):
one record per region, drawn in source order from the dedicated stream. -/
def synthesizeWeatherHistory (environment : Environment) (rng : ℕ) :
    JsMap String RegionWeatherRecord × ℕ :=
  environment.regions.foldl
    (fun (acc : JsMap String RegionWeatherRecord × ℕ) region =>
      let severityBias : ℚ :=
        if region.severity = .extreme then 2/10
        else if region.severity = .severe then 1/10 else 0
      let d1 := mulberry32Next acc.2
      let floodFrequency := clamp01 (25/100 + severityBias + (d1.2 - 1/2) * (15/100))
      let d2 := mulberry32Next d1.1
      let rainfallMeanMm := clampQ 10 160 (80 + (d2.2 - 1/2) * 20 + floodFrequency * 45)
      let d3 := mulberry32Next d2.1
      let rainfallVolatility := clamp01 (3/10 + (d3.2 - 1/2) * (2/10) + severityBias * (3/10))
      let d4 := mulberry32Next d3.1
      let drainageScore := clamp01 (5/10 + (region.localFactor - 1) * (4/10) + (d4.2 - 1/2) * (2/10))
      let d5 := mulberry32Next d4.1
      let shelterDemandIndex := clamp01 (35/100 + floodFrequency * (5/10) + (d5.2 - 1/2) * (25/100))
      (acc.1.set region.id
        { regionId := region.id, floodFrequency := floodFrequency,
          rainfallMeanMm := rainfallMeanMm,
          rainfallVolatility := rainfallVolatility,
          drainageScore := drainageScore,
          shelterDemandIndex := shelterDemandIndex }, d5.1))
    (JsMap.empty, rng)

/-- Anomaly history synthesis (`synthesizeAnomalyHistory` in pfModel.ts):
one record per region, draws in source order. -/
def synthesizeAnomalyHistory (environment : Environment) (rng : ℕ) :
    JsMap String RegionAnomalyHistory × ℕ :=
  environment.regions.foldl
    (fun (acc : JsMap String RegionAnomalyHistory × ℕ) region =>
      let d1 := mulberry32Next acc.2
      let baseAccuracy := clamp01 (65/100 + (region.localFactor - 1) * (15/100) + (d1.2 - 1/2) * (2/10))
      let d2 := mulberry32Next d1.1
      let falseAlarmRate := clamp01 (8/100 + (1 - baseAccuracy) * (3/10) + (d2.2 - 1/2) * (12/100))
      let d3 := mulberry32Next d2.1
      let topographicDiversionBias : ℚ := if d3.2 < 3/10 then 15/100 else 0
      let d4 := mulberry32Next d3.1
      let lastMinuteDiversionRate := clamp01 (5/100 + topographicDiversionBias + (d4.2 - 1/2) * (8/100))
      let historicalAccuracy := clamp01 (baseAccuracy - falseAlarmRate * (3/10) - lastMinuteDiversionRate * (2/10))
      let leadTimeBias : ℚ :=
        if region.severity = .extreme then 1800
        else if region.severity = .severe then 1200 else 600
      let d5 := mulberry32Next d4.1
      let typicalLeadTimeSec := max 300 (leadTimeBias + (d5.2 - 1/2) * 900)
      let d6 := mulberry32Next d5.1
      let estimationError := clamp01 (15/100 + (d6.2 - 1/2) * (1/10))
      let d7 := mulberry32Next d6.1
      let underestimationRate := clamp01 (estimationError * (4/10 + d7.2 * (3/10)))
      let d8 := mulberry32Next d7.1
      let overestimationRate := clamp01 (estimationError * (6/10 - d8.2 * (3/10)))
      let d9 := mulberry32Next d8.1
      let trendRoll := d9.2
      let d10 :=
        if trendRoll < 15/100 then
          let dd := mulberry32Next d9.1
          ((11/10 : ℚ) + dd.2 * (15/100), dd.1)
        else if 85/100 < trendRoll then
          let dd := mulberry32Next d9.1
          ((85/100 : ℚ) - dd.2 * (1/10), dd.1)
        else ((1 : ℚ), d9.1)
      (acc.1.set region.id
        { regionId := region.id, falseAlarmRate := falseAlarmRate,
          lastMinuteDiversionRate := lastMinuteDiversionRate,
          historicalAccuracy := historicalAccuracy,
          typicalLeadTimeSec := typicalLeadTimeSec,
          underestimationRate := underestimationRate,
          overestimationRate := overestimationRate,
          accuracyTrend := d10.1 }, d10.2))
    (JsMap.empty, rng)

end Aware

namespace Aware

/-! ## Shared policy plumbing -/

/-- Purge of expired entries from a map plus recency/insertion list
(`purgeExpired` of lru.ts / ttlOnly.ts / PAFTinyLFUCache.ts): iterate over a
snapshot of the keys, delete the expired ones from the map and splice the
first matching element out of the order list. -/
def purgeMapOrder (now : ℚ) (m : JsMap String Alert) (order : List String) :
    JsMap String Alert × List String :=
  m.entries.foldl
    (fun (acc : JsMap String Alert × List String) p =>
      if isExpired p.2 now then (acc.1.delete p.1, acc.2.erase p.1) else acc)
    (m, order)

/-- Purge of expired entries from a bare map (`purgeExpired` of the
`PriorityFresh` class in ttlOnly.ts, which keeps no order list). -/
def purgeMap (now : ℚ) (m : JsMap String Alert) : JsMap String Alert :=
  m.entries.foldl
    (fun (acc : JsMap String Alert) p =>
      if isExpired p.2 now then acc.delete p.1 else acc)
    m

/-- Recency bump (`touch` of lru.ts): splice out the first occurrence of
`id` and push it to the most-recent end. -/
def touchOrder (order : List String) (id : String) : List String :=
  order.erase id ++ [id]

/-- Overflow eviction loop shared by `LRU.put` and `TTLOnly.put`
(`while (map.size > cap) { const evictId = order.shift(); if (evictId)
map.delete(evictId); else break; }`).  A shifted empty-string id is falsy in
JS, so the loop breaks without deleting it. -/
def evictLoop (cap : ℚ) : List String → JsMap String Alert →
    JsMap String Alert × List String
  | [], m => (m, [])
  | evictId :: rest, m =>
    if cap < (m.size : ℚ) then
      if evictId = "" then (m, evictId :: rest)
      else evictLoop cap rest (m.delete evictId)
    else (m, evictId :: rest)

/-! ## LRU policy: `src/sim/policies/lru.ts` -/

/-- Private fields of the `LRU` class. -/
structure LruState where
  cap : ℚ
  map : JsMap String Alert
  order : List String
deriving Repr

namespace LRU

/-- Constructor of the `LRU` class. -/
def mk (capacity : ℚ) : LruState := { cap := capacity, map := ⟨[]⟩, order := [] }

/-- Method `LRU.put`. -/
def put (a : Alert) (now : ℚ) (s : LruState) : LruState :=
  let po := purgeMapOrder now s.map s.order
  let m := po.1.set a.id a
  let order := touchOrder po.2 a.id
  let fin := evictLoop s.cap order m
  { s with map := fin.1, order := fin.2 }

/-- Method `LRU.get` (returns the hit and the mutated state). -/
def get (id : String) (now : ℚ) (s : LruState) : Option Alert × LruState :=
  let po := purgeMapOrder now s.map s.order
  match po.1.get? id with
  | some a => (some a, { s with map := po.1, order := touchOrder po.2 id })
  | none => (none, { s with map := po.1, order := po.2 })

/-- Method `LRU.has`. -/
def has (id : String) (now : ℚ) (s : LruState) : Bool × LruState :=
  let r := get id now s
  (r.1.isSome, r.2)

/-- Method `LRU.size`. -/
def size (s : LruState) : ℕ := s.map.size

/-- Method `LRU.entries`. -/
def entries (now : ℚ) (s : LruState) : List Alert × LruState :=
  let po := purgeMapOrder now s.map s.order
  (po.1.values, { s with map := po.1, order := po.2 })

end LRU

/-! ## TTLOnly policy: `src/sim/policies/ttlOnly.ts`, class `TTLOnly` -/

/-- Private fields of the `TTLOnly` class. -/
structure TtlState where
  cap : ℚ
  map : JsMap String Alert
  order : List String
deriving Repr

namespace TTLOnly

/-- Constructor of the `TTLOnly` class. -/
def mk (capacity : ℚ) : TtlState := { cap := capacity, map := ⟨[]⟩, order := [] }

/-- Method `TTLOnly.put`: purge, insert, append to the insertion queue,
then FIFO-evict while over capacity. -/
def put (a : Alert) (now : ℚ) (s : TtlState) : TtlState :=
  let po := purgeMapOrder now s.map s.order
  let m := po.1.set a.id a
  let order := po.2 ++ [a.id]
  let fin := evictLoop s.cap order m
  { s with map := fin.1, order := fin.2 }

/-- Method `TTLOnly.get`. -/
def get (id : String) (now : ℚ) (s : TtlState) : Option Alert × TtlState :=
  let po := purgeMapOrder now s.map s.order
  (po.1.get? id, { s with map := po.1, order := po.2 })

/-- Method `TTLOnly.has`. -/
def has (id : String) (now : ℚ) (s : TtlState) : Bool × TtlState :=
  let r := get id now s
  (r.1.isSome, r.2)

/-- Method `TTLOnly.size`. -/
def size (s : TtlState) : ℕ := s.map.size

/-- Method `TTLOnly.entries`. -/
def entries (now : ℚ) (s : TtlState) : List Alert × TtlState :=
  let po := purgeMapOrder now s.map s.order
  (po.1.values, { s with map := po.1, order := po.2 })

end TTLOnly

/-! ## PriorityFresh policy: `src/sim/policies/ttlOnly.ts` (second class)
and `src/sim/policies/priorityFresh.ts` as imported by run.ts -/

/-- Eviction weight set of `PriorityFresh` (`Weights` in the source). -/
structure PfpWeights where
  wS : ℚ
  wU : ℚ
  wF : ℚ
deriving DecidableEq, Repr

/-- Private fields of the `PriorityFresh` class.  The optional PF predictor
is threaded separately (the engine owns the same mutable model object). -/
structure PfpState where
  cap : ℚ
  map : JsMap String Alert
  w : PfpWeights
deriving Repr

namespace PriorityFresh

/-- Constructor of the `PriorityFresh` class: defaults `wS=2, wU=3, wF=4`
overridden by any provided weights. -/
def mk (capacity : ℚ) (wS wU wF : Option ℚ) : PfpState :=
  { cap := capacity, map := ⟨[]⟩,
    w := { wS := wS.getD 2, wU := wU.getD 3, wF := wF.getD 4 } }

/-- Severity weight (`sevWeight` method). -/
def sevWeight : Severity → ℚ
  | .extreme => 4
  | .severe => 3
  | .moderate => 2
  | .minor => 1
  | .unknown => 2

/-- Urgency weight (`urgWeight` method). -/
def urgWeight : Urgency → ℚ
  | .immediate => 3
  | .expected => 2
  | .future => 3/2
  | .past => 1/2
  | .unknown => 3/2

/-- Freshness decay (`freshness` method): `exp(-λ·max(0, now - issuedAt))`
with `λ = 1/600`. -/
def freshness (M : MathModel) (a : Alert) (now : ℚ) : ℚ :=
  M.exp (-(1/600) * max 0 (now - a.issuedAt))

/-- Scoring (`score` method): weighted base score, plus the PF detail total
when a predictor is attached (which may consume exploration draws from the
model's random source). -/
def score (M : MathModel) (s : PfpState) (pf : Option PFModel) (a : Alert)
    (now : ℚ) : ℚ × Option PFModel :=
  let sev := sevWeight a.severity
  let urg := urgWeight a.urgency
  let fresh := freshness M a now
  let base := s.w.wS * sev + s.w.wU * urg + s.w.wF * fresh
  match pf with
  | none => (base, none)
  | some model =>
    let r := PFModel.score M model a
      { now := now, freshness := fresh, baseScore := base } true
    (r.1.total, some r.2)

/-- Loop body of the lowest-score scan in `PriorityFresh.put` (`if (s <
worstScore)` with `worstScore` starting at `Infinity`, modelled by `none`;
the first minimum wins). -/
def scanStep (M : MathModel) (s : PfpState) (now : ℚ)
    (acc : Option (String × ℚ) × Option PFModel) (p : String × Alert) :
    Option (String × ℚ) × Option PFModel :=
  let r := score M s acc.2 p.2 now
  match acc.1 with
  | none => (some (p.1, r.1), r.2)
  | some (wid, wsc) =>
    (if r.1 < wsc then some (p.1, r.1) else some (wid, wsc), r.2)

/-- Method `PriorityFresh.put`: purge; insert directly when below capacity;
otherwise scan the cached entries for the lowest score (first minimum wins,
`Infinity` initial), delete it when its id is truthy, and insert the
candidate unconditionally. -/
def put (M : MathModel) (a : Alert) (now : ℚ) (s : PfpState)
    (pf : Option PFModel) : PfpState × Option PFModel :=
  let m := purgeMap now s.map
  if (m.size : ℚ) < s.cap then ({ s with map := m.set a.id a }, pf)
  else
    let scan := m.entries.foldl (scanStep M s now) (none, pf)
    let m2 := match scan.1 with
      | some (wid, _) => if wid = "" then m else m.delete wid
      | none => m
    ({ s with map := m2.set a.id a }, scan.2)

/-- Method `PriorityFresh.get`. -/
def get (id : String) (now : ℚ) (s : PfpState) : Option Alert × PfpState :=
  let m := purgeMap now s.map
  (m.get? id, { s with map := m })

/-- Method `PriorityFresh.has`. -/
def has (id : String) (now : ℚ) (s : PfpState) : Bool × PfpState :=
  let r := get id now s
  (r.1.isSome, r.2)

/-- Method `PriorityFresh.size`. -/
def size (s : PfpState) : ℕ := s.map.size

/-- Method `PriorityFresh.entries`. -/
def entries (now : ℚ) (s : PfpState) : List Alert × PfpState :=
  let m := purgeMap now s.map
  (m.values, { s with map := m })

end PriorityFresh

end Aware

namespace Aware

/-! ## Count-min sketch used by PAFTinyLFU:
`src/sim/policies/frequency-sketch.ts`, class `FrequencySketch` -/

/-- Private fields of the `FrequencySketch` class: four `Uint16Array` lanes
(modelled as total functions with values below `2^16`) and the power-of-two
width. -/
structure SketchState where
  size : ℕ
  laneA : ℕ → ℕ
  laneB : ℕ → ℕ
  laneC : ℕ → ℕ
  laneD : ℕ → ℕ

namespace FrequencySketch

/-- String hash of frequency-sketch.ts (`hash` method): FNV-1a with a final
mix, returned as unsigned 32-bit. -/
def hash (key : String) : ℕ :=
  let h := key.data.foldl (fun h c => imul (xor32 h c.toNat) 16777619) 2166136261
  let h := xor32 h (shr32 h 13)
  let h := imul h 1540483477
  xor32 h (shr32 h 15)

/-- Constructor of the `FrequencySketch` class:
`size = 1 << ceil(log2(max(16, size)))`, zeroed lanes. -/
def mk (size : ℕ) : SketchState :=
  { size := 2 ^ Nat.clog 2 (max 16 size),
    laneA := fun _ => 0, laneB := fun _ => 0,
    laneC := fun _ => 0, laneD := fun _ => 0 }

/-- Update of one `Uint16Array` cell by `++` (wraps at `2^16`). -/
def bump (lane : ℕ → ℕ) (i : ℕ) : ℕ → ℕ :=
  fun j => if j = i then (lane i + 1) % 65536 else lane j

/-- Method `FrequencySketch.increment`: bump one cell per lane at the four
derived indices. -/
def increment (key : String) (s : SketchState) : SketchState :=
  let h := hash key
  let mask := s.size - 1
  { s with
    laneA := bump s.laneA (h &&& mask)
    laneB := bump s.laneB ((h >>> 8) &&& mask)
    laneC := bump s.laneC ((h >>> 16) &&& mask)
    laneD := bump s.laneD ((h >>> 24) &&& mask) }

/-- Method `FrequencySketch.estimate`: minimum of the four lane counters. -/
def estimate (key : String) (s : SketchState) : ℕ :=
  let h := hash key
  let mask := s.size - 1
  min (min (s.laneA (h &&& mask)) (s.laneB ((h >>> 8) &&& mask)))
    (min (s.laneC ((h >>> 16) &&& mask)) (s.laneD ((h >>> 24) &&& mask)))

end FrequencySketch

/-! ## Aging TinyLFU sketch of the research harness:
the second `FrequencySketch` class of the source tree (4-bit saturating
counters with periodic halving) -/

/-- Private fields of the harness `FrequencySketch` class: `depth` rows of
`width` 4-bit saturating counters, the running increment count `size`, and
the aging threshold `sampleSize`. -/
structure TinySketch where
  width : ℕ
  depth : ℕ
  size : ℕ
  sampleSize : ℕ
  tableMask : ℕ
  counters : ℕ → ℕ → ℕ

namespace TinySketch

/-- Constructor of the harness sketch: `width = max(4, ceil(items / 4))`,
`depth = 4`, `sampleSize = 10 · items`. -/
def make (expectedItems : ℕ) : TinySketch :=
  { width := max 4 ((expectedItems + 3) / 4), depth := 4, size := 0,
    sampleSize := 10 * expectedItems,
    tableMask := max 4 ((expectedItems + 3) / 4) - 1,
    counters := fun _ _ => 0 }

/-- String hash of the harness sketch (`hash` method): the signed 32-bit
`((h << 5) - h + c) & 0xffffffff` accumulator. -/
def baseHash (key : String) : ℤ :=
  key.data.foldl (fun h c => toInt32 (toInt32 (h * 32) - h + c.toNat)) 0

/-- The four derived row hashes (`Math.abs(hash + i·0x9e3779b9) >>> 0`). -/
def rowHash (key : String) (i : ℕ) : ℕ :=
  toUint32 ((baseHash key + i * 2654435769).natAbs)

/-- Counter table with every cell halved (`reset` method body). -/
def halved (c : ℕ → ℕ → ℕ) : ℕ → ℕ → ℕ := fun i j => c i j / 2

/-- Method `reset` of the harness sketch: halve every counter, zero the
running count. -/
def reset (s : TinySketch) : TinySketch :=
  { s with counters := halved s.counters, size := 0 }

/-- Counter table after applying one increment of `key` (each of the 4 rows
bumps its cell unless saturated at 15). -/
def incCounters (s : TinySketch) (key : String) : ℕ → ℕ → ℕ :=
  fun i j =>
    if i < s.depth ∧ j = rowHash key i &&& s.tableMask ∧ s.counters i j < 15 then
      s.counters i j + 1
    else s.counters i j

/-- Method `increment` of the harness sketch: bump the four cells, count the
increment, and age (halve everything) once the running count reaches the
sample size. -/
def increment (key : String) (s : TinySketch) : TinySketch :=
  let s2 := { s with counters := incCounters s key, size := s.size + 1 }
  if s2.sampleSize ≤ s2.size then reset s2 else s2

/-- Method `estimate` of the harness sketch: minimum of the four row
counters, starting from the saturation ceiling 15. -/
def estimate (key : String) (s : TinySketch) : ℕ :=
  (List.range s.depth).foldl
    (fun acc i => min acc (s.counters i (rowHash key i &&& s.tableMask))) 15

end TinySketch

/-! ## PAFTinyLFU policy: `src/sim/policies/PAFTinyLFUCache.ts` -/

/-- Private fields of the `PAFTinyLFUCache` class. -/
structure PafState where
  cap : ℚ
  map : JsMap String Alert
  order : List String
  sketch : SketchState

namespace PAFTinyLFU

/-- Constructor of the `PAFTinyLFUCache` class (sketch width 4096). -/
def mk (capacity : ℚ) : PafState :=
  { cap := capacity, map := ⟨[]⟩, order := [],
    sketch := FrequencySketch.mk 4096 }

/-- Method `touch`: recency bump plus a sketch increment of the id. -/
def touch (id : String) (s : PafState) : PafState :=
  { s with order := touchOrder s.order id
           sketch := FrequencySketch.increment id s.sketch }

/-- Victim scan of `put`: `victimId = sample[0]` then keep the strictly
smaller estimate (first minimum wins). -/
def selectVictim (sk : SketchState) (v0 : String) (sample : List String) :
    String × ℕ :=
  sample.foldl
    (fun (acc : String × ℕ) id =>
      let e := FrequencySketch.estimate id sk
      if e < acc.2 then (id, e) else acc)
    (v0, FrequencySketch.estimate v0 sk)

/-- Method `PAFTinyLFUCache.put`: purge; increment the sketch at the
admission key (`threadKey ?? id`); insert directly when below capacity;
otherwise pick the least-frequent of the up-to-8 oldest entries as victim
and admit the candidate only when its estimate reaches the victim's.  An
empty sample (only reachable with capacity ≤ 0) raises a `TypeError` in the
source; it is modelled as leaving the cache unchanged. -/
def put (a : Alert) (now : ℚ) (s : PafState) : PafState :=
  let po := purgeMapOrder now s.map s.order
  let s1 : PafState := { s with map := po.1, order := po.2 }
  let key := a.threadKey.getD a.id
  let sk := FrequencySketch.increment key s1.sketch
  let s2 : PafState := { s1 with sketch := sk }
  if (s2.map.size : ℚ) < s2.cap then
    touch a.id { s2 with map := s2.map.set a.id a }
  else
    let sample := s2.order.take 8
    match sample with
    | [] => s2
    | v0 :: _ =>
      let victim := selectVictim sk v0 sample
      let candScore := FrequencySketch.estimate key sk
      if victim.2 ≤ candScore then
        let s3 : PafState :=
          if victim.1 = "" then s2
          else { s2 with map := s2.map.delete victim.1
                         order := s2.order.erase victim.1 }
        touch a.id { s3 with map := s3.map.set a.id a }
      else s2

/-- Method `PAFTinyLFUCache.get`. -/
def get (id : String) (now : ℚ) (s : PafState) : Option Alert × PafState :=
  let po := purgeMapOrder now s.map s.order
  let s1 : PafState := { s with map := po.1, order := po.2 }
  match s1.map.get? id with
  | some a => (some a, touch id s1)
  | none => (none, s1)

/-- Method `PAFTinyLFUCache.has`. -/
def has (id : String) (now : ℚ) (s : PafState) : Bool × PafState :=
  let r := get id now s
  (r.1.isSome, r.2)

/-- Method `PAFTinyLFUCache.size`. -/
def size (s : PafState) : ℕ := s.map.size

/-- Method `PAFTinyLFUCache.entries`. -/
def entries (now : ℚ) (s : PafState) : List Alert × PafState :=
  let po := purgeMapOrder now s.map s.order
  (po.1.values, { s with map := po.1, order := po.2 })

end PAFTinyLFU

end Aware

namespace Aware

/-! ## Environment generator: `src/sim/geo/generate.ts` -/

/-- Minimum running value for a possibly-infinite JS accumulator
(`none` models `Infinity`). -/
def optMin (t : Option ℚ) (c : ℚ) : Option ℚ :=
  match t with
  | none => some c
  | some v => some (min v c)

/-- Euclidean distance (`distance` in geo/generate.ts). -/
def geoDistance (M : MathModel) (a b : Point) : ℚ :=
  M.sqrt ((a.1 - b.1) * (a.1 - b.1) + (a.2 - b.2) * (a.2 - b.2))

/-- Ray-to-plane-boundary distance (`distanceToBounds` in geo/generate.ts).
The JS accumulator starts at `Infinity` (modelled as `none`); the fallback
`max(width, height)` applies when no candidate was finite or the minimum is
not positive. -/
def distanceToBounds (cx cy : ℚ) (dir : Point) (width height : ℚ) : ℚ :=
  let eps : ℚ := 1/1000000
  let t0 : Option ℚ := none
  let t1 :=
    if eps < |dir.1| then
      let tx1 := (0 - cx) / dir.1
      let tx2 := (width - cx) / dir.1
      let ta := if eps < tx1 then optMin t0 tx1 else t0
      if eps < tx2 then optMin ta tx2 else ta
    else t0
  let t2 :=
    if eps < |dir.2| then
      let ty1 := (0 - cy) / dir.2
      let ty2 := (height - cy) / dir.2
      let ta := if eps < ty1 then optMin t1 ty1 else t1
      if eps < ty2 then optMin ta ty2 else ta
    else t1
  match t2 with
  | some t => if t ≤ 0 then max width height else t
  | none => max width height

/-- Voronoi bisector distance along a direction (`distanceToBisector` in
geo/generate.ts); `none` models the `Infinity` returned for non-positive
projections. -/
def distanceToBisector (center other : Point) (dir : Point) : Option ℚ :=
  let dx := other.1 - center.1
  let dy := other.2 - center.2
  let proj := dx * dir.1 + dy * dir.2
  if proj ≤ 0 then none
  else some ((dx * dx + dy * dy) / (2 * proj))

/-- Polygon construction for one region (`buildVoronoiPolygon` in
geo/generate.ts): 36 direction samples, each limited by the plane bounds and
all pairwise bisectors, jittered by `0.78 + 0.18·u`. -/
def buildVoronoiPolygon (M : MathModel) (index : ℕ) (centers : List Point)
    (width height : ℚ) (rng : ℕ) : List Point × ℕ :=
  let c := centers.getD index (0, 0)
  (List.range 36).foldl
    (fun (acc : List Point × ℕ) i =>
      let angle := M.pi * 2 * i / 36
      let dir : Point := (M.cos angle, M.sin angle)
      let limit0 := distanceToBounds c.1 c.2 dir width height
      let limit := centers.enum.foldl
        (fun limit jp =>
          if jp.1 = index then limit
          else
            match distanceToBisector c jp.2 dir with
            | some cand => if 0 < cand ∧ cand < limit then cand else limit
            | none => limit)
        limit0
      let d := mulberry32Next acc.2
      let jitter := 78/100 + d.2 * (18/100)
      let radius := max 25 (limit * jitter)
      let x := clampQ 0 width (c.1 + dir.1 * radius)
      let y := clampQ 0 height (c.2 + dir.2 * radius)
      (acc.1 ++ [(x, y)], d.1))
    ([], rng)

/-- Center rejection sampling (`pickCenters` in geo/generate.ts): up to 3000
candidate draws, accepting those beyond the minimum spacing from every
accepted center. -/
def pickCentersLoop (M : MathModel) (width height minSpacing : ℚ)
    (count : ℕ) : ℕ → List Point → ℕ → List Point × ℕ
  | 0, centers, rng => (centers, rng)
  | fuel + 1, centers, rng =>
    if count ≤ centers.length then (centers, rng)
    else
      let d1 := mulberry32Next rng
      let d2 := mulberry32Next d1.1
      let candidate : Point :=
        (60 + d1.2 * (width - 120), 60 + d2.2 * (height - 120))
      let ok := centers.all
        (fun existing => decide (minSpacing ≤ geoDistance M existing candidate))
      pickCentersLoop M width height minSpacing count fuel
        (if ok then centers ++ [candidate] else centers) d2.1

/-- Relaxed fill of the remaining centers (second loop of `pickCenters`). -/
def fillCenters (width height : ℚ) : ℕ → List Point → ℕ → List Point × ℕ
  | 0, centers, rng => (centers, rng)
  | need + 1, centers, rng =>
    let d1 := mulberry32Next rng
    let d2 := mulberry32Next d1.1
    fillCenters width height need
      (centers ++ [(60 + d1.2 * (width - 120), 60 + d2.2 * (height - 120))]) d2.1

/-- Function `pickCenters` of geo/generate.ts. -/
def pickCenters (M : MathModel) (width height : ℚ) (count : ℕ) (rng : ℕ) :
    List Point × ℕ :=
  let minSpacing := max 40 (min width height / M.sqrt count) * (8/10)
  let r1 := pickCentersLoop M width height minSpacing count 3000 [] rng
  fillCenters width height (count - r1.1.length) r1.1 r1.2

/-- Function `generateEnvironment` of geo/generate.ts: pick centers, then
per region build the polygon, draw the local reliability factor, and draw
the severity class. -/
def generateEnvironment (M : MathModel) (rng : ℕ) (width height : ℚ)
    (regionTarget : ℕ) : Environment × ℕ :=
  let count := max 1 regionTarget
  let pc := pickCenters M width height count rng
  let centers := pc.1
  let fin := centers.enum.foldl
    (fun (acc : List Region × ℕ) ip =>
      let poly := buildVoronoiPolygon M ip.1 centers width height acc.2
      let d1 := mulberry32Next poly.2
      let localFactor := clampQ (7/10) (13/10) (9/10 + (d1.2 - 1/2) * (6/10))
      let d2 := mulberry32Next d1.1
      let sevRes : RegionSev × ℕ :=
        if d2.2 < 15/100 then (.extreme, d2.1)
        else
          let d3 := mulberry32Next d2.1
          if d3.2 < 55/100 then (.severe, d3.1) else (.moderate, d3.1)
      (acc.1 ++ [{ id := "R" ++ toString (ip.1 + 1), center := ip.2,
                   polygon := poly.1, localFactor := localFactor,
                   severity := sevRes.1 }], sevRes.2))
    ([], pc.2)
  ({ width := width, height := height, regions := fin.1 }, fin.2)

end Aware

namespace Aware

/-! ## PF model constructor: `PriorityForecastModel`'s `constructor` -/

/-- Optional constructor arguments of `PriorityForecastModel` (its `opts`
parameter, minus the random source, which carries a function and is passed
separately). -/
structure PFCreateOpts where
  learningRate : Option ℚ := none
  regularization : Option ℚ := none
  decay : Option ℚ := none
  baseScoreNorm : Option ℚ := none
  explorationEpsilon : Option ℚ := none
  temperature : Option ℚ := none
  hashBucketCount : Option ℚ := none
  initialState : Option PFState := none

/-- Constructor of `PriorityForecastModel`: bucket count clamp, feature
count `13 + 7 + 3 + B`, weight/accumulator restore only on exact length
match, hyperparameter defaults `lr=0.05, reg=0.0005, decay=0.99, norm=15,
ε=0 (clamped), T=max(1e-3, 1)`.  The region lookup keys are the (distinct
by construction) region ids. -/
def PFModel.create (environment : Environment)
    (weatherHistory : JsMap String RegionWeatherRecord)
    (anomalyHistory : JsMap String RegionAnomalyHistory)
    (o : PFCreateOpts) (rng : PfRng) : PFModel :=
  let hashBucketCount := (max 0 ⌊o.hashBucketCount.getD 32⌋).toNat
  let featureCount := 13 + 7 + 3 + hashBucketCount
  let init := o.initialState
  let weights := match init with
    | some st => if st.weights.length = featureCount then st.weights
                 else List.replicate featureCount 0
    | none => List.replicate featureCount 0
  let g2 := match init with
    | some st => if st.g2.length = featureCount then st.g2
                 else List.replicate featureCount (1/1000000)
    | none => List.replicate featureCount (1/1000000)
  { weights := weights, g2 := g2,
    learningRate := o.learningRate.getD ((init.map (·.learningRate)).getD (5/100)),
    regularization := o.regularization.getD ((init.map (·.regularization)).getD (5/10000)),
    decay := o.decay.getD ((init.map (·.decay)).getD (99/100)),
    baseScoreNorm := o.baseScoreNorm.getD 15,
    explorationEpsilon := clamp01 (o.explorationEpsilon.getD 0),
    temperature := max (1/1000) (o.temperature.getD ((init.map (·.temperature)).getD 1)),
    rng := rng,
    regionLookup := ⟨environment.regions.map (fun r => (r.id, r))⟩,
    weatherLookup := weatherHistory, anomalyLookup := anomalyHistory,
    hashBucketCount := hashBucketCount }

/-! ## Run options and policy dispatch: `src/sim/run.ts` -/

/-- Policy selector (`RunOptions['policy']` in run.ts). -/
inductive PolicyName
  | LRU | TTLOnly | PriorityFresh | PAFTinyLFU
deriving DecidableEq, Repr

/-- Seed derivation mode (`SeedMode` in run.ts). -/
inductive SeedMode
  | Fixed | DeterministicJitter | Randomized
deriving DecidableEq, Repr

/-- Engine options (`RunOptions` in run.ts).  `pfRandomize` is a plain
boolean (`undefined` is falsy in the source's use of it). -/
structure RunOptions where
  scenario : ScenarioName
  policy : PolicyName
  cacheSize : ℚ
  alerts : ℚ
  reliability : ℚ
  durationSec : ℚ
  queryRatePerMin : ℚ
  seed : String
  wS : Option ℚ := none
  wU : Option ℚ := none
  wF : Option ℚ := none
  replicates : Option ℚ := none
  seedMode : Option SeedMode := none
  pfExplorationEpsilon : Option ℚ := none
  pfTrainingSamples : Option (List PFTrainingSample) := none
  pfRandomize : Bool := false
  pfInitialState : Option PFState := none
  pfHashBuckets : Option ℚ := none
  pfTemperature : Option ℚ := none
  pfDecay : Option ℚ := none
  pfLearningRate : Option ℚ := none
  pfRegularization : Option ℚ := none
  pushRateLimitPerMin : Option ℚ := none
  pushDedupWindowSec : Option ℚ := none
  pushThreshold : Option ℚ := none
  deliveryRetryIntervalSec : Option ℚ := none
  deliveryMaxAttempts : Option ℚ := none

/-- Sum of the four policy classes behind the `CachePolicy` interface. -/
inductive PolicyState
  | lru : LruState → PolicyState
  | ttlOnly : TtlState → PolicyState
  | priorityFresh : PfpState → PolicyState
  | paf : PafState → PolicyState

/-- Dispatch of `policy.put`.  Only `PriorityFresh` consults (and threads)
the PF predictor, which the engine and the policy share in the source. -/
def PolicyState.put (M : MathModel) (a : Alert) (now : ℚ)
    (pf : Option PFModel) : PolicyState → PolicyState × Option PFModel
  | .lru s => (.lru (LRU.put a now s), pf)
  | .ttlOnly s => (.ttlOnly (TTLOnly.put a now s), pf)
  | .priorityFresh s =>
    let r := PriorityFresh.put M a now s pf
    (.priorityFresh r.1, r.2)
  | .paf s => (.paf (PAFTinyLFU.put a now s), pf)

/-- Dispatch of `policy.get`. -/
def PolicyState.get (id : String) (now : ℚ) :
    PolicyState → Option Alert × PolicyState
  | .lru s => let r := LRU.get id now s; (r.1, .lru r.2)
  | .ttlOnly s => let r := TTLOnly.get id now s; (r.1, .ttlOnly r.2)
  | .priorityFresh s => let r := PriorityFresh.get id now s; (r.1, .priorityFresh r.2)
  | .paf s => let r := PAFTinyLFU.get id now s; (r.1, .paf r.2)

/-- Dispatch of `policy.size`. -/
def PolicyState.size : PolicyState → ℕ
  | .lru s => LRU.size s
  | .ttlOnly s => TTLOnly.size s
  | .priorityFresh s => PriorityFresh.size s
  | .paf s => PAFTinyLFU.size s

/-- Dispatch of `policy.entries`. -/
def PolicyState.entries (now : ℚ) : PolicyState → List Alert × PolicyState
  | .lru s => let r := LRU.entries now s; (r.1, .lru r.2)
  | .ttlOnly s => let r := TTLOnly.entries now s; (r.1, .ttlOnly r.2)
  | .priorityFresh s => let r := PriorityFresh.entries now s; (r.1, .priorityFresh r.2)
  | .paf s => let r := PAFTinyLFU.entries now s; (r.1, .paf r.2)

/-- Function `createPolicy` of run.ts.  The source hands the predictor to
the `PriorityFresh` constructor; in this embedding the predictor is
threaded through `PolicyState.put` instead, so the argument is accepted and
the same sharing is modelled by the engine state. -/
def createPolicy (opts : RunOptions) (predictor : Option PFModel) : PolicyState :=
  match opts.policy with
  | .LRU => .lru (LRU.mk opts.cacheSize)
  | .TTLOnly => .ttlOnly (TTLOnly.mk opts.cacheSize)
  | .PAFTinyLFU => .paf (PAFTinyLFU.mk opts.cacheSize)
  | .PriorityFresh => .priorityFresh (PriorityFresh.mk opts.cacheSize opts.wS opts.wU opts.wF)

/-- Function `pickScenario` of run.ts (anything but Urban/Suburban falls
through to Rural). -/
def pickScenario : ScenarioName → ScenarioSpec
  | .Urban => UrbanScenario
  | .Suburban => SuburbanScenario
  | .Rural => RuralScenario

/-- Display name of a scenario (JS string interpolation of the name). -/
def scenarioNameString : ScenarioName → String
  | .Urban => "Urban"
  | .Suburban => "Suburban"
  | .Rural => "Rural"

/-- Display name of a severity (JS string literal union values). -/
def severityString : Severity → String
  | .minor => "Minor"
  | .moderate => "Moderate"
  | .severe => "Severe"
  | .extreme => "Extreme"
  | .unknown => "Unknown"

/-- Region count per scenario (`REGION_TARGETS` in run.ts). -/
def REGION_TARGETS : ScenarioName → ℕ
  | .Urban => 18
  | .Suburban => 12
  | .Rural => 8

/-- Function `buildEnvironmentForRun` of run.ts (plane 960×540, env rng
forked from `seed|env|scenario`). -/
def buildEnvironmentForRun (M : MathModel) (opts : RunOptions) : Environment :=
  let envSeed := opts.seed ++ "|env|" ++ scenarioNameString opts.scenario
  (generateEnvironment M (hashStringToSeed envSeed) 960 540
    (REGION_TARGETS opts.scenario)).1

/-! ## Engine numeric helpers of run.ts -/

/-- Knuth Poisson sampler (`poisson` in run.ts).  The fuel bounds the
unbounded JS `do`/`while`; the bound is never reached in any run evaluated
in this development. -/
def poissonGo (L : ℚ) : ℕ → ℚ → ℕ → ℕ → ℕ × ℕ
  | 0, p, k, rng => (k - 1, rng)
  | fuel + 1, p, k, rng =>
    let d := mulberry32Next rng
    let p2 := p * d.2
    let k2 := k + 1
    if L < p2 then poissonGo L fuel p2 k2 d.1 else (k2 - 1, d.1)

/-- Function `poisson` of run.ts: returns the draw and the advanced rng. -/
def poisson (M : MathModel) (lambdaPerStep : ℚ) (rng : ℕ) : ℕ × ℕ :=
  poissonGo (M.exp (-lambdaPerStep)) 1000 1 0 rng

/-- Draw-until-nonzero of the Box–Muller sampler (`while (u === 0)`); the
fuel bounds the unbounded JS loop. -/
def drawNonzero : ℕ → ℕ → ℚ × ℕ
  | 0, rng => let d := mulberry32Next rng; (d.2, d.1)
  | fuel + 1, rng =>
    let d := mulberry32Next rng
    if d.2 = 0 then drawNonzero fuel d.1 else (d.2, d.1)

/-- Function `normal` of run.ts (Box–Muller). -/
def normal (M : MathModel) (mean stddev : ℚ) (rng : ℕ) : ℚ × ℕ :=
  let u := drawNonzero 100 rng
  let v := drawNonzero 100 u.2
  let n := M.sqrt (-2 * M.log u.1) * M.cos (2 * M.pi * v.1)
  (n * stddev + mean, v.2)

/-- Function `expRand` of run.ts. -/
def expRand (M : MathModel) (mean : ℚ) (rng : ℕ) : ℚ × ℕ :=
  let d := mulberry32Next rng
  let u := if d.2 < 1/100000000 then 1/100000000 else d.2
  (-mean * M.log u, d.1)

/-- Function `freshness` of run.ts: `clamp01(exp(-age / max(1, ttlSec)))`
with `age = max(0, now - issuedAt)`. -/
def engineFreshness (M : MathModel) (a : Alert) (now : ℚ) : ℚ :=
  let age := max 0 (now - a.issuedAt)
  clamp01 (M.exp (-(age / max 1 a.ttlSec)))

/-- Function `sevW` of run.ts. -/
def sevW : Severity → ℚ
  | .extreme => 3
  | .severe => 2
  | _ => 1

/-- Function `urgW` of run.ts. -/
def urgW : Urgency → ℚ
  | .immediate => 3
  | .expected => 2
  | _ => 1

/-- Scan of the weighted pick (`for` loop of `biasedPick`): subtract the
weights until the threshold crosses zero; fall through to the last item. -/
def scanPick : List (Alert × ℚ) → ℚ → Alert → Alert
  | [], _, fallback => fallback
  | (a, w) :: rest, r, fallback =>
    if r - w ≤ 0 then a else scanPick rest (r - w) fallback

/-- Function `biasedPick` of run.ts: weight the purged entries by urgency,
severity, and freshness; uniform fallback when the weight mass vanishes. -/
def biasedPick (M : MathModel) (now : ℚ) (ps : PolicyState) (rng : ℕ) :
    Option Alert × PolicyState × ℕ :=
  let er := PolicyState.entries now ps
  let items := er.1
  if items.isEmpty then (none, er.2, rng)
  else
    let weights := items.map
      (fun a => urgW a.urgency * sevW a.severity * engineFreshness M a now)
    let sum := weights.foldl (· + ·) 0
    if sum ≤ 0 then
      let d := mulberry32Next rng
      (some (items.getD (⌊d.2 * items.length⌋).toNat defaultAlert), er.2, d.1)
    else
      let d := mulberry32Next rng
      (some (scanPick (items.zip weights) (d.2 * sum) (items.getLastD defaultAlert)),
       er.2, d.1)

/-- Function `countRecent` of run.ts: prune entries older than the window
from the front and return the remaining count (the source splices the
array in place; the pruned list is returned here). -/
def countRecent (times : List ℚ) (now windowSec : ℚ) : List ℚ × ℕ :=
  let start := now - windowSec
  let pruned := times.dropWhile (fun x => decide (x < start))
  (pruned, pruned.length)

end Aware

namespace Aware

/-- Default region value (models in-range JS indexing fallbacks). -/
def defaultRegion : Region :=
  { id := "R0", center := (0, 0), polygon := [], localFactor := 1,
    severity := .moderate }

/-- Function `pickRegion` of run.ts: uniform index into the region list. -/
def pickRegion (environment : Environment) (rng : ℕ) : Option Region × ℕ :=
  if environment.regions.length = 0 then (none, rng)
  else
    let d := mulberry32Next rng
    let idx := (⌊d.2 * environment.regions.length⌋).toNat
    (some (environment.regions.getD idx
      (environment.regions.getD 0 defaultRegion)), d.1)

/-- Function `pickUrgency` of run.ts. -/
def pickUrgency (rng : ℕ) : Urgency × ℕ :=
  let d := mulberry32Next rng
  let r := d.2
  (if r < 45/100 then .immediate
   else if r < 85/100 then .expected
   else if r < 95/100 then .future
   else if r < 98/100 then .past
   else .unknown, d.1)

/-- Function `pickSeverity` of run.ts: region-severity-biased draw. -/
def pickSeverity (rng : ℕ) (regionSeverity : Option RegionSev) : Severity × ℕ :=
  let bias : ℚ :=
    if regionSeverity = some .extreme then 12/100
    else if regionSeverity = some .severe then 6/100 else 0
  let d := mulberry32Next rng
  let r := d.2
  (if r < 5/100 then .unknown
   else if r < 20/100 + bias then .extreme
   else if r < 55/100 + bias * (1/2) then .severe
   else if r < 85/100 then .moderate
   else .minor, d.1)

/-- Thread-key bookkeeping step of `synthAlerts` (the `makeUpdate` /
fresh-salted-thread block).  Returns the chosen thread key, the update
number, the updated thread map, and the advanced rng. -/
structure ThreadChoice where
  threadKey : String
  updateNo : ℚ
  threads : JsMap String ℚ
  rng : ℕ

/-- Loop body and loop of `synthAlerts` in run.ts, fuelled by the horizon
(every iteration advances `t` by at least one second, so the fuel is never
the binding constraint). -/
def synthLoop (M : MathModel) (opts : RunOptions) (scenario : ScenarioSpec)
    (environment : Environment) :
    ℕ → ℚ → ℕ → JsMap String ℚ → List Alert → ℕ → List Alert × ℕ
  | 0, _, _, _, acc, rng => (acc, rng)
  | fuel + 1, t, idCounter, threads, acc, rng =>
    if ((acc.length : ℚ) < opts.alerts) ∧ (t < opts.durationSec) then
      let seg := getSegment scenario t
      let baseRatePerSec := scenario.baseAlertRatePerMin / 60
      let rate := baseRatePerSec * (seg.alertRateMul.getD 1)
      let g := expRand M (1 / max rate (1/1000000)) rng
      let gap := max 1 (jsRound g.1)
      let t2 := t + gap
      let nr := normal M scenario.meanTTL (scenario.meanTTL * (25/100)) g.2
      let ttl := jsRound (max 120 nr.1)
      let rp := pickRegion environment nr.2
      let regionId := ((rp.1.map (·.id)).getD "R0")
      let sv := pickSeverity rp.2 (rp.1.map (·.severity))
      let ur := pickUrgency sv.2
      let tr := mulberry32Next ur.2
      let eventType :=
        if tr.2 < 7/10 then "Flood"
        else if tr.2 < 85/100 then "Shelter" else "Other"
      let mu := mulberry32Next tr.1
      let makeUpdate := (mu.2 < 3/10) ∧ (0 < threads.size)
      let threadKey0 := eventType ++ ":" ++ regionId
      let threads1 :=
        if threads.has threadKey0 then threads else threads.set threadKey0 0
      let updateNo0 := threads1.getD threadKey0 0 + 1
      let tc : ThreadChoice :=
        if makeUpdate then
          { threadKey := threadKey0, updateNo := updateNo0,
            threads := threads1, rng := mu.1 }
        else
          let d4 := mulberry32Next mu.1
          if d4.2 < 4/10 then
            let d5 := mulberry32Next d4.1
            let salted := eventType ++ ":" ++ regionId ++ ":" ++
              toString (⌊d5.2 * 1000⌋.toNat)
            { threadKey := salted, updateNo := 1,
              threads := threads1.set salted 0, rng := d5.1 }
          else
            { threadKey := threadKey0, updateNo := updateNo0,
              threads := threads1, rng := d4.1 }
      let threads2 := tc.threads.set tc.threadKey tc.updateNo
      let baseSize : ℚ :=
        if eventType = "Flood" then 1800
        else if eventType = "Shelter" then 1200 else 900
      let sizeBytes := jsRound (baseSize *
        (1 + (if sv.1 = .extreme then 3/10
              else if sv.1 = .severe then 15/100 else 0)))
      let a : Alert :=
        { id := "A" ++ toString (idCounter + 1),
          eventType := eventType, severity := sv.1, urgency := ur.1,
          issuedAt := min t2 (opts.durationSec - 1),
          ttlSec := ttl,
          sender := some "demo@aware.local",
          headline := some (severityString sv.1 ++ " " ++ eventType ++ " Alert"),
          instruction := some (if ur.1 = .immediate then "Move to higher ground"
                               else "Prepare to move if needed"),
          geokey := some regionId, regionId := some regionId,
          sizeBytes := some sizeBytes,
          threadKey := some tc.threadKey, updateNo := some tc.updateNo }
      synthLoop M opts scenario environment fuel t2 (idCounter + 1) threads2
        (acc ++ [a]) tc.rng
    else (acc, rng)

/-- Function `synthAlerts` of run.ts.  The engine rng is shared with the
main loop, so the advanced state is returned. -/
def synthAlerts (M : MathModel) (opts : RunOptions) (scenario : ScenarioSpec)
    (environment : Environment) (rng : ℕ) : List Alert × ℕ :=
  synthLoop M opts scenario environment ((max 1 ⌈opts.durationSec⌉).toNat + 1)
    0 0 ⟨[]⟩ [] rng

end Aware

namespace Aware

/-! ## Simulation engine state: the mutable locals of `runSimulation` -/

/-- Per-region accumulator (the record values of `regionStatsMap`). -/
structure RegionAcc where
  delivered : ℕ
  dropped : ℕ
  firstLatSum : ℚ
  firstRetrievals : ℕ
deriving DecidableEq, Repr

/-- Zero-initialised region accumulator. -/
def zeroAcc : RegionAcc := ⟨0, 0, 0, 0⟩

/-- Function `ensureRegionStats` of run.ts (returns the map with the key
present; readers fetch the record by key, modelling the JS aliasing). -/
def ensureRegionStats (m : JsMap String RegionAcc) (regionId : String) :
    JsMap String RegionAcc :=
  if m.has regionId then m else m.set regionId zeroAcc

/-- Pending retry entry (`PendingAttempt` in run.ts). -/
structure PendingAttempt where
  alert : Alert
  nextAttemptAt : ℚ
  attemptsLeft : ℚ
deriving DecidableEq, Repr

/-- Published per-region statistics (`RegionStats` in run.ts). -/
structure RegionStats where
  regionId : String
  delivered : ℕ
  dropped : ℕ
  firstRetrievals : ℕ
  avgFirstRetrievalLatencySec : Option ℚ
deriving DecidableEq, Repr

/-- Immutable context of one run: the read-only locals of `runSimulation`. -/
structure RunCtx where
  M : MathModel
  opts : RunOptions
  scenario : ScenarioSpec
  environment : Environment
  regionLookup : JsMap String Region
  byTime : JsMap ℚ (List Alert)
  retryInterval : ℚ
  maxAttempts : ℚ

/-- Mutable locals of `runSimulation`, one field per JS local.  The extra
field `specHitFresh` is specification instrumentation only: it records the
freshness value observed at each cache hit (the source aggregates the same
observations into `freshnessSum`/`freshnessCount`/`staleAccess`); no
definition reads it. -/
structure SimState where
  rng : ℕ
  policy : PolicyState
  pf : Option PFModel
  t : ℚ
  delivered : ℕ
  hits : ℕ
  misses : ℕ
  staleAccess : ℕ
  freshnessSum : ℚ
  freshnessCount : ℕ
  duplicateDelivered : ℕ
  pushesSent : ℕ
  pushSuppressCount : ℕ
  pushDuplicates : ℕ
  lastPushByThread : JsMap String ℚ
  firstPushTimeByThread : JsMap String ℚ
  pushTimes : List ℚ
  firstRetrievalByThread : JsMap String (ℚ × Bool)
  deliveredByThread : JsMap String ℚ
  firstRetrievalLatencyByAlert : JsMap String ℚ
  deliveredAlerts : List Alert
  issuedAlerts : List Alert
  timeline : List Sample
  pending : List PendingAttempt
  regionStatsMap : JsMap String RegionAcc
  specHitFresh : List ℚ

/-- Drop bookkeeping shared by the three drop sites of `runSimulation`:
resolve the region, bump its `dropped` counter, and train the PF model on
the drop. -/
def recordDrop (ctx : RunCtx) (a : Alert) (now : ℚ) (s : SimState) : SimState :=
  let regionId := (a.regionId.orElse (fun _ => a.geokey)).getD ""
  let m1 := ensureRegionStats s.regionStatsMap regionId
  let st := m1.getD regionId zeroAcc
  let s := { s with regionStatsMap := m1.set regionId { st with dropped := st.dropped + 1 } }
  match s.pf with
  | some model => { s with pf := some (PFModel.observeDrop ctx.M model a now) }
  | none => s

/-- Rate-window piece of the push decision (`withinRate`, which also prunes
`pushTimes` in place via `countRecent`). -/
def pushWindow (R now : ℚ) (s : SimState) : Bool × SimState :=
  if 0 < R then
    let cr := countRecent s.pushTimes now 60
    (decide ((cr.2 : ℚ) < R), { s with pushTimes := cr.1 })
  else (false, s)

/-- PF probability piece of the push decision (`p`, advancing the model). -/
def pushProb (M : MathModel) (a : Alert) (now : ℚ) (s : SimState) :
    ℚ × SimState :=
  match s.pf with
  | some model =>
    let fresh := engineFreshness M a now
    let r := PFModel.score M model a
      { now := now, freshness := fresh, baseScore := 0 } false
    (r.1.probability, { s with pf := some r.2 })
  | none => (0, s)

/-- Send/suppress piece of the push decision (the `shouldConsiderPush`
block, with the ε-greedy override drawn from the engine rng). -/
def pushSend (ctx : RunCtx) (a : Alert) (thread : String)
    (lastPushT : Option ℚ) (withinRate notDuplicate : Bool) (p tau now : ℚ)
    (s : SimState) : SimState :=
  let R := max 0 (jsFloor (ctx.opts.pushRateLimitPerMin.getD 0))
  let highImpact : Bool :=
    a.urgency = .immediate ∨ a.severity = .extreme ∨ a.severity = .severe
  let shouldConsiderPush : Bool := decide (0 < R)
  if shouldConsiderPush then
    let eps := clamp01 (ctx.opts.pfExplorationEpsilon.getD 0)
    let exr : SimState × Bool :=
      if s.pf.isSome ∧ 0 < eps then
        let d2 := mulberry32Next s.rng
        ({ s with rng := d2.1 }, decide (d2.2 < eps))
      else (s, false)
    let s := exr.1
    let explore := exr.2
    let meetsThreshold : Bool := decide (tau ≤ p) || explore
    if withinRate && notDuplicate && (meetsThreshold || highImpact) then
      let s := { s with
        pushesSent := s.pushesSent + 1
        pushTimes := s.pushTimes ++ [now]
        lastPushByThread := s.lastPushByThread.set thread now }
      let s :=
        if s.firstPushTimeByThread.has thread then s
        else { s with firstPushTimeByThread := s.firstPushTimeByThread.set thread now }
      if lastPushT.isSome then { s with pushDuplicates := s.pushDuplicates + 1 } else s
    else { s with pushSuppressCount := s.pushSuppressCount + 1 }
  else s

/-- Push decision of `attemptDelivery` (the block after `policy.put` in the
success branch): sliding-window rate limit, per-thread dedup, PF probability
threshold with ε-greedy override, and the high-impact override. -/
def pushDecision (ctx : RunCtx) (a : Alert) (regionId : String) (now : ℚ)
    (s : SimState) : SimState :=
  let R := max 0 (jsFloor (ctx.opts.pushRateLimitPerMin.getD 0))
  let D := max 0 (jsFloor (ctx.opts.pushDedupWindowSec.getD 0))
  let tau := clamp01 (ctx.opts.pushThreshold.getD 0)
  let wr := pushWindow R now s
  let withinRate := wr.1
  let s := wr.2
  let thread := a.threadKey.getD (a.eventType ++ ":" ++ regionId)
  let lastPushT : Option ℚ := s.lastPushByThread.get? thread
  let notDuplicate : Bool :=
    if 0 < D then
      match lastPushT with
      | none => true
      | some lp => decide (D < now - lp)
    else true
  let ps := pushProb ctx.M a now s
  let p := ps.1
  let s := ps.2
  pushSend ctx a thread lastPushT withinRate notDuplicate p tau now s

/-- Function `attemptDelivery` of run.ts: Bernoulli trial against the
effective reliability; on success update the delivery counters and thread
bookkeeping, admit the alert to the policy, and run the push decision. -/
def attemptDelivery (ctx : RunCtx) (a : Alert) (now : ℚ) (s : SimState) :
    Bool × SimState :=
  let regionId := (a.regionId.orElse (fun _ => a.geokey)).getD ""
  let region := ctx.regionLookup.get? regionId
  let seg := getSegment ctx.scenario now
  let regionMultiplier := (region.map (·.localFactor)).getD 1
  let effReliability := clamp01 (ctx.opts.reliability * seg.reliability * regionMultiplier)
  let s := { s with regionStatsMap := ensureRegionStats s.regionStatsMap regionId }
  let d := mulberry32Next s.rng
  let s := { s with rng := d.1 }
  if d.2 < effReliability then
    let st := s.regionStatsMap.getD regionId zeroAcc
    let s := { s with
      delivered := s.delivered + 1
      regionStatsMap := s.regionStatsMap.set regionId { st with delivered := st.delivered + 1 }
      deliveredAlerts := s.deliveredAlerts ++ [a] }
    let s := match a.threadKey with
      | some tk =>
        let count := s.deliveredByThread.getD tk 0 + 1
        let s := { s with deliveredByThread := s.deliveredByThread.set tk count }
        if 1 < count then { s with duplicateDelivered := s.duplicateDelivered + 1 } else s
      | none => s
    let pr := PolicyState.put ctx.M a now s.pf s.policy
    let s := { s with policy := pr.1, pf := pr.2 }
    (true, pushDecision ctx a regionId now s)
  else (false, s)

/-- One arrival of the main loop (`// Arrivals` block of `runSimulation`):
record the issue, attempt delivery, and on failure either enqueue a retry
or record the drop. -/
def arrivalOne (ctx : RunCtx) (s : SimState) (a : Alert) : SimState :=
  let s := { s with issuedAlerts := s.issuedAlerts ++ [a] }
  let regionId := (a.regionId.orElse (fun _ => a.geokey)).getD ""
  let s := { s with regionStatsMap := ensureRegionStats s.regionStatsMap regionId }
  let ad := attemptDelivery ctx a s.t s
  if ad.1 then ad.2
  else if 1 < ctx.maxAttempts then
    { ad.2 with pending := ad.2.pending ++
        [{ alert := a, nextAttemptAt := s.t + ctx.retryInterval,
           attemptsLeft := ctx.maxAttempts - 1 }] }
  else recordDrop ctx a s.t ad.2

/-- Arrivals phase of one step. -/
def arrivalsPhase (ctx : RunCtx) (s : SimState) : SimState :=
  (ctx.byTime.getD (jsFloor s.t) []).foldl (arrivalOne ctx) s

/-- Retry scan of one step (`// Retry pending deliveries` block): the source
iterates the pending array from the last index down to 0, splicing entries
out; the recursion processes the tail first, matching that order, and
returns the final state with the kept entries in their original order. -/
def retryGo (ctx : RunCtx) : List PendingAttempt → SimState →
    SimState × List PendingAttempt
  | [], s => (s, [])
  | p :: rest, s =>
    let r := retryGo ctx rest s
    let s1 := r.1
    let kept := r.2
    let a := p.alert
    if a.issuedAt + a.ttlSec ≤ s1.t then
      (recordDrop ctx a s1.t s1, kept)
    else if p.nextAttemptAt ≤ s1.t then
      let ad := attemptDelivery ctx a s1.t s1
      if ad.1 then (ad.2, kept)
      else if 1 < p.attemptsLeft then
        (ad.2, { p with attemptsLeft := p.attemptsLeft - 1
                        nextAttemptAt := s1.t + ctx.retryInterval } :: kept)
      else (recordDrop ctx a s1.t ad.2, kept)
    else (s1, p :: kept)

/-- Retry phase of one step (guarded by `if (pending.length)`). -/
def retryPhase (ctx : RunCtx) (s : SimState) : SimState :=
  if s.pending.isEmpty then s
  else
    let r := retryGo ctx s.pending { s with pending := [] }
    { r.1 with pending := r.2 }

/-- PF retrieval observation of the hit branch (`if (pfModel) ...`). -/
def queryHitPF (ctx : RunCtx) (cached : Alert) (fresh : ℚ) (s : SimState) :
    SimState :=
  let latency := max 0 (s.t - cached.issuedAt)
  match s.pf with
  | some model =>
    { s with pf := some (PFModel.observeRetrieval ctx.M model cached
        fresh latency s.t (some ctx.scenario.targetFirstDeliverySec)) }
  | none => s

/-- Counter part of the hit branch of the query loop: hit/freshness
counters, the stale check, and the PF retrieval observation. -/
def queryHitCount (ctx : RunCtx) (cached : Alert) (s : SimState) : SimState :=
  let fresh := engineFreshness ctx.M cached s.t
  let s1 := { s with
    hits := s.hits + 1
    freshnessSum := s.freshnessSum + fresh
    freshnessCount := s.freshnessCount + 1
    specHitFresh := s.specHitFresh ++ [fresh] }
  let s2 :=
    if fresh ≤ 0 then { s1 with staleAccess := s1.staleAccess + 1 } else s1
  queryHitPF ctx cached fresh s2

/-- First-retrieval bookkeeping of the hit branch of the query loop. -/
def queryHitFirst (ctx : RunCtx) (cached : Alert) (s : SimState) : SimState :=
  let th := cached.threadKey.getD cached.id
  let s :=
    if s.firstRetrievalByThread.has th then s
    else
      let actionable : Bool := cached.urgency = .immediate ∨
        cached.severity = .extreme ∨ cached.severity = .severe
      { s with firstRetrievalByThread := s.firstRetrievalByThread.set th (s.t, actionable) }
  if s.firstRetrievalLatencyByAlert.has cached.id then s
  else
    let latency2 := max 0 (s.t - cached.issuedAt)
    let regionId := (cached.regionId.orElse (fun _ => cached.geokey)).getD ""
    let m1 := ensureRegionStats s.regionStatsMap regionId
    let st := m1.getD regionId zeroAcc
    { s with
      firstRetrievalLatencyByAlert := s.firstRetrievalLatencyByAlert.set cached.id latency2
      regionStatsMap := m1.set regionId
        { st with firstRetrievals := st.firstRetrievals + 1
                  firstLatSum := st.firstLatSum + latency2 } }

/-- Hit branch of the query loop. -/
def queryHit (ctx : RunCtx) (cached : Alert) (s : SimState) : SimState :=
  queryHitFirst ctx cached (queryHitCount ctx cached s)

/-- One query of the query loop (`while (q-- > 0)` body). -/
def queryOnce (ctx : RunCtx) (s : SimState) : SimState :=
  let bp := biasedPick ctx.M s.t s.policy s.rng
  let s := { s with policy := bp.2.1, rng := bp.2.2 }
  match bp.1 with
  | none => { s with misses := s.misses + 1 }
  | some choice =>
    let g := PolicyState.get choice.id s.t s.policy
    let s := { s with policy := g.2 }
    match g.1 with
    | some cached => queryHit ctx cached s
    | none =>
      let s := { s with misses := s.misses + 1 }
      match s.pf with
      | some model => { s with pf := some (PFModel.observeDrop ctx.M model choice s.t) }
      | none => s

/-- The query loop, `q` iterations. -/
def queryLoop (ctx : RunCtx) : ℕ → SimState → SimState
  | 0, s => s
  | q + 1, s => queryLoop ctx q (queryOnce ctx s)

/-- Queries phase of one step: Poisson draw of the query count, then the
query loop. -/
def queriesPhase (ctx : RunCtx) (s : SimState) : SimState :=
  let seg := getSegment ctx.scenario s.t
  let segQueryMul := seg.queryRateMul.getD 1
  let queriesPerSec := ctx.opts.queryRatePerMin / 60 * segQueryMul
  let pq := poisson ctx.M queriesPerSec s.rng
  queryLoop ctx pq.1 { s with rng := pq.2 }

/-- Timeline sample push at the end of one step. -/
def samplePhase (s : SimState) : SimState :=
  { s with timeline := s.timeline ++
      [{ t := s.t, cacheSize := s.policy.size, hits := s.hits, misses := s.misses }] }

/-- One iteration of the main loop of `runSimulation`. -/
def simStep (ctx : RunCtx) (s : SimState) : SimState :=
  let s := arrivalsPhase ctx s
  let s := retryPhase ctx s
  let s := queriesPhase ctx s
  let s := samplePhase s
  { s with t := s.t + 1 }

/-- The main loop (`for (let i = 0; i < steps; i++, t += dt)`). -/
def simLoop (ctx : RunCtx) : ℕ → SimState → SimState
  | 0, s => s
  | n + 1, s => simLoop ctx n (simStep ctx s)

end Aware

namespace Aware

/-- Alert index by issue second (`byTime` pre-index in `runSimulation`). -/
def mkByTime (alertStream : List Alert) : JsMap ℚ (List Alert) :=
  alertStream.foldl
    (fun m a =>
      let key := jsFloor a.issuedAt
      m.set key (m.getD key [] ++ [a]))
    ⟨[]⟩

/-- The PF random source of a run
(`opts.pfRandomize ? Math.random : mulberry32(hashStringToSeed(seed|pf))`).
This is the only place the `Math.random` oracle enters a run. -/
def mkPfRng (opts : RunOptions) (oracle : ℕ → ℚ) : PfRng :=
  if opts.pfRandomize then .external oracle 0
  else .seeded (hashStringToSeed (opts.seed ++ "|pf"))

/-- PF model setup of `runSimulation` (the `if (opts.policy ===
'PriorityFresh')` block): weather and anomaly streams forked from the seed,
model construction, optional historical ingestion. -/
def pfSetup (M : MathModel) (opts : RunOptions) (environment : Environment)
    (pfRng : PfRng) : Option PFModel :=
  if opts.policy = .PriorityFresh then
    let weatherRng := hashStringToSeed (opts.seed ++ "|weather")
    let weatherHistory := (synthesizeWeatherHistory environment weatherRng).1
    let anomalyRng := hashStringToSeed (opts.seed ++ "|anomaly")
    let anomalyHistory := (synthesizeAnomalyHistory environment anomalyRng).1
    let model := PFModel.create environment weatherHistory anomalyHistory
      { explorationEpsilon := opts.pfExplorationEpsilon
        initialState := opts.pfInitialState
        hashBucketCount := opts.pfHashBuckets
        temperature := opts.pfTemperature
        decay := opts.pfDecay
        learningRate := opts.pfLearningRate
        regularization := opts.pfRegularization } pfRng
    let model := match opts.pfTrainingSamples with
      | some samples =>
        if samples.length = 0 then model
        else PFModel.ingestHistoricalSamples M model samples
      | none => model
    some model
  else none

/-- Initial values of the mutable locals of `runSimulation`. -/
def initState (regionStatsMap0 : JsMap String RegionAcc) (policy : PolicyState)
    (pf : Option PFModel) (rng : ℕ) : SimState :=
  { rng := rng, policy := policy, pf := pf, t := 0,
    delivered := 0, hits := 0, misses := 0, staleAccess := 0,
    freshnessSum := 0, freshnessCount := 0, duplicateDelivered := 0,
    pushesSent := 0, pushSuppressCount := 0, pushDuplicates := 0,
    lastPushByThread := ⟨[]⟩, firstPushTimeByThread := ⟨[]⟩, pushTimes := [],
    firstRetrievalByThread := ⟨[]⟩, deliveredByThread := ⟨[]⟩,
    firstRetrievalLatencyByAlert := ⟨[]⟩,
    deliveredAlerts := [], issuedAlerts := [], timeline := [], pending := [],
    regionStatsMap := regionStatsMap0, specHitFresh := [] }

/-- Setup and main loop of `runSimulation` in run.ts, producing the final
state of the mutable locals.  `oracle` models `Math.random`. -/
def simFinalState (M : MathModel) (opts : RunOptions) (oracle : ℕ → ℚ) :
    SimState :=
  let scenario := pickScenario opts.scenario
  let environment := buildEnvironmentForRun M opts
  let regionLookup : JsMap String Region :=
    ⟨environment.regions.map (fun r => (r.id, r))⟩
  let regionStatsMap0 := environment.regions.foldl
    (fun (m : JsMap String RegionAcc) r => m.set r.id zeroAcc) ⟨[]⟩
  let retryInterval := max 1 (jsFloor (opts.deliveryRetryIntervalSec.getD 0))
  let maxAttempts := max 1 (jsFloor (opts.deliveryMaxAttempts.getD 1))
  let pfModel := pfSetup M opts environment (mkPfRng opts oracle)
  let rng0 := hashStringToSeed opts.seed
  let sa := synthAlerts M opts scenario environment rng0
  let policy := createPolicy opts pfModel
  let byTime := mkByTime sa.1
  let steps := (max 1 ⌊opts.durationSec⌋).toNat
  let ctx : RunCtx :=
    { M := M, opts := opts, scenario := scenario, environment := environment,
      regionLookup := regionLookup, byTime := byTime,
      retryInterval := retryInterval, maxAttempts := maxAttempts }
  simLoop ctx steps (initState regionStatsMap0 policy pfModel sa.2)

/-- Display string of a policy name. -/
def policyNameString : PolicyName → String
  | .LRU => "LRU"
  | .TTLOnly => "TTLOnly"
  | .PriorityFresh => "PriorityFresh"
  | .PAFTinyLFU => "PAFTinyLFU"

/-- Rendering of a JS number for the `info` string.  The exact JS float
formatting is not reproduced; the rendering is an injective function of the
rational, which is all the theorems use. -/
def numString (q : ℚ) : String :=
  if q.den = 1 then toString q.num else toString q.num ++ "/" ++ toString q.den

/-- Result record of a run (`RunResult` in run.ts). -/
structure RunResult where
  metrics : Metrics
  timeline : List Sample
  info : String
  issuedAlerts : List Alert
  deliveredAlerts : List Alert
  environment : Environment
  regionStats : List RegionStats
  scenario : ScenarioName
  baselineReliability : ℚ
  seed : String
  pfState : Option PFState
deriving DecidableEq, Repr

/-- Metric and result assembly of `runSimulation` (the code after the main
loop).  The scenario and environment metadata are pure functions of the
options and are recomputed here. -/
def mkRunResult (M : MathModel) (opts : RunOptions) (s : SimState) : RunResult :=
  let scenario := pickScenario opts.scenario
  let environment := buildEnvironmentForRun M opts
  let totalRequests := s.hits + s.misses
  let threads := max 1 s.firstRetrievalByThread.size
  let targetSLA := scenario.targetFirstDeliverySec
  let timely := (s.firstRetrievalByThread.values.filter
    (fun v => decide (v.1 ≤ targetSLA))).length
  let actionableFirst := (s.firstRetrievalByThread.values.filter (·.2)).length
  let metrics : Metrics :=
    { cacheHitRate := if totalRequests = 0 then 0 else (s.hits : ℚ) / totalRequests
      deliveryRate := if opts.alerts = 0 then 0 else (s.delivered : ℚ) / opts.alerts
      avgFreshness := if s.freshnessCount = 0 then 0 else s.freshnessSum / s.freshnessCount
      staleAccessRate := if totalRequests = 0 then 0 else (s.staleAccess : ℚ) / totalRequests
      redundancyIndex := if s.delivered = 0 then 0 else (s.duplicateDelivered : ℚ) / s.delivered
      actionabilityFirstRatio := (actionableFirst : ℚ) / threads
      timelinessConsistency := if threads = 0 then 0 else (timely : ℚ) / threads
      pushesSent := s.pushesSent
      pushSuppressRate := if s.delivered = 0 then 0 else (s.pushSuppressCount : ℚ) / s.delivered
      pushDuplicateRate := if s.pushesSent = 0 then 0 else (s.pushDuplicates : ℚ) / s.pushesSent
      pushTimelyFirstRatio := if s.firstPushTimeByThread.size = 0 then 0
        else ((s.firstPushTimeByThread.values.filter
          (fun tp => decide (tp ≤ targetSLA))).length : ℚ) / s.firstPushTimeByThread.size }
  let regionStats : List RegionStats := s.regionStatsMap.entries.map
    (fun p =>
      { regionId := p.1, delivered := p.2.delivered, dropped := p.2.dropped,
        firstRetrievals := p.2.firstRetrievals,
        avgFirstRetrievalLatencySec :=
          if p.2.firstRetrievals = 0 then none
          else some (p.2.firstLatSum / p.2.firstRetrievals) })
  { metrics := metrics, timeline := s.timeline,
    info := policyNameString opts.policy ++ " on " ++
      scenarioNameString opts.scenario ++ " | cache=" ++ numString opts.cacheSize ++
      " | alerts=" ++ numString opts.alerts ++ " | reliability=" ++
      numString opts.reliability ++ " | regions=" ++
      toString environment.regions.length,
    issuedAlerts := s.issuedAlerts, deliveredAlerts := s.deliveredAlerts,
    environment := environment, regionStats := regionStats,
    scenario := opts.scenario, baselineReliability := opts.reliability,
    seed := opts.seed, pfState := s.pf.map PFModel.getState }

/-- Function `runSimulation` of run.ts: the full deterministic single-run
engine, as a function of the math model, the options, and the
`Math.random` oracle. -/
def runSimulation (M : MathModel) (opts : RunOptions) (oracle : ℕ → ℚ) :
    RunResult :=
  mkRunResult M opts (simFinalState M opts oracle)

/-! ## Batch orchestration pieces: `src/sim/batch.ts` -/

/-- Batch configuration (`BatchConfig` in batch.ts). -/
structure BatchConfig where
  replicates : ℚ
  seedMode : Option SeedMode
deriving DecidableEq, Repr

/-- Function `sanitizeConfig` of batch.ts:
`replicates = max(1, floor(replicates || 1))` (so `0` is clamped, not
rejected) and `seedMode = seedMode ?? 'Fixed'`. -/
def sanitizeConfig (config : BatchConfig) : BatchConfig :=
  let base := if config.replicates = 0 then 1 else config.replicates
  { replicates := max 1 (jsFloor base), seedMode := some (config.seedMode.getD .Fixed) }

/-- Function `deriveSeed` of batch.ts for the two deterministic modes; the
`Randomized` mode appends a fresh UUID (modelled by the supplied suffix
oracle, which the source takes from `crypto.randomUUID()`). -/
def deriveSeed (baseSeed : String) (index : ℕ) (mode : SeedMode)
    (uuid : ℕ → String) : String :=
  match mode with
  | .Fixed => baseSeed
  | .DeterministicJitter => baseSeed ++ "#" ++ toString (index + 1)
  | .Randomized => baseSeed ++ "#" ++ uuid index

end Aware

namespace Aware

/-! ## Lemmas about the JsMap model -/

theorem JsMap.get?_some_mem {β : Type} (m : JsMap String β) (k : String) (v : β)
    (h : m.get? k = some v) : (k, v) ∈ m.entries := by
  unfold JsMap.get? at h
  cases hf : m.entries.find? (fun p => p.1 = k) with
  | none => rw [hf] at h; simp at h
  | some p =>
    rw [hf] at h
    have h2 : p.2 = v := by simpa using h
    have hmem := List.mem_of_find?_eq_some hf
    have hk2 : p.1 = k := by simpa using List.find?_some hf
    have hp : p = (k, v) := by
      cases p
      simp_all
    rw [← hp]
    exact hmem

theorem JsMap.mem_delete {β : Type} (m : JsMap String β) (k : String)
    (e : String × β) : e ∈ (m.delete k).entries ↔ e ∈ m.entries ∧ e.1 ≠ k := by
  unfold JsMap.delete
  simp [List.mem_filter]

/-! ## Purge lemmas: purged caches contain no expired alert -/

theorem purgeFold_unexpired (now : ℚ) :
    ∀ (l : List (String × Alert)) (acc : JsMap String Alert),
      (∀ e ∈ acc.entries, isExpired e.2 now = false ∨
        ∃ x ∈ l, x.1 = e.1 ∧ isExpired x.2 now = true) →
      ∀ e ∈ (l.foldl
        (fun (acc : JsMap String Alert) p =>
          if isExpired p.2 now then acc.delete p.1 else acc) acc).entries,
        isExpired e.2 now = false := by
  intro l
  induction l with
  | nil =>
    intro acc hacc e he
    rcases hacc e he with h | ⟨x, hx, _, _⟩
    · exact h
    · exact absurd hx (List.not_mem_nil x)
  | cons x rest ih =>
    intro acc hacc
    simp only [List.foldl_cons]
    by_cases hx : isExpired x.2 now = true
    · rw [if_pos hx]
      apply ih
      intro e he
      rw [JsMap.mem_delete] at he
      rcases hacc e he.1 with h | ⟨y, hy, hyk, hyx⟩
      · exact Or.inl h
      · rcases List.mem_cons.mp hy with rfl | hy2
        · exact absurd (hyk.symm ▸ he.2) (by simp)
        · exact Or.inr ⟨y, hy2, hyk, hyx⟩
    · rw [if_neg hx]
      apply ih
      intro e he
      rcases hacc e he with h | ⟨y, hy, hyk, hyx⟩
      · exact Or.inl h
      · rcases List.mem_cons.mp hy with rfl | hy2
        · exact absurd hyx hx
        · exact Or.inr ⟨y, hy2, hyk, hyx⟩

theorem purgeMap_unexpired (now : ℚ) (m : JsMap String Alert) :
    ∀ e ∈ (purgeMap now m).entries, isExpired e.2 now = false := by
  unfold purgeMap
  apply purgeFold_unexpired
  intro e he
  by_cases h : isExpired e.2 now = true
  · exact Or.inr ⟨e, he, rfl, h⟩
  · exact Or.inl (by simpa using h)

theorem purgeMap_get?_unexpired (now : ℚ) (m : JsMap String Alert)
    (id : String) (a : Alert) (h : (purgeMap now m).get? id = some a) :
    isExpired a now = false :=
  purgeMap_unexpired now m (id, a) (JsMap.get?_some_mem _ _ _ h)

theorem purgeMapOrder_fst (now : ℚ) (m : JsMap String Alert)
    (order : List String) : (purgeMapOrder now m order).1 = purgeMap now m := by
  unfold purgeMapOrder purgeMap
  generalize m.entries = l
  induction l generalizing m order with
  | nil => rfl
  | cons x rest ih =>
    simp only [List.foldl_cons]
    by_cases hx : isExpired x.2 now = true
    · rw [if_pos hx, if_pos hx]
      exact ih (m.delete x.1) (order.erase x.1)
    · rw [if_neg hx, if_neg hx]
      exact ih m order

theorem purgeMap_values_unexpired (now : ℚ) (m : JsMap String Alert)
    (a : Alert) (ha : a ∈ (purgeMap now m).values) : isExpired a now = false := by
  unfold JsMap.values at ha
  rcases List.mem_map.mp ha with ⟨e, he, rfl⟩
  exact purgeMap_unexpired now m e he

/-- Expiry unfolding: `isExpired a t = true` exactly when `issuedAt + ttlSec ≤ t`. -/
theorem isExpired_iff (a : Alert) (t : ℚ) :
    isExpired a t = true ↔ a.issuedAt + a.ttlSec ≤ t := by
  unfold isExpired
  exact decide_eq_true_iff

end Aware

namespace Aware

/-! ## Claim C7: expired alerts are never returned -/

theorem LRU.lru_get_fst (id : String) (now : ℚ) (s : LruState) :
    (LRU.get id now s).1 = (purgeMap now s.map).get? id := by
  simp only [LRU.get, purgeMapOrder_fst]
  cases h : (purgeMap now s.map).get? id <;> simp [h]

theorem TTLOnly.ttl_get_fst (id : String) (now : ℚ) (s : TtlState) :
    (TTLOnly.get id now s).1 = (purgeMap now s.map).get? id := by
  simp only [TTLOnly.get, purgeMapOrder_fst]

theorem PriorityFresh.pfp_get_fst (id : String) (now : ℚ) (s : PfpState) :
    (PriorityFresh.get id now s).1 = (purgeMap now s.map).get? id := rfl

theorem PAFTinyLFU.paf_get_fst (id : String) (now : ℚ) (s : PafState) :
    (PAFTinyLFU.get id now s).1 = (purgeMap now s.map).get? id := by
  simp only [PAFTinyLFU.get, purgeMapOrder_fst]
  cases h : (purgeMap now s.map).get? id <;> simp [h]

theorem LRU.lru_entries_fst (now : ℚ) (s : LruState) :
    (LRU.entries now s).1 = (purgeMap now s.map).values := by
  simp [LRU.entries, purgeMapOrder_fst]

theorem TTLOnly.ttl_entries_fst (now : ℚ) (s : TtlState) :
    (TTLOnly.entries now s).1 = (purgeMap now s.map).values := by
  simp [TTLOnly.entries, purgeMapOrder_fst]

theorem PriorityFresh.pfp_entries_fst (now : ℚ) (s : PfpState) :
    (PriorityFresh.entries now s).1 = (purgeMap now s.map).values := rfl

theorem PAFTinyLFU.paf_entries_fst (now : ℚ) (s : PafState) :
    (PAFTinyLFU.entries now s).1 = (purgeMap now s.map).values := by
  simp [PAFTinyLFU.entries, purgeMapOrder_fst]

/-- An expired alert cannot come out of a purged map by lookup. -/
theorem purged_get_ne_expired (now : ℚ) (m : JsMap String Alert) (a : Alert)
    (hexp : a.issuedAt + a.ttlSec ≤ now) :
    (purgeMap now m).get? a.id ≠ some a := by
  intro h
  have := purgeMap_get?_unexpired now m a.id a h
  rw [← isExpired_iff a now] at hexp
  rw [hexp] at this
  exact absurd this (by decide)

/-- An expired alert cannot come out of a purged map by enumeration. -/
theorem purged_values_ne_expired (now : ℚ) (m : JsMap String Alert) (a : Alert)
    (hexp : a.issuedAt + a.ttlSec ≤ now) :
    a ∉ (purgeMap now m).values := by
  intro h
  have := purgeMap_values_unexpired now m a h
  rw [← isExpired_iff a now] at hexp
  rw [hexp] at this
  exact absurd this (by decide)

/-- C7: for every cache policy (LRU, TTLOnly, PriorityFresh, PAFTinyLFU),
every policy state and every alert `a`, at any time `t ≥ a.issuedAt +
a.ttlSec` the read paths never return the expired alert: `get(a.id, t)` does
not return `a` and `entries(t)` does not contain `a` (each policy purges
entries with `now ≥ issued_at + ttl_sec` before reading or enumerating). -/
theorem policies_never_return_expired :
    (∀ (s : LruState) (a : Alert) (t : ℚ), a.issuedAt + a.ttlSec ≤ t →
      (LRU.get a.id t s).1 ≠ some a ∧ a ∉ (LRU.entries t s).1) ∧
    (∀ (s : TtlState) (a : Alert) (t : ℚ), a.issuedAt + a.ttlSec ≤ t →
      (TTLOnly.get a.id t s).1 ≠ some a ∧ a ∉ (TTLOnly.entries t s).1) ∧
    (∀ (s : PfpState) (a : Alert) (t : ℚ), a.issuedAt + a.ttlSec ≤ t →
      (PriorityFresh.get a.id t s).1 ≠ some a ∧ a ∉ (PriorityFresh.entries t s).1) ∧
    (∀ (s : PafState) (a : Alert) (t : ℚ), a.issuedAt + a.ttlSec ≤ t →
      (PAFTinyLFU.get a.id t s).1 ≠ some a ∧ a ∉ (PAFTinyLFU.entries t s).1) := by
  refine ⟨fun s a t h => ?_, fun s a t h => ?_, fun s a t h => ?_, fun s a t h => ?_⟩
  · rw [LRU.lru_get_fst, LRU.lru_entries_fst]
    exact ⟨purged_get_ne_expired t s.map a h, purged_values_ne_expired t s.map a h⟩
  · rw [TTLOnly.ttl_get_fst, TTLOnly.ttl_entries_fst]
    exact ⟨purged_get_ne_expired t s.map a h, purged_values_ne_expired t s.map a h⟩
  · rw [PriorityFresh.pfp_get_fst, PriorityFresh.pfp_entries_fst]
    exact ⟨purged_get_ne_expired t s.map a h, purged_values_ne_expired t s.map a h⟩
  · rw [PAFTinyLFU.paf_get_fst, PAFTinyLFU.paf_entries_fst]
    exact ⟨purged_get_ne_expired t s.map a h, purged_values_ne_expired t s.map a h⟩

/-- Concrete expired alert used by witnesses. -/
def expiredAlert : Alert :=
  { id := "w", eventType := "Flood", severity := .severe, urgency := .immediate,
    issuedAt := 0, ttlSec := 1 }

/-- Witness for C7 at a concrete expired alert and concrete policy states. -/
theorem policies_never_return_expired_witness :
    (expiredAlert.issuedAt + expiredAlert.ttlSec ≤ 5) ∧
    ((LRU.get expiredAlert.id 5 (LRU.put expiredAlert 0 (LRU.mk 4))).1 ≠ some expiredAlert) ∧
    ((TTLOnly.get expiredAlert.id 5 (TTLOnly.put expiredAlert 0 (TTLOnly.mk 4))).1 ≠ some expiredAlert) ∧
    ((PriorityFresh.get expiredAlert.id 5
      (PriorityFresh.mk 4 none none none)).1 ≠ some expiredAlert) ∧
    ((PAFTinyLFU.get expiredAlert.id 5 (PAFTinyLFU.mk 4)).1 ≠ some expiredAlert) := by
  have hle : expiredAlert.issuedAt + expiredAlert.ttlSec ≤ 5 := by
    with_unfolding_all decide
  exact ⟨hle,
    (policies_never_return_expired.1 _ expiredAlert 5 hle).1,
    (policies_never_return_expired.2.1 _ expiredAlert 5 hle).1,
    (policies_never_return_expired.2.2.1 _ expiredAlert 5 hle).1,
    (policies_never_return_expired.2.2.2 _ expiredAlert 5 hle).1⟩

end Aware

namespace Aware

/-! ## More JsMap lemmas: lookup after set -/

theorem find?_set_present {κ β : Type} [DecidableEq κ] (k : κ) (v : β) :
    ∀ (l : List (κ × β)), l.any (fun p => p.1 = k) →
      (l.map (fun p => if p.1 = k then (k, v) else p)).find?
        (fun p => p.1 = k) = some (k, v) := by
  intro l
  induction l with
  | nil => intro h; simp at h
  | cons p rest ih =>
    intro h
    by_cases hp : p.1 = k
    · simp [List.find?, hp]
    · have h2 : rest.any (fun p => p.1 = k) := by
        simpa [List.any_cons, hp] using h
      simp only [List.map_cons, if_neg hp, List.find?]
      rw [show (decide (p.1 = k)) = false by simpa using hp]
      exact ih h2

theorem find?_set_absent {κ β : Type} [DecidableEq κ] (k : κ) (v : β) :
    ∀ (l : List (κ × β)), ¬ l.any (fun p => p.1 = k) →
      (l ++ [(k, v)]).find? (fun p => p.1 = k) = some (k, v) := by
  intro l
  induction l with
  | nil => intro _; simp [List.find?]
  | cons p rest ih =>
    intro h
    have hp : ¬ p.1 = k := by
      intro hk
      exact h (by simp [List.any_cons, hk])
    have h2 : ¬ rest.any (fun p => p.1 = k) := by
      intro hk
      exact h (by simp [List.any_cons, hk])
    simp only [List.cons_append, List.find?]
    rw [show (decide (p.1 = k)) = false by simpa using hp]
    exact ih h2

theorem JsMap.get?_set_self {κ β : Type} [DecidableEq κ]
    (m : JsMap κ β) (k : κ) (v : β) : (m.set k v).get? k = some v := by
  unfold JsMap.set JsMap.get?
  by_cases h : m.entries.any (fun p => p.1 = k)
  · rw [if_pos h]
    show Option.map _ (List.find? _ (m.entries.map _)) = some v
    rw [find?_set_present k v m.entries h]
    rfl
  · rw [if_neg h]
    show Option.map _ (List.find? _ (m.entries ++ [(k, v)])) = some v
    rw [find?_set_absent k v m.entries h]
    rfl

/-! ## Claim C3: PriorityFresh eviction picks a minimal-score cached entry -/

/-- Score of an entry under a predictor-free `PriorityFresh` policy. -/
def scoreVal (M : MathModel) (s : PfpState) (a : Alert) (now : ℚ) : ℚ :=
  (PriorityFresh.score M s none a now).1

theorem PriorityFresh.scanStep_nn (M : MathModel) (s : PfpState) (now : ℚ)
    (p : String × Alert) :
    scanStep M s now (none, none) p = (some (p.1, scoreVal M s p.2 now), none) := rfl

theorem PriorityFresh.scanStep_ns (M : MathModel) (s : PfpState) (now : ℚ)
    (wid : String) (wsc : ℚ) (p : String × Alert) :
    scanStep M s now (some (wid, wsc), none) p =
      ((if scoreVal M s p.2 now < wsc then some (p.1, scoreVal M s p.2 now)
        else some (wid, wsc)), none) := by
  unfold scanStep scoreVal
  have h2 : (score M s none p.2 now).2 = none := rfl
  by_cases h : (PriorityFresh.score M s none p.2 now).1 < wsc <;> simp [h, h2]

/-- Fold invariant of the lowest-score scan, starting from a current
minimum: the result is attained and bounds every scanned entry. -/
theorem PriorityFresh.scanFold_min (M : MathModel) (s : PfpState) (now : ℚ) :
    ∀ (l : List (String × Alert)) (wid : String) (wsc : ℚ),
      ∃ r, (l.foldl (scanStep M s now) (some (wid, wsc), none)) = (some r, none) ∧
        (r = (wid, wsc) ∨ ∃ e ∈ l, e.1 = r.1 ∧ scoreVal M s e.2 now = r.2) ∧
        r.2 ≤ wsc ∧ ∀ e ∈ l, r.2 ≤ scoreVal M s e.2 now := by
  intro l
  induction l with
  | nil =>
    intro wid wsc
    exact ⟨(wid, wsc), rfl, Or.inl rfl, le_refl _, by simp⟩
  | cons p rest ih =>
    intro wid wsc
    rw [List.foldl_cons, PriorityFresh.scanStep_ns]
    by_cases h : scoreVal M s p.2 now < wsc
    · rw [if_pos h]
      rcases ih p.1 (scoreVal M s p.2 now) with ⟨r, hr, horig, hle, hall⟩
      refine ⟨r, hr, ?_, (lt_of_le_of_lt hle h).le, ?_⟩
      · rcases horig with rfl | ⟨e, he, h1, h2⟩
        · exact Or.inr ⟨p, List.mem_cons_self p rest, rfl, rfl⟩
        · exact Or.inr ⟨e, List.mem_cons_of_mem p he, h1, h2⟩
      · intro e he
        rcases List.mem_cons.mp he with rfl | he2
        · exact hle
        · exact hall e he2
    · rw [if_neg h]
      rcases ih wid wsc with ⟨r, hr, horig, hle, hall⟩
      refine ⟨r, hr, ?_, hle, ?_⟩
      · rcases horig with rfl | ⟨e, he, h1, h2⟩
        · exact Or.inl rfl
        · exact Or.inr ⟨e, List.mem_cons_of_mem p he, h1, h2⟩
      · intro e he
        rcases List.mem_cons.mp he with rfl | he2
        · exact le_trans hle (not_lt.mp h)
        · exact hall e he2

/-- Lowest-score scan on a non-empty entry list: the result is some cached
entry of minimal score. -/
theorem PriorityFresh.scan_min (M : MathModel) (s : PfpState) (now : ℚ)
    (p : String × Alert) (rest : List (String × Alert)) :
    ∃ r, ((p :: rest).foldl (scanStep M s now) (none, none)) = (some r, none) ∧
      (∃ e ∈ p :: rest, e.1 = r.1 ∧ scoreVal M s e.2 now = r.2) ∧
      ∀ e ∈ p :: rest, r.2 ≤ scoreVal M s e.2 now := by
  rw [List.foldl_cons, PriorityFresh.scanStep_nn]
  rcases PriorityFresh.scanFold_min M s now rest p.1 (scoreVal M s p.2 now) with
    ⟨r, hr, horig, hle, hall⟩
  refine ⟨r, hr, ?_, ?_⟩
  · rcases horig with rfl | ⟨e, he, h1, h2⟩
    · exact ⟨p, List.mem_cons_self p rest, rfl, rfl⟩
    · exact ⟨e, List.mem_cons_of_mem p he, h1, h2⟩
  · intro e he
    rcases List.mem_cons.mp he with rfl | he2
    · exact hle
    · exact hall e he2

/-- C3 (amended): on a full predictor-free `PriorityFresh` cache (after the
purge, with non-empty entry list and no empty-string ids), `put` deletes a
cached entry whose score at `now` is minimal among the cached entries —
the candidate's own score is never consulted and the candidate is always
inserted. -/
theorem priorityFresh_put_evicts_minimum (M : MathModel) (s : PfpState)
    (a : Alert) (now : ℚ)
    (hfull : ¬ ((purgeMap now s.map).size : ℚ) < s.cap)
    (hne : (purgeMap now s.map).entries ≠ [])
    (hkeys : ∀ k ∈ (purgeMap now s.map).keys, k ≠ "") :
    ∃ wid wsc,
      (∃ e ∈ (purgeMap now s.map).entries, e.1 = wid ∧ scoreVal M s e.2 now = wsc) ∧
      (∀ e ∈ (purgeMap now s.map).entries, wsc ≤ scoreVal M s e.2 now) ∧
      (PriorityFresh.put M a now s none).1.map =
        ((purgeMap now s.map).delete wid).set a.id a ∧
      (PriorityFresh.put M a now s none).1.map.get? a.id = some a := by
  cases hl : (purgeMap now s.map).entries with
  | nil => exact absurd hl hne
  | cons p rest =>
    rcases PriorityFresh.scan_min M s now p rest with ⟨r, hr, ⟨e, he, hek, hes⟩, hall⟩
    have hwid : r.1 ≠ "" := by
      have : e.1 ∈ (purgeMap now s.map).keys := by
        unfold JsMap.keys
        rw [hl]
        exact List.mem_map_of_mem _ he
      rw [hek] at this
      exact hkeys r.1 this
    refine ⟨r.1, r.2, ⟨e, hl ▸ he, hek, hes⟩, hl ▸ hall, ?_, ?_⟩
    · unfold PriorityFresh.put
      rw [if_neg hfull]
      rw [hl, hr]
      simp [if_neg hwid]
    · unfold PriorityFresh.put
      rw [if_neg hfull]
      rw [hl, hr]
      simp only [if_neg hwid]
      exact JsMap.get?_set_self _ _ _

end Aware

namespace Aware

/-- Concrete math-function model for closed evaluations: `exp` is constant
1, `sqrt` constant 1, the rest constant 0. -/
def mathOne : MathModel :=
  { exp := fun _ => 1, log := fun _ => 0, sin := fun _ => 0,
    cos := fun _ => 0, sqrt := fun _ => 1, pi := 0 }

/-- High-priority cached alert of the C3 scenario. -/
def alertHigh : Alert :=
  { id := "E", eventType := "Flood", severity := .extreme,
    urgency := .immediate, issuedAt := 0, ttlSec := 1000 }

/-- Low-priority candidate alert of the C3 scenario. -/
def alertLow : Alert :=
  { id := "W", eventType := "Flood", severity := .minor, urgency := .past,
    issuedAt := 0, ttlSec := 1000 }

/-- Full capacity-1 `PriorityFresh` state caching only `alertHigh`. -/
def fullPfp : PfpState :=
  { cap := 1, map := ⟨[("E", alertHigh)]⟩, w := { wS := 2, wU := 3, wF := 4 } }

set_option maxRecDepth 10000 in
/-- C3 counterexample: on a full cache, `put` of a strictly lower-scoring
candidate evicts the strictly higher-scoring cached entry (the candidate's
score is never compared), refuting the claim that the evicted entry's score
never strictly exceeds the candidate's. -/
theorem priorityFresh_evicts_higher_scoring :
    ((PriorityFresh.put mathOne alertLow 0 fullPfp none).1.map.get? "E" = none) ∧
    ((PriorityFresh.put mathOne alertLow 0 fullPfp none).1.map.get? "W" = some alertLow) ∧
    (PriorityFresh.score mathOne fullPfp none alertLow 0).1 <
      (PriorityFresh.score mathOne fullPfp none alertHigh 0).1 := by
  refine ⟨?_, ?_, ?_⟩ <;> with_unfolding_all decide

set_option maxRecDepth 10000 in
/-- Witness for the amended C3 theorem at the concrete full cache. -/
theorem priorityFresh_put_evicts_minimum_witness :
    (¬ ((purgeMap 0 fullPfp.map).size : ℚ) < fullPfp.cap) ∧
    ∃ wid wsc,
      (∃ e ∈ (purgeMap 0 fullPfp.map).entries,
        e.1 = wid ∧ scoreVal mathOne fullPfp e.2 0 = wsc) ∧
      (∀ e ∈ (purgeMap 0 fullPfp.map).entries,
        wsc ≤ scoreVal mathOne fullPfp e.2 0) ∧
      (PriorityFresh.put mathOne alertLow 0 fullPfp none).1.map =
        ((purgeMap 0 fullPfp.map).delete wid).set alertLow.id alertLow ∧
      (PriorityFresh.put mathOne alertLow 0 fullPfp none).1.map.get? alertLow.id =
        some alertLow :=
  ⟨by with_unfolding_all decide,
   priorityFresh_put_evicts_minimum mathOne fullPfp alertLow 0
     (by with_unfolding_all decide) (by with_unfolding_all decide)
     (by with_unfolding_all decide)⟩

end Aware

namespace Aware

/-! ## More JsMap lemmas: delete and set lookups -/

theorem JsMap.get?_delete_self {κ β : Type} [DecidableEq κ]
    (m : JsMap κ β) (k : κ) : (m.delete k).get? k = none := by
  unfold JsMap.delete JsMap.get?
  rw [List.find?_eq_none.mpr]
  · rfl
  · intro p hp
    have := (List.mem_filter.mp hp).2
    simpa using this

theorem find?_set_other {κ β : Type} [DecidableEq κ] (k k2 : κ) (v : β)
    (hne : k2 ≠ k) :
    ∀ (l : List (κ × β)),
      (l.map (fun p => if p.1 = k then (k, v) else p)).find? (fun p => p.1 = k2) =
        l.find? (fun p => p.1 = k2) := by
  intro l
  induction l with
  | nil => rfl
  | cons p rest ih =>
    by_cases hp : p.1 = k
    · simp only [List.map_cons, if_pos hp, List.find?]
      rw [show (decide ((k, v).1 = k2)) = false by simp [(Ne.symm hne)]]
      rw [show (decide (p.1 = k2)) = false by simp [hp, Ne.symm hne]]
      exact ih
    · simp only [List.map_cons, if_neg hp, List.find?]
      cases hd : decide (p.1 = k2) <;> simp [hd, ih]

theorem JsMap.get?_set_ne {κ β : Type} [DecidableEq κ]
    (m : JsMap κ β) (k k2 : κ) (v : β) (hne : k2 ≠ k) :
    (m.set k v).get? k2 = m.get? k2 := by
  unfold JsMap.set JsMap.get?
  by_cases h : m.entries.any (fun p => p.1 = k)
  · rw [if_pos h]
    show Option.map _ (List.find? _ (m.entries.map _)) = _
    rw [find?_set_other k k2 v hne m.entries]
  · rw [if_neg h]
    show Option.map _ (List.find? _ (m.entries ++ [(k, v)])) = _
    rw [List.find?_append]
    have : List.find? (fun p => p.1 = k2) [(k, v)] = none := by
      simp [List.find?, Ne.symm hne]
    rw [this]
    simp

/-! ## Claim C6: PAFTinyLFU admission -/

/-- Fold invariant of the victim scan of `PAFTinyLFU.put`: starting from a
candidate victim, the scan returns a member of the scanned list (or the
start) carrying its own estimate, minimal among the start and the list. -/
theorem PAFTinyLFU.selectVictimFold (sk : SketchState) :
    ∀ (l : List String) (w : String),
      (l.foldl
        (fun (acc : String × ℕ) id =>
          let e := FrequencySketch.estimate id sk
          if e < acc.2 then (id, e) else acc)
        (w, FrequencySketch.estimate w sk)).2 =
        FrequencySketch.estimate
          ((l.foldl
            (fun (acc : String × ℕ) id =>
              let e := FrequencySketch.estimate id sk
              if e < acc.2 then (id, e) else acc)
            (w, FrequencySketch.estimate w sk)).1) sk ∧
      ((l.foldl
        (fun (acc : String × ℕ) id =>
          let e := FrequencySketch.estimate id sk
          if e < acc.2 then (id, e) else acc)
        (w, FrequencySketch.estimate w sk)).1 = w ∨
       (l.foldl
        (fun (acc : String × ℕ) id =>
          let e := FrequencySketch.estimate id sk
          if e < acc.2 then (id, e) else acc)
        (w, FrequencySketch.estimate w sk)).1 ∈ l) ∧
      (l.foldl
        (fun (acc : String × ℕ) id =>
          let e := FrequencySketch.estimate id sk
          if e < acc.2 then (id, e) else acc)
        (w, FrequencySketch.estimate w sk)).2 ≤ FrequencySketch.estimate w sk ∧
      ∀ id ∈ l,
        (l.foldl
          (fun (acc : String × ℕ) id =>
            let e := FrequencySketch.estimate id sk
            if e < acc.2 then (id, e) else acc)
          (w, FrequencySketch.estimate w sk)).2 ≤ FrequencySketch.estimate id sk := by
  intro l
  induction l with
  | nil => exact fun w => ⟨rfl, Or.inl rfl, le_refl _, by simp⟩
  | cons x rest ih =>
    intro w
    simp only [List.foldl_cons]
    by_cases h : FrequencySketch.estimate x sk < FrequencySketch.estimate w sk
    · rw [if_pos h]
      rcases ih x with ⟨hest, horig, hle, hall⟩
      refine ⟨hest, ?_, le_trans hle h.le, ?_⟩
      · rcases horig with h2 | h2
        · exact Or.inr (by rw [h2]; exact List.mem_cons_self x rest)
        · exact Or.inr (List.mem_cons_of_mem x h2)
      · intro id hid
        rcases List.mem_cons.mp hid with rfl | hid2
        · exact hle
        · exact hall id hid2
    · rw [if_neg h]
      rcases ih w with ⟨hest, horig, hle, hall⟩
      refine ⟨hest, ?_, hle, ?_⟩
      · rcases horig with h2 | h2
        · exact Or.inl h2
        · exact Or.inr (List.mem_cons_of_mem x h2)
      · intro id hid
        rcases List.mem_cons.mp hid with rfl | hid2
        · exact le_trans hle (not_lt.mp h)
        · exact hall id hid2

theorem PAFTinyLFU.selectVictim_spec (sk : SketchState) (v0 : String)
    (sample : List String) :
    (selectVictim sk v0 sample).1 = v0 ∨ (selectVictim sk v0 sample).1 ∈ sample :=
  (PAFTinyLFU.selectVictimFold sk sample v0).2.1

theorem PAFTinyLFU.selectVictim_min (sk : SketchState) (v0 : String)
    (sample : List String) :
    (selectVictim sk v0 sample).2 ≤ FrequencySketch.estimate v0 sk ∧
    ∀ id ∈ sample, (selectVictim sk v0 sample).2 ≤ FrequencySketch.estimate id sk :=
  ⟨(PAFTinyLFU.selectVictimFold sk sample v0).2.2.1,
   (PAFTinyLFU.selectVictimFold sk sample v0).2.2.2⟩

end Aware

namespace Aware

theorem PAFTinyLFU.selectVictim_est (sk : SketchState) (v0 : String)
    (sample : List String) :
    (selectVictim sk v0 sample).2 =
      FrequencySketch.estimate (selectVictim sk v0 sample).1 sk :=
  (PAFTinyLFU.selectVictimFold sk sample v0).1

/-- C6: when `PAFTinyLFUCache.put` runs on a full cache (after purging),
the victim scanned from the up-to-8 oldest entries of the recency order is
a member of that sample, carries its own sketch estimate, and is minimal
over the sample; when the candidate key's estimate reaches the victim's
(and the victim id is truthy) the victim is evicted and the candidate
inserted, and when the candidate's estimate is strictly below the victim's
the candidate is rejected with the purged map and order unchanged. -/
theorem paf_put_full_admission
    (s : PafState) (a : Alert) (now : ℚ) (v0 : String) (rest : List String)
    (po : JsMap String Alert × List String) (key : String)
    (sk : SketchState) (victim : String × ℕ)
    (hpo : po = purgeMapOrder now s.map s.order)
    (hkey : key = a.threadKey.getD a.id)
    (hsk : sk = FrequencySketch.increment key s.sketch)
    (hvict : victim = PAFTinyLFU.selectVictim sk v0 (v0 :: rest))
    (hfull : ¬ ((po.1.size : ℚ) < s.cap))
    (hsample : po.2.take 8 = v0 :: rest) :
    (victim.1 ∈ v0 :: rest ∧
     victim.2 = FrequencySketch.estimate victim.1 sk ∧
     ∀ id ∈ v0 :: rest, victim.2 ≤ FrequencySketch.estimate id sk) ∧
    (victim.2 ≤ FrequencySketch.estimate key sk → victim.1 ≠ "" →
      (PAFTinyLFU.put a now s).map = (po.1.delete victim.1).set a.id a ∧
      (PAFTinyLFU.put a now s).map.get? a.id = some a ∧
      (victim.1 ≠ a.id →
        (PAFTinyLFU.put a now s).map.get? victim.1 = none)) ∧
    (FrequencySketch.estimate key sk < victim.2 →
      (PAFTinyLFU.put a now s).map = po.1 ∧
      (PAFTinyLFU.put a now s).order = po.2) := by
  subst hpo hkey hsk hvict
  refine ⟨⟨?_, ?_, ?_⟩, ?_, ?_⟩
  · rcases PAFTinyLFU.selectVictim_spec _ v0 (v0 :: rest) with h | h
    · rw [h]; exact List.mem_cons_self _ _
    · exact h
  · exact PAFTinyLFU.selectVictim_est _ v0 (v0 :: rest)
  · exact (PAFTinyLFU.selectVictim_min _ v0 (v0 :: rest)).2
  · intro hadm hvne
    have hmap : (PAFTinyLFU.put a now s).map =
        ((purgeMapOrder now s.map s.order).1.delete
          (PAFTinyLFU.selectVictim
            (FrequencySketch.increment (a.threadKey.getD a.id) s.sketch)
            v0 (v0 :: rest)).1).set a.id a := by
      simp only [PAFTinyLFU.put, hsample]
      rw [if_neg hfull]
      rw [if_pos hadm, if_neg hvne]
      rfl
    refine ⟨hmap, ?_, ?_⟩
    · rw [hmap]; exact JsMap.get?_set_self _ _ _
    · intro hne
      rw [hmap, JsMap.get?_set_ne _ _ _ _ hne]
      exact JsMap.get?_delete_self _ _
  · intro hrej
    have hput : PAFTinyLFU.put a now s =
        { s with map := (purgeMapOrder now s.map s.order).1
                 order := (purgeMapOrder now s.map s.order).2
                 sketch := FrequencySketch.increment (a.threadKey.getD a.id)
                   s.sketch } := by
      simp only [PAFTinyLFU.put, hsample]
      rw [if_neg hfull]
      rw [if_neg (not_le.mpr hrej)]
    rw [hput]
    exact ⟨rfl, rfl⟩

/-- Unexpired alert used by the C6 witness cache. -/
def alertA6 : Alert := { defaultAlert with id := "a", ttlSec := 100 }

/-- Candidate alert offered to the full C6 witness cache. -/
def alertB6 : Alert := { defaultAlert with id := "b", ttlSec := 100 }

/-- A capacity-1 PAFTinyLFU state holding one unexpired alert, so a `put`
at time 0 runs the full-cache admission path. -/
def pafFull : PafState :=
  { cap := 1, map := ⟨[("a", alertA6)]⟩, order := ["a"],
    sketch := FrequencySketch.mk 4096 }

theorem paf_put_full_admission_witness :
    (¬ (((purgeMapOrder 0 pafFull.map pafFull.order).1.size : ℚ) <
      pafFull.cap)) ∧
    (purgeMapOrder 0 pafFull.map pafFull.order).2.take 8 = ["a"] ∧
    (PAFTinyLFU.selectVictim
      (FrequencySketch.increment (alertB6.threadKey.getD alertB6.id)
        pafFull.sketch) "a" ["a"]).1 ∈ (["a"] : List String) :=
  ⟨by with_unfolding_all decide, by with_unfolding_all decide,
   (paf_put_full_admission pafFull alertB6 0 "a" []
      (purgeMapOrder 0 pafFull.map pafFull.order)
      (alertB6.threadKey.getD alertB6.id)
      (FrequencySketch.increment (alertB6.threadKey.getD alertB6.id)
        pafFull.sketch)
      (PAFTinyLFU.selectVictim
        (FrequencySketch.increment (alertB6.threadKey.getD alertB6.id)
          pafFull.sketch) "a" ["a"])
      rfl rfl rfl rfl
      (by with_unfolding_all decide)
      (by with_unfolding_all decide)).1.1⟩

/-- Unexpired alert with an empty (falsy) id, cacheable via `put`. -/
def alertE6 : Alert := { defaultAlert with id := "", ttlSec := 100 }

/-- A capacity-1 PAFTinyLFU state whose only entry has the empty id. -/
def pafEmptyId : PafState :=
  { cap := 1, map := ⟨[("", alertE6)]⟩, order := [""],
    sketch := FrequencySketch.mk 4096 }

/-- The PAFTinyLFU sketch constructor evaluated: `clog 2 4096 = 12`, so the
width is 4096 and the mask 4095. -/
theorem FrequencySketch.mk_eval : FrequencySketch.mk 4096 =
    { size := 4096, laneA := fun _ => 0, laneB := fun _ => 0,
      laneC := fun _ => 0, laneD := fun _ => 0 } := by
  have h : Nat.clog 2 (max 16 4096) = 12 := by
    rw [show (max 16 4096) = 2 ^ 12 by norm_num, Nat.clog_pow 2 12 (by norm_num)]
  unfold FrequencySketch.mk
  rw [h]
  norm_num

set_option maxRecDepth 10000 in
theorem paf_admission_keeps_empty_victim :
    (PAFTinyLFU.put alertB6 0 pafEmptyId).map.get? "" = some alertE6 ∧
    (PAFTinyLFU.put alertB6 0 pafEmptyId).map.get? "b" = some alertB6 ∧
    PAFTinyLFU.size (PAFTinyLFU.put alertB6 0 pafEmptyId) = 2 := by
  have h : pafEmptyId =
      { cap := 1
        map := ⟨[("", alertE6)]⟩
        order := [""]
        sketch := { size := 4096, laneA := fun _ => 0, laneB := fun _ => 0,
                    laneC := fun _ => 0, laneD := fun _ => 0 } } := by
    unfold pafEmptyId
    rw [FrequencySketch.mk_eval]
  rw [h]
  with_unfolding_all decide

/-! ## Claim C5 groundwork: JsMap set/delete structure lemmas -/

theorem JsMap.mem_set {κ β : Type} [DecidableEq κ]
    (m : JsMap κ β) (k : κ) (v : β) (p : κ × β) (hp : p ∈ (m.set k v).entries) :
    p = (k, v) ∨ (p ∈ m.entries ∧ p.1 ≠ k) := by
  unfold JsMap.set at hp
  by_cases h : m.entries.any (fun q => q.1 = k)
  · rw [if_pos h] at hp
    rcases List.mem_map.mp hp with ⟨q, hq, hfq⟩
    by_cases hk : q.1 = k
    · rw [if_pos hk] at hfq
      exact Or.inl hfq.symm
    · rw [if_neg hk] at hfq
      exact Or.inr ⟨hfq ▸ hq, hfq ▸ hk⟩
  · rw [if_neg h] at hp
    rcases List.mem_append.mp hp with h2 | h2
    · refine Or.inr ⟨h2, fun hk => ?_⟩
      exact h (List.any_eq_true.mpr ⟨p, h2, by simp [hk]⟩)
    · exact Or.inl (by simpa using h2)

theorem JsMap.keys_set_present {κ β : Type} [DecidableEq κ]
    (m : JsMap κ β) (k : κ) (v : β) (h : m.entries.any (fun q => q.1 = k)) :
    (m.set k v).keys = m.keys := by
  unfold JsMap.set JsMap.keys
  rw [if_pos h]
  show (m.entries.map _).map _ = _
  rw [List.map_map]
  apply List.map_congr_left
  intro q _
  by_cases hk : q.1 = k <;> simp [Function.comp, hk]

theorem JsMap.keys_set_absent {κ β : Type} [DecidableEq κ]
    (m : JsMap κ β) (k : κ) (v : β) (h : ¬ m.entries.any (fun q => q.1 = k)) :
    (m.set k v).keys = m.keys ++ [k] := by
  unfold JsMap.set JsMap.keys
  rw [if_neg h]
  show (m.entries ++ [(k, v)]).map _ = _
  rw [List.map_append]
  rfl

theorem JsMap.not_any_iff {κ β : Type} [DecidableEq κ]
    (m : JsMap κ β) (k : κ) :
    (¬ m.entries.any (fun q => q.1 = k)) ↔ k ∉ m.keys := by
  constructor
  · intro h hk
    rcases List.mem_map.mp hk with ⟨p, hp, hpk⟩
    exact h (List.any_eq_true.mpr ⟨p, hp, by simp [hpk]⟩)
  · intro h ha
    rcases List.any_eq_true.mp ha with ⟨p, hp, hpk⟩
    exact h (List.mem_map.mpr ⟨p, hp, by simpa using hpk⟩)

theorem JsMap.nodup_set {κ β : Type} [DecidableEq κ]
    (m : JsMap κ β) (k : κ) (v : β) (h : m.keys.Nodup) :
    (m.set k v).keys.Nodup := by
  by_cases ha : m.entries.any (fun q => q.1 = k)
  · rw [JsMap.keys_set_present m k v ha]
    exact h
  · rw [JsMap.keys_set_absent m k v ha]
    have hk : k ∉ m.keys := (JsMap.not_any_iff m k).mp ha
    simp [List.nodup_append, h, hk]

theorem JsMap.size_set_le {κ β : Type} [DecidableEq κ]
    (m : JsMap κ β) (k : κ) (v : β) : (m.set k v).size ≤ m.size + 1 := by
  unfold JsMap.set JsMap.size
  by_cases h : m.entries.any (fun q => q.1 = k)
  · rw [if_pos h]
    show (m.entries.map _).length ≤ _
    rw [List.length_map]
    omega
  · rw [if_neg h]
    show (m.entries ++ [(k, v)]).length ≤ _
    rw [List.length_append]
    simp

theorem JsMap.keys_delete {κ β : Type} [DecidableEq κ] (m : JsMap κ β) (k : κ) :
    (m.delete k).keys = m.keys.filter (fun x => ¬ x = k) := by
  unfold JsMap.delete JsMap.keys
  show (m.entries.filter _).map _ = _
  generalize m.entries = l
  induction l with
  | nil => rfl
  | cons p rest ih =>
    simp only [decide_not] at ih ⊢
    by_cases hp : p.1 = k
    · simp [List.filter_cons, hp, ih]
    · simp [List.filter_cons, hp, ih]

theorem JsMap.nodup_delete {κ β : Type} [DecidableEq κ] (m : JsMap κ β) (k : κ)
    (h : m.keys.Nodup) : (m.delete k).keys.Nodup := by
  rw [JsMap.keys_delete]
  exact h.filter _

theorem JsMap.size_delete_le {κ β : Type} [DecidableEq κ] (m : JsMap κ β)
    (k : κ) : (m.delete k).size ≤ m.size := by
  unfold JsMap.delete JsMap.size
  exact List.length_filter_le _ _

theorem length_filter_ne_of_mem {κ β : Type} [DecidableEq κ] (k : κ) :
    ∀ l : List (κ × β), (l.map (fun p => p.1)).Nodup →
      k ∈ l.map (fun p => p.1) →
      (l.filter (fun p => ¬ p.1 = k)).length + 1 = l.length := by
  intro l
  induction l with
  | nil =>
    intro _ h
    simp at h
  | cons p rest ih =>
    intro hnd hk
    rw [List.map_cons, List.nodup_cons] at hnd
    by_cases hp : p.1 = k
    · rw [List.filter_cons_of_neg (by simp [hp])]
      rw [List.filter_eq_self.mpr]
      · simp
      · intro q hq
        have hq1 : ¬ q.1 = k := fun h => hnd.1 (hp ▸ h ▸ List.mem_map_of_mem _ hq)
        simpa using hq1
    · have hk2 : k ∈ rest.map (fun p => p.1) := by
        rw [List.map_cons] at hk
        rcases List.mem_cons.mp hk with h | h
        · exact absurd h.symm hp
        · exact h
      rw [List.filter_cons_of_pos (by simpa using hp)]
      rw [List.length_cons, List.length_cons, ih hnd.2 hk2]

theorem JsMap.size_delete_mem {κ β : Type} [DecidableEq κ]
    (m : JsMap κ β) (k : κ) (hnd : m.keys.Nodup) (hk : k ∈ m.keys) :
    (m.delete k).size + 1 = m.size := by
  unfold JsMap.delete JsMap.size
  unfold JsMap.keys at hnd hk
  exact length_filter_ne_of_mem k m.entries hnd hk

theorem JsMap.keys_inj {κ β : Type} [DecidableEq κ] (m : JsMap κ β)
    (hnd : m.keys.Nodup) {p q : κ × β} (hp : p ∈ m.entries) (hq : q ∈ m.entries)
    (hpq : p.1 = q.1) : p = q := by
  unfold JsMap.keys at hnd
  exact List.inj_on_of_nodup_map hnd hp hq hpq

end Aware

namespace Aware

/-! ## Claim C5 groundwork: purge structure lemmas -/

theorem purgeFold_sublist (now : ℚ) :
    ∀ (l : List (String × Alert)) (acc : JsMap String Alert),
      List.Sublist
        ((l.foldl (fun (acc : JsMap String Alert) p =>
          if isExpired p.2 now then acc.delete p.1 else acc) acc).entries)
        acc.entries := by
  intro l
  induction l with
  | nil =>
    intro acc
    exact List.Sublist.refl _
  | cons p rest ih =>
    intro acc
    simp only [List.foldl_cons]
    by_cases hp : isExpired p.2 now = true
    · rw [if_pos hp]
      exact (ih (acc.delete p.1)).trans (List.filter_sublist _)
    · rw [if_neg hp]
      exact ih acc

theorem purgeMap_sublist (now : ℚ) (m : JsMap String Alert) :
    List.Sublist (purgeMap now m).entries m.entries :=
  purgeFold_sublist now m.entries m

theorem purgeMap_mem (now : ℚ) (m : JsMap String Alert) (p : String × Alert)
    (h : p ∈ (purgeMap now m).entries) : p ∈ m.entries :=
  (purgeMap_sublist now m).subset h

theorem purgeMap_size_le (now : ℚ) (m : JsMap String Alert) :
    (purgeMap now m).size ≤ m.size :=
  (purgeMap_sublist now m).length_le

theorem purgeMap_nodup (now : ℚ) (m : JsMap String Alert)
    (h : m.keys.Nodup) : (purgeMap now m).keys.Nodup :=
  h.sublist (List.Sublist.map _ (purgeMap_sublist now m))

theorem purgeFold_keep (now : ℚ) (p : String × Alert) :
    ∀ (l : List (String × Alert)) (acc : JsMap String Alert),
      p ∈ acc.entries →
      (∀ q ∈ l, isExpired q.2 now = true → q.1 ≠ p.1) →
      p ∈ (l.foldl (fun (acc : JsMap String Alert) q =>
        if isExpired q.2 now then acc.delete q.1 else acc) acc).entries := by
  intro l
  induction l with
  | nil =>
    intro acc h _
    exact h
  | cons q rest ih =>
    intro acc hacc hl
    simp only [List.foldl_cons]
    by_cases hq : isExpired q.2 now = true
    · rw [if_pos hq]
      apply ih
      · rw [JsMap.mem_delete]
        exact ⟨hacc, fun h => hl q (List.mem_cons_self q rest) hq h.symm⟩
      · intro r hr hre
        exact hl r (List.mem_cons_of_mem q hr) hre
    · rw [if_neg hq]
      exact ih acc hacc (fun r hr hre => hl r (List.mem_cons_of_mem q hr) hre)

theorem purgeMap_keep (now : ℚ) (m : JsMap String Alert) (hnd : m.keys.Nodup)
    (p : String × Alert) (hp : p ∈ m.entries)
    (hun : isExpired p.2 now = false) : p ∈ (purgeMap now m).entries := by
  unfold purgeMap
  apply purgeFold_keep now p m.entries m hp
  intro q hq hqe hqp
  have hqp2 := JsMap.keys_inj m hnd hq hp hqp
  rw [hqp2, hun] at hqe
  exact absurd hqe (by decide)

theorem purgeOrderFold_subset (now : ℚ) (k : String) :
    ∀ (l : List (String × Alert)) (acc : JsMap String Alert × List String),
      k ∈ (l.foldl (fun (acc : JsMap String Alert × List String) p =>
        if isExpired p.2 now then (acc.1.delete p.1, acc.2.erase p.1) else acc)
        acc).2 → k ∈ acc.2 := by
  intro l
  induction l with
  | nil =>
    intro acc h
    exact h
  | cons p rest ih =>
    intro acc
    simp only [List.foldl_cons]
    by_cases hp : isExpired p.2 now = true
    · rw [if_pos hp]
      intro h
      exact List.mem_of_mem_erase (ih _ h)
    · rw [if_neg hp]
      exact ih acc

theorem purgeOrderFold_nodup (now : ℚ) :
    ∀ (l : List (String × Alert)) (acc : JsMap String Alert × List String),
      acc.2.Nodup →
      (l.foldl (fun (acc : JsMap String Alert × List String) p =>
        if isExpired p.2 now then (acc.1.delete p.1, acc.2.erase p.1) else acc)
        acc).2.Nodup := by
  intro l
  induction l with
  | nil =>
    intro acc h
    exact h
  | cons p rest ih =>
    intro acc hacc
    simp only [List.foldl_cons]
    by_cases hp : isExpired p.2 now = true
    · rw [if_pos hp]
      exact ih _ (hacc.erase _)
    · rw [if_neg hp]
      exact ih acc hacc

theorem purgeOrderFold_keep (now : ℚ) (k : String) :
    ∀ (l : List (String × Alert)) (acc : JsMap String Alert × List String),
      k ∈ acc.2 →
      (∀ q ∈ l, isExpired q.2 now = true → q.1 ≠ k) →
      k ∈ (l.foldl (fun (acc : JsMap String Alert × List String) p =>
        if isExpired p.2 now then (acc.1.delete p.1, acc.2.erase p.1) else acc)
        acc).2 := by
  intro l
  induction l with
  | nil =>
    intro acc h _
    exact h
  | cons p rest ih =>
    intro acc hacc hl
    simp only [List.foldl_cons]
    by_cases hp : isExpired p.2 now = true
    · rw [if_pos hp]
      apply ih
      · exact (List.mem_erase_of_ne
          (fun h => hl p (List.mem_cons_self p rest) hp h.symm)).mpr hacc
      · intro r hr hre
        exact hl r (List.mem_cons_of_mem p hr) hre
    · rw [if_neg hp]
      exact ih acc hacc (fun r hr hre => hl r (List.mem_cons_of_mem p hr) hre)

theorem purgeOrderFold_removes (now : ℚ) (k : String) :
    ∀ (l : List (String × Alert)) (acc : JsMap String Alert × List String),
      acc.2.Nodup →
      (∃ q ∈ l, isExpired q.2 now = true ∧ q.1 = k) →
      k ∉ (l.foldl (fun (acc : JsMap String Alert × List String) p =>
        if isExpired p.2 now then (acc.1.delete p.1, acc.2.erase p.1) else acc)
        acc).2 := by
  intro l
  induction l with
  | nil =>
    intro acc _ hex
    rcases hex with ⟨q, hq, _⟩
    exact absurd hq (List.not_mem_nil q)
  | cons p rest ih =>
    intro acc hnd hex
    simp only [List.foldl_cons]
    rcases hex with ⟨q, hq, hqe, hqk⟩
    rcases List.mem_cons.mp hq with rfl | hq2
    · rw [if_pos hqe]
      intro hmem
      have h2 := purgeOrderFold_subset now k rest _ hmem
      rw [hqk] at h2
      exact ((List.Nodup.mem_erase_iff hnd).mp h2).1 rfl
    · by_cases hp : isExpired p.2 now = true
      · rw [if_pos hp]
        exact ih _ (hnd.erase _) ⟨q, hq2, hqe, hqk⟩
      · rw [if_neg hp]
        exact ih acc hnd ⟨q, hq2, hqe, hqk⟩

end Aware

namespace Aware

/-! ## Claim C5 groundwork: eviction loop, recency bumps, scan ids -/

theorem evictLoop_wf (cap : ℚ) (hcap : 0 ≤ cap) :
    ∀ (order : List String) (m : JsMap String Alert),
      "" ∉ order → (∀ p ∈ m.entries, p.1 ∈ order) → m.keys.Nodup →
      ((evictLoop cap order m).1.size : ℚ) ≤ cap ∧
      "" ∉ (evictLoop cap order m).2 ∧
      (∀ p ∈ (evictLoop cap order m).1.entries,
        p.1 ∈ (evictLoop cap order m).2) ∧
      (evictLoop cap order m).1.keys.Nodup := by
  intro order
  induction order with
  | nil =>
    intro m hne hsub hnd
    have hempty : m.entries = [] := by
      cases he : m.entries with
      | nil => rfl
      | cons p rest =>
        have hpm : p ∈ m.entries := he ▸ List.mem_cons_self p rest
        exact absurd (hsub p hpm) (List.not_mem_nil _)
    simp only [evictLoop]
    refine ⟨?_, by simp, ?_, hnd⟩
    · unfold JsMap.size
      rw [hempty]
      simpa using hcap
    · intro p hp
      rw [hempty] at hp
      exact absurd hp (List.not_mem_nil p)
  | cons h rest ih =>
    intro m hne hsub hnd
    have hh : h ≠ "" := by
      intro he
      refine hne ?_
      rw [← he]
      exact List.mem_cons_self h rest
    have hne2 : "" ∉ rest := fun hmem => hne (List.mem_cons_of_mem h hmem)
    simp only [evictLoop]
    by_cases hcond : cap < (m.size : ℚ)
    · rw [if_pos hcond, if_neg hh]
      apply ih (m.delete h) hne2
      · intro p hp
        rw [JsMap.mem_delete] at hp
        rcases List.mem_cons.mp (hsub p hp.1) with h1 | h1
        · exact absurd h1 hp.2
        · exact h1
      · exact JsMap.nodup_delete m h hnd
    · rw [if_neg hcond]
      exact ⟨not_lt.mp hcond, hne, hsub, hnd⟩

theorem touchOrder_nodup (l : List String) (id : String) (h : l.Nodup) :
    (touchOrder l id).Nodup := by
  unfold touchOrder
  rw [List.nodup_append]
  exact ⟨h.erase _, List.nodup_singleton _,
    fun x hx hy => ((h.mem_erase_iff).mp hx).1 (List.mem_singleton.mp hy)⟩

theorem touchOrder_mem (l : List String) (id k : String) (h : k ∈ l) :
    k ∈ touchOrder l id := by
  unfold touchOrder
  by_cases hk : k = id
  · exact List.mem_append_right _ (hk ▸ List.mem_singleton_self k)
  · exact List.mem_append_left _ ((List.mem_erase_of_ne hk).mpr h)

theorem touchOrder_self (l : List String) (id : String) :
    id ∈ touchOrder l id :=
  List.mem_append_right _ (List.mem_singleton_self id)

theorem mem_of_touchOrder (l : List String) (id k : String)
    (h : k ∈ touchOrder l id) : k = id ∨ k ∈ l := by
  unfold touchOrder at h
  rcases List.mem_append.mp h with h2 | h2
  · exact Or.inr (List.mem_of_mem_erase h2)
  · exact Or.inl (List.mem_singleton.mp h2)

theorem touchOrder_no_empty (l : List String) (id : String) (hl : "" ∉ l)
    (hid : id ≠ "") : "" ∉ touchOrder l id := by
  intro h
  rcases mem_of_touchOrder l id "" h with h2 | h2
  · exact hid h2.symm
  · exact hl h2

theorem JsMap.mem_keys_set_self (m : JsMap String Alert) (k : String)
    (v : Alert) : k ∈ (m.set k v).keys :=
  List.mem_map_of_mem _ (JsMap.get?_some_mem _ k v (JsMap.get?_set_self m k v))

theorem JsMap.keys_set_superset {κ β : Type} [DecidableEq κ]
    (m : JsMap κ β) (k k2 : κ) (v : β) (h : k ∈ m.keys) :
    k ∈ (m.set k2 v).keys := by
  by_cases ha : m.entries.any (fun q => q.1 = k2)
  · rw [JsMap.keys_set_present m k2 v ha]
    exact h
  · rw [JsMap.keys_set_absent m k2 v ha]
    exact List.mem_append_left _ h

theorem JsMap.keys_delete_mem {κ β : Type} [DecidableEq κ]
    (m : JsMap κ β) (k k2 : κ) (h : k ∈ m.keys) (hne : k ≠ k2) :
    k ∈ (m.delete k2).keys := by
  rw [JsMap.keys_delete]
  rw [List.mem_filter]
  exact ⟨h, by simpa using hne⟩

theorem PriorityFresh.scanStep_fst (M : MathModel) (s : PfpState) (now : ℚ)
    (acc : Option (String × ℚ) × Option PFModel) (p : String × Alert) :
    ∃ w sc, (scanStep M s now acc p).1 = some (w, sc) ∧
      ((∃ s0, acc.1 = some (w, s0)) ∨ w = p.1) := by
  unfold scanStep
  cases hacc : acc.1 with
  | none => exact ⟨p.1, _, rfl, Or.inr rfl⟩
  | some ws =>
    rcases ws with ⟨w0, s0⟩
    by_cases hlt : (score M s acc.2 p.2 now).1 < s0
    · refine ⟨p.1, (score M s acc.2 p.2 now).1, ?_, Or.inr rfl⟩
      simp [hlt]
    · refine ⟨w0, s0, ?_, Or.inl ⟨s0, rfl⟩⟩
      simp [hlt]

theorem PriorityFresh.scanFold_fst (M : MathModel) (s : PfpState) (now : ℚ)
    (ids : List String) :
    ∀ (l : List (String × Alert)) (acc : Option (String × ℚ) × Option PFModel),
      (∀ p ∈ l, p.1 ∈ ids) →
      (∀ w sc, acc.1 = some (w, sc) → w ∈ ids) →
      ∀ w sc, (l.foldl (scanStep M s now) acc).1 = some (w, sc) → w ∈ ids := by
  intro l
  induction l with
  | nil =>
    intro acc _ hacc
    exact hacc
  | cons p rest ih =>
    intro acc hl hacc
    simp only [List.foldl_cons]
    apply ih
    · intro q hq
      exact hl q (List.mem_cons_of_mem p hq)
    · intro w sc hw
      rcases PriorityFresh.scanStep_fst M s now acc p with ⟨w2, sc2, hw2, hsrc⟩
      rw [hw2] at hw
      have hpair := Option.some.inj hw
      injection hpair with hww hsc
      rcases hsrc with ⟨s0, hs0⟩ | hp
      · exact hww ▸ hacc w2 s0 hs0
      · rw [← hww, hp]
        exact hl p (List.mem_cons_self p rest)

theorem PriorityFresh.scanFold_ne_none (M : MathModel) (s : PfpState) (now : ℚ) :
    ∀ (l : List (String × Alert)) (acc : Option (String × ℚ) × Option PFModel),
      (∃ w sc, acc.1 = some (w, sc)) →
      ∃ w sc, (l.foldl (scanStep M s now) acc).1 = some (w, sc) := by
  intro l
  induction l with
  | nil =>
    intro acc h
    exact h
  | cons p rest ih =>
    intro acc _
    simp only [List.foldl_cons]
    apply ih
    rcases PriorityFresh.scanStep_fst M s now acc p with ⟨w, sc, hw, _⟩
    exact ⟨w, sc, hw⟩

theorem PriorityFresh.scan_id (M : MathModel) (s : PfpState) (now : ℚ)
    (m : JsMap String Alert) (pf : Option PFModel) (hne : m.entries ≠ []) :
    ∃ w sc, (m.entries.foldl (scanStep M s now) (none, pf)).1 = some (w, sc) ∧
      w ∈ m.keys := by
  cases hl : m.entries with
  | nil => exact absurd hl hne
  | cons p rest =>
    have h1 : ∃ w sc, ((p :: rest).foldl (scanStep M s now) (none, pf)).1 =
        some (w, sc) := by
      rw [List.foldl_cons]
      apply PriorityFresh.scanFold_ne_none
      rcases PriorityFresh.scanStep_fst M s now (none, pf) p with ⟨w, sc, hw, _⟩
      exact ⟨w, sc, hw⟩
    rcases h1 with ⟨w, sc, hw⟩
    refine ⟨w, sc, hl ▸ hw, ?_⟩
    have := PriorityFresh.scanFold_fst M s now m.keys (p :: rest) (none, pf)
      ?hl ?hacc w sc hw
    · exact this
    · intro q hq
      exact List.mem_map_of_mem _ (hl ▸ hq)
    · intro w2 sc2 h2
      exact absurd h2 (by simp)

end Aware

namespace Aware

/-! ## Claim C5: operations, dispatch, well-formedness -/

/-- One call against the `CachePolicy` interface of base.ts. -/
inductive CacheOp where
  | put : Alert → ℚ → CacheOp
  | get : String → ℚ → CacheOp
  | has : String → ℚ → CacheOp
  | entries : ℚ → CacheOp

/-- Dispatch of `policy.has`. -/
def PolicyState.hasQ (id : String) (now : ℚ) : PolicyState → Bool × PolicyState
  | .lru s => ((LRU.has id now s).1, .lru (LRU.has id now s).2)
  | .ttlOnly s => ((TTLOnly.has id now s).1, .ttlOnly (TTLOnly.has id now s).2)
  | .priorityFresh s =>
    ((PriorityFresh.has id now s).1, .priorityFresh (PriorityFresh.has id now s).2)
  | .paf s => ((PAFTinyLFU.has id now s).1, .paf (PAFTinyLFU.has id now s).2)

/-- State effect of one policy method call (the returned value is dropped). -/
def PolicyState.applyOp (M : MathModel) (sp : PolicyState × Option PFModel) :
    CacheOp → PolicyState × Option PFModel
  | .put a now => PolicyState.put M a now sp.2 sp.1
  | .get id now => ((PolicyState.get id now sp.1).2, sp.2)
  | .has id now => ((PolicyState.hasQ id now sp.1).2, sp.2)
  | .entries now => ((PolicyState.entries now sp.1).2, sp.2)

/-- A call sequence against a policy, threading the shared PF predictor. -/
def runOps (M : MathModel) (ops : List CacheOp)
    (init : PolicyState × Option PFModel) : PolicyState × Option PFModel :=
  ops.foldl (PolicyState.applyOp M) init

/-- Well-formedness kept by the LRU and TTLOnly states: integer capacity
`C`, no falsy id in the eviction queue, every cached key queued, no
duplicate keys, and the size bound. -/
def mapOrderWf (C : ℕ) (cap : ℚ) (m : JsMap String Alert)
    (order : List String) : Prop :=
  cap = (C : ℚ) ∧ "" ∉ order ∧ (∀ p ∈ m.entries, p.1 ∈ order) ∧
  m.keys.Nodup ∧ m.size ≤ C

/-- Well-formedness kept by `PriorityFresh` states. -/
def PfpStateWf (C : ℕ) (s : PfpState) : Prop :=
  s.cap = (C : ℚ) ∧ (∀ p ∈ s.map.entries, p.1 ≠ "") ∧ s.map.keys.Nodup ∧
  s.map.size ≤ C

/-- Well-formedness kept by `PAFTinyLFU` states. -/
def PafStateWf (C : ℕ) (s : PafState) : Prop :=
  s.cap = (C : ℚ) ∧ "" ∉ s.order ∧ s.order.Nodup ∧
  (∀ p ∈ s.map.entries, p.1 ∈ s.order) ∧
  (∀ k ∈ s.order, k ∈ s.map.keys) ∧ s.map.keys.Nodup ∧ s.map.size ≤ C

/-- Well-formedness across the policy sum. -/
def PolicyWf (C : ℕ) : PolicyState → Prop
  | .lru s => mapOrderWf C s.cap s.map s.order
  | .ttlOnly s => mapOrderWf C s.cap s.map s.order
  | .priorityFresh s => PfpStateWf C s
  | .paf s => PafStateWf C s

theorem purge_mapOrderWf (C : ℕ) (cap now : ℚ) (m : JsMap String Alert)
    (order : List String) (h : mapOrderWf C cap m order) :
    mapOrderWf C cap (purgeMapOrder now m order).1
      (purgeMapOrder now m order).2 := by
  obtain ⟨hcap, hno, hsub, hnd, hsize⟩ := h
  refine ⟨hcap, ?_, ?_, ?_, ?_⟩
  · intro hmem
    unfold purgeMapOrder at hmem
    exact hno (purgeOrderFold_subset now "" m.entries (m, order) hmem)
  · intro p hp
    rw [purgeMapOrder_fst] at hp
    have hpm := purgeMap_mem now m p hp
    have hpun := purgeMap_unexpired now m p hp
    unfold purgeMapOrder
    apply purgeOrderFold_keep now p.1 m.entries (m, order) (hsub p hpm)
    intro q hq hqe hqp
    have := JsMap.keys_inj m hnd hq hpm hqp
    rw [this, hpun] at hqe
    exact absurd hqe (by decide)
  · rw [purgeMapOrder_fst]
    exact purgeMap_nodup now m hnd
  · rw [purgeMapOrder_fst]
    exact le_trans (purgeMap_size_le now m) hsize

theorem purge_pafWf (C : ℕ) (now : ℚ) (s : PafState) (h : PafStateWf C s) :
    PafStateWf C { s with map := (purgeMapOrder now s.map s.order).1
                          order := (purgeMapOrder now s.map s.order).2 } := by
  obtain ⟨hcap, hno, hond, hsub, hrev, hnd, hsize⟩ := h
  have hmo := purge_mapOrderWf C s.cap now s.map s.order ⟨hcap, hno, hsub, hnd, hsize⟩
  obtain ⟨_, hno2, hsub2, hnd2, hsize2⟩ := hmo
  refine ⟨hcap, hno2, ?_, hsub2, ?_, hnd2, ?_⟩
  · unfold purgeMapOrder
    exact purgeOrderFold_nodup now s.map.entries (s.map, s.order) hond
  · intro k hk
    have hkord : k ∈ s.order := by
      unfold purgeMapOrder at hk
      exact purgeOrderFold_subset now k s.map.entries (s.map, s.order) hk
    rcases List.mem_map.mp (hrev k hkord) with ⟨p, hp, hpk⟩
    by_cases hexp : isExpired p.2 now = true
    · exfalso
      unfold purgeMapOrder at hk
      exact purgeOrderFold_removes now k s.map.entries (s.map, s.order) hond
        ⟨p, hp, hexp, hpk⟩ hk
    · have hkeep := purgeMap_keep now s.map hnd p hp (by simpa using hexp)
      rw [purgeMapOrder_fst]
      rw [← hpk]
      exact List.mem_map_of_mem _ hkeep
  · rw [purgeMapOrder_fst]
    exact le_trans (purgeMap_size_le now s.map) hsize

end Aware

namespace Aware

/-! ## Claim C5: LRU and TTLOnly preserve well-formedness -/

theorem LRU.lru_put_wf (C : ℕ) (a : Alert) (now : ℚ) (s : LruState)
    (ha : a.id ≠ "") (h : mapOrderWf C s.cap s.map s.order) :
    mapOrderWf C (LRU.put a now s).cap (LRU.put a now s).map
      (LRU.put a now s).order := by
  obtain ⟨hcap, hno, hsub, hnd, _⟩ := purge_mapOrderWf C s.cap now s.map s.order h
  have h0 : (0:ℚ) ≤ s.cap := by
    rw [hcap]
    exact_mod_cast Nat.zero_le C
  have hsubset : ∀ p ∈ ((purgeMapOrder now s.map s.order).1.set a.id a).entries,
      p.1 ∈ touchOrder (purgeMapOrder now s.map s.order).2 a.id := by
    intro p hp
    rcases JsMap.mem_set _ _ _ p hp with rfl | ⟨hp2, hpne⟩
    · exact touchOrder_self _ _
    · exact touchOrder_mem _ _ _ (hsub p hp2)
  have hW := evictLoop_wf s.cap h0
    (touchOrder (purgeMapOrder now s.map s.order).2 a.id)
    ((purgeMapOrder now s.map s.order).1.set a.id a)
    (touchOrder_no_empty _ _ hno ha) hsubset (JsMap.nodup_set _ _ _ hnd)
  obtain ⟨hs, hn, hsb, hd⟩ := hW
  simp only [LRU.put]
  refine ⟨hcap, hn, hsb, hd, ?_⟩
  exact_mod_cast le_trans hs (le_of_eq hcap)

theorem LRU.lru_get_wf (C : ℕ) (id : String) (now : ℚ) (s : LruState)
    (h : mapOrderWf C s.cap s.map s.order) :
    mapOrderWf C (LRU.get id now s).2.cap (LRU.get id now s).2.map
      (LRU.get id now s).2.order := by
  obtain ⟨hcap, hno, hsub, hnd, hsize⟩ := purge_mapOrderWf C s.cap now s.map s.order h
  simp only [LRU.get]
  cases hg : (purgeMapOrder now s.map s.order).1.get? id with
  | none => exact ⟨hcap, hno, hsub, hnd, hsize⟩
  | some a =>
    have hid : id ∈ (purgeMapOrder now s.map s.order).2 :=
      hsub (id, a) (JsMap.get?_some_mem _ id a hg)
    have hidne : id ≠ "" := fun he => hno (he ▸ hid)
    refine ⟨hcap, touchOrder_no_empty _ _ hno hidne, ?_, hnd, hsize⟩
    intro p hp
    exact touchOrder_mem _ _ _ (hsub p hp)

theorem LRU.lru_entries_wf (C : ℕ) (now : ℚ) (s : LruState)
    (h : mapOrderWf C s.cap s.map s.order) :
    mapOrderWf C (LRU.entries now s).2.cap (LRU.entries now s).2.map
      (LRU.entries now s).2.order := by
  obtain ⟨hcap, hno, hsub, hnd, hsize⟩ := purge_mapOrderWf C s.cap now s.map s.order h
  exact ⟨hcap, hno, hsub, hnd, hsize⟩

theorem TTLOnly.ttl_put_wf (C : ℕ) (a : Alert) (now : ℚ) (s : TtlState)
    (ha : a.id ≠ "") (h : mapOrderWf C s.cap s.map s.order) :
    mapOrderWf C (TTLOnly.put a now s).cap (TTLOnly.put a now s).map
      (TTLOnly.put a now s).order := by
  obtain ⟨hcap, hno, hsub, hnd, _⟩ := purge_mapOrderWf C s.cap now s.map s.order h
  have h0 : (0:ℚ) ≤ s.cap := by
    rw [hcap]
    exact_mod_cast Nat.zero_le C
  have hno2 : "" ∉ (purgeMapOrder now s.map s.order).2 ++ [a.id] := by
    intro hmem
    rcases List.mem_append.mp hmem with h2 | h2
    · exact hno h2
    · exact ha (List.mem_singleton.mp h2).symm
  have hsubset : ∀ p ∈ ((purgeMapOrder now s.map s.order).1.set a.id a).entries,
      p.1 ∈ (purgeMapOrder now s.map s.order).2 ++ [a.id] := by
    intro p hp
    rcases JsMap.mem_set _ _ _ p hp with rfl | ⟨hp2, hpne⟩
    · exact List.mem_append_right _ (List.mem_singleton_self _)
    · exact List.mem_append_left _ (hsub p hp2)
  have hW := evictLoop_wf s.cap h0
    ((purgeMapOrder now s.map s.order).2 ++ [a.id])
    ((purgeMapOrder now s.map s.order).1.set a.id a)
    hno2 hsubset (JsMap.nodup_set _ _ _ hnd)
  obtain ⟨hs, hn, hsb, hd⟩ := hW
  simp only [TTLOnly.put]
  refine ⟨hcap, hn, hsb, hd, ?_⟩
  exact_mod_cast le_trans hs (le_of_eq hcap)

theorem TTLOnly.ttl_get_wf (C : ℕ) (id : String) (now : ℚ) (s : TtlState)
    (h : mapOrderWf C s.cap s.map s.order) :
    mapOrderWf C (TTLOnly.get id now s).2.cap (TTLOnly.get id now s).2.map
      (TTLOnly.get id now s).2.order := by
  obtain ⟨hcap, hno, hsub, hnd, hsize⟩ := purge_mapOrderWf C s.cap now s.map s.order h
  exact ⟨hcap, hno, hsub, hnd, hsize⟩

theorem TTLOnly.ttl_entries_wf (C : ℕ) (now : ℚ) (s : TtlState)
    (h : mapOrderWf C s.cap s.map s.order) :
    mapOrderWf C (TTLOnly.entries now s).2.cap (TTLOnly.entries now s).2.map
      (TTLOnly.entries now s).2.order := by
  obtain ⟨hcap, hno, hsub, hnd, hsize⟩ := purge_mapOrderWf C s.cap now s.map s.order h
  exact ⟨hcap, hno, hsub, hnd, hsize⟩

end Aware

namespace Aware

/-! ## Claim C5: PriorityFresh preserves well-formedness -/

theorem purge_pfpWf (C : ℕ) (now : ℚ) (s : PfpState) (h : PfpStateWf C s) :
    PfpStateWf C { s with map := purgeMap now s.map } := by
  obtain ⟨hcap, hids, hnd, hsize⟩ := h
  exact ⟨hcap, fun p hp => hids p (purgeMap_mem now s.map p hp),
    purgeMap_nodup now s.map hnd, le_trans (purgeMap_size_le now s.map) hsize⟩

theorem PriorityFresh.pfp_put_wf (C : ℕ) (hC : 1 ≤ C) (M : MathModel) (a : Alert)
    (now : ℚ) (s : PfpState) (pf : Option PFModel) (ha : a.id ≠ "")
    (h : PfpStateWf C s) :
    PfpStateWf C (PriorityFresh.put M a now s pf).1 := by
  have hcap : s.cap = (C : ℚ) := h.1
  have hids2 : ∀ p ∈ (purgeMap now s.map).entries, p.1 ≠ "" :=
    fun p hp => h.2.1 p (purgeMap_mem now s.map p hp)
  have hnd2 : (purgeMap now s.map).keys.Nodup := purgeMap_nodup now s.map h.2.2.1
  have hsize2 : (purgeMap now s.map).size ≤ C :=
    le_trans (purgeMap_size_le now s.map) h.2.2.2
  simp only [PriorityFresh.put]
  by_cases hlt : ((purgeMap now s.map).size : ℚ) < s.cap
  · rw [if_pos hlt]
    have hltC : (purgeMap now s.map).size < C := by
      rw [hcap] at hlt
      exact_mod_cast hlt
    refine ⟨hcap, ?_, JsMap.nodup_set _ _ _ hnd2, ?_⟩
    · intro p hp
      rcases JsMap.mem_set _ _ _ p hp with rfl | ⟨hp2, _⟩
      · exact ha
      · exact hids2 p hp2
    · exact le_trans (JsMap.size_set_le _ _ _) hltC
  · rw [if_neg hlt]
    cases hl : (purgeMap now s.map).entries with
    | nil =>
      have hsz : (purgeMap now s.map).size = 0 := by
        unfold JsMap.size
        rw [hl]
        rfl
      simp only [List.foldl_nil]
      refine ⟨hcap, ?_, JsMap.nodup_set _ _ _ hnd2, ?_⟩
      · intro p hp
        rcases JsMap.mem_set _ _ _ p hp with rfl | ⟨hp2, _⟩
        · exact ha
        · exact hids2 p hp2
      · exact le_trans (JsMap.size_set_le _ _ _) (by rw [hsz]; exact hC)
    | cons q rest =>
      rcases PriorityFresh.scan_id M s now (purgeMap now s.map) pf
        (by rw [hl]; exact List.cons_ne_nil q rest) with ⟨w, sc, hw, hwk⟩
      rcases List.mem_map.mp hwk with ⟨pw, hpw, hpwk⟩
      have hwne : w ≠ "" := hpwk ▸ hids2 pw hpw
      rw [hl] at hw
      rw [hw]
      simp only []
      rw [if_neg hwne]
      refine ⟨hcap, ?_, JsMap.nodup_set _ _ _ (JsMap.nodup_delete _ _ hnd2), ?_⟩
      · intro p hp
        rcases JsMap.mem_set _ _ _ p hp with rfl | ⟨hp2, _⟩
        · exact ha
        · rw [JsMap.mem_delete] at hp2
          exact hids2 p hp2.1
      · have hdel := JsMap.size_delete_mem (purgeMap now s.map) w hnd2 hwk
        have := JsMap.size_set_le ((purgeMap now s.map).delete w) a.id a
        show (((purgeMap now s.map).delete w).set a.id a).size ≤ C
        omega

theorem PriorityFresh.pfp_get_wf (C : ℕ) (id : String) (now : ℚ) (s : PfpState)
    (h : PfpStateWf C s) : PfpStateWf C (PriorityFresh.get id now s).2 :=
  purge_pfpWf C now s h

theorem PriorityFresh.pfp_entries_wf (C : ℕ) (now : ℚ) (s : PfpState)
    (h : PfpStateWf C s) : PfpStateWf C (PriorityFresh.entries now s).2 :=
  purge_pfpWf C now s h

end Aware

namespace Aware

/-! ## Claim C5: PAFTinyLFU preserves well-formedness -/

theorem PAFTinyLFU.paf_put_wf (C : ℕ) (hC : 1 ≤ C) (a : Alert) (now : ℚ)
    (s : PafState) (ha : a.id ≠ "") (h : PafStateWf C s) :
    PafStateWf C (PAFTinyLFU.put a now s) := by
  obtain ⟨hcapX, hnoX, hondX, hsubX, hrevX, hndX, hsizeX⟩ := purge_pafWf C now s h
  have hcap : s.cap = (C : ℚ) := hcapX
  have hno2 : "" ∉ (purgeMapOrder now s.map s.order).2 := hnoX
  have hond2 : (purgeMapOrder now s.map s.order).2.Nodup := hondX
  have hsub2 : ∀ p ∈ (purgeMapOrder now s.map s.order).1.entries,
      p.1 ∈ (purgeMapOrder now s.map s.order).2 := hsubX
  have hrev2 : ∀ k ∈ (purgeMapOrder now s.map s.order).2,
      k ∈ (purgeMapOrder now s.map s.order).1.keys := hrevX
  have hnd2 : (purgeMapOrder now s.map s.order).1.keys.Nodup := hndX
  have hsize2 : (purgeMapOrder now s.map s.order).1.size ≤ C := hsizeX
  simp only [PAFTinyLFU.put]
  by_cases hlt : (((purgeMapOrder now s.map s.order).1.size : ℚ)) < s.cap
  · rw [if_pos hlt]
    have hltC : (purgeMapOrder now s.map s.order).1.size < C := by
      rw [hcap] at hlt
      exact_mod_cast hlt
    refine ⟨hcap, touchOrder_no_empty _ _ hno2 ha, touchOrder_nodup _ _ hond2,
      ?_, ?_, JsMap.nodup_set _ _ _ hnd2, ?_⟩
    · intro p hp
      rcases JsMap.mem_set _ _ _ p hp with rfl | ⟨hp2, _⟩
      · exact touchOrder_self _ _
      · exact touchOrder_mem _ _ _ (hsub2 p hp2)
    · intro k hk
      rcases mem_of_touchOrder _ _ _ hk with rfl | hk2
      · exact JsMap.mem_keys_set_self _ _ _
      · exact JsMap.keys_set_superset _ _ _ _ (hrev2 k hk2)
    · show ((purgeMapOrder now s.map s.order).1.set a.id a).size ≤ C
      have := JsMap.size_set_le (purgeMapOrder now s.map s.order).1 a.id a
      omega
  · rw [if_neg hlt]
    cases hsm : (purgeMapOrder now s.map s.order).2.take 8 with
    | nil => exact ⟨hcap, hno2, hond2, hsub2, hrev2, hnd2, hsize2⟩
    | cons v0 vr =>
      simp only []
      have hv : (selectVictim
          (FrequencySketch.increment (a.threadKey.getD a.id) s.sketch)
          v0 (v0 :: vr)).1 ∈ v0 :: vr := by
        rcases PAFTinyLFU.selectVictim_spec
          (FrequencySketch.increment (a.threadKey.getD a.id) s.sketch)
          v0 (v0 :: vr) with h2 | h2
        · rw [h2]
          exact List.mem_cons_self _ _
        · exact h2
      have hvp : (selectVictim
          (FrequencySketch.increment (a.threadKey.getD a.id) s.sketch)
          v0 (v0 :: vr)).1 ∈ (purgeMapOrder now s.map s.order).2 := by
        apply List.take_subset 8
        rw [hsm]
        exact hv
      have hvne : (selectVictim
          (FrequencySketch.increment (a.threadKey.getD a.id) s.sketch)
          v0 (v0 :: vr)).1 ≠ "" := fun he => hno2 (he ▸ hvp)
      have hvk : (selectVictim
          (FrequencySketch.increment (a.threadKey.getD a.id) s.sketch)
          v0 (v0 :: vr)).1 ∈ (purgeMapOrder now s.map s.order).1.keys :=
        hrev2 _ hvp
      by_cases hadm : (selectVictim
          (FrequencySketch.increment (a.threadKey.getD a.id) s.sketch)
          v0 (v0 :: vr)).2 ≤ FrequencySketch.estimate (a.threadKey.getD a.id)
          (FrequencySketch.increment (a.threadKey.getD a.id) s.sketch)
      · rw [if_pos hadm, if_neg hvne]
        refine ⟨hcap, ?_, ?_, ?_, ?_,
          JsMap.nodup_set _ _ _ (JsMap.nodup_delete _ _ hnd2), ?_⟩
        · exact touchOrder_no_empty _ _
            (fun hm => hno2 (List.mem_of_mem_erase hm)) ha
        · exact touchOrder_nodup _ _ (hond2.erase _)
        · intro p hp
          rcases JsMap.mem_set _ _ _ p hp with rfl | ⟨hp2, _⟩
          · exact touchOrder_self _ _
          · rw [JsMap.mem_delete] at hp2
            exact touchOrder_mem _ _ _
              ((List.mem_erase_of_ne hp2.2).mpr (hsub2 p hp2.1))
        · intro k hk
          rcases mem_of_touchOrder _ _ _ hk with rfl | hk2
          · exact JsMap.mem_keys_set_self _ _ _
          · have hkv := (List.Nodup.mem_erase_iff hond2).mp hk2
            exact JsMap.keys_set_superset _ _ _ _
              (JsMap.keys_delete_mem _ _ _
                (hrev2 k (List.mem_of_mem_erase hk2)) hkv.1)
        · show (((purgeMapOrder now s.map s.order).1.delete
              (selectVictim
                (FrequencySketch.increment (a.threadKey.getD a.id) s.sketch)
                v0 (v0 :: vr)).1).set a.id a).size ≤ C
          have hdel := JsMap.size_delete_mem
            (purgeMapOrder now s.map s.order).1 _ hnd2 hvk
          have := JsMap.size_set_le
            ((purgeMapOrder now s.map s.order).1.delete
              (selectVictim
                (FrequencySketch.increment (a.threadKey.getD a.id) s.sketch)
                v0 (v0 :: vr)).1) a.id a
          omega
      · rw [if_neg hadm]
        exact ⟨hcap, hno2, hond2, hsub2, hrev2, hnd2, hsize2⟩

theorem PAFTinyLFU.paf_get_wf (C : ℕ) (id : String) (now : ℚ) (s : PafState)
    (h : PafStateWf C s) : PafStateWf C (PAFTinyLFU.get id now s).2 := by
  obtain ⟨hcapX, hnoX, hondX, hsubX, hrevX, hndX, hsizeX⟩ := purge_pafWf C now s h
  have hno2 : "" ∉ (purgeMapOrder now s.map s.order).2 := hnoX
  have hond2 : (purgeMapOrder now s.map s.order).2.Nodup := hondX
  have hsub2 : ∀ p ∈ (purgeMapOrder now s.map s.order).1.entries,
      p.1 ∈ (purgeMapOrder now s.map s.order).2 := hsubX
  have hrev2 : ∀ k ∈ (purgeMapOrder now s.map s.order).2,
      k ∈ (purgeMapOrder now s.map s.order).1.keys := hrevX
  simp only [PAFTinyLFU.get]
  cases hg : (purgeMapOrder now s.map s.order).1.get? id with
  | none => exact ⟨hcapX, hno2, hond2, hsub2, hrev2, hndX, hsizeX⟩
  | some a =>
    have hid : id ∈ (purgeMapOrder now s.map s.order).2 :=
      hsub2 (id, a) (JsMap.get?_some_mem _ id a hg)
    have hidne : id ≠ "" := fun he => hno2 (he ▸ hid)
    refine ⟨hcapX, touchOrder_no_empty _ _ hno2 hidne,
      touchOrder_nodup _ _ hond2, ?_, ?_, hndX, hsizeX⟩
    · intro p hp
      exact touchOrder_mem _ _ _ (hsub2 p hp)
    · intro k hk
      rcases mem_of_touchOrder _ _ _ hk with rfl | hk2
      · exact List.mem_map_of_mem _ (JsMap.get?_some_mem _ k a hg)
      · exact hrev2 k hk2

theorem PAFTinyLFU.paf_entries_wf (C : ℕ) (now : ℚ) (s : PafState)
    (h : PafStateWf C s) : PafStateWf C (PAFTinyLFU.entries now s).2 := by
  obtain ⟨hcapX, hnoX, hondX, hsubX, hrevX, hndX, hsizeX⟩ := purge_pafWf C now s h
  exact ⟨hcapX, hnoX, hondX, hsubX, hrevX, hndX, hsizeX⟩

end Aware

namespace Aware

/-! ## Claim C5: assembled capacity bound -/

theorem applyOp_wf (C : ℕ) (hC : 1 ≤ C) (M : MathModel) (p : PolicyState)
    (pf : Option PFModel) (op : CacheOp)
    (hop : ∀ a now, op = CacheOp.put a now → a.id ≠ "")
    (h : PolicyWf C p) : PolicyWf C (PolicyState.applyOp M (p, pf) op).1 := by
  cases op with
  | put a now =>
    have ha : a.id ≠ "" := hop a now rfl
    cases p with
    | lru s => exact LRU.lru_put_wf C a now s ha h
    | ttlOnly s => exact TTLOnly.ttl_put_wf C a now s ha h
    | priorityFresh s => exact PriorityFresh.pfp_put_wf C hC M a now s pf ha h
    | paf s => exact PAFTinyLFU.paf_put_wf C hC a now s ha h
  | get id now =>
    cases p with
    | lru s => exact LRU.lru_get_wf C id now s h
    | ttlOnly s => exact TTLOnly.ttl_get_wf C id now s h
    | priorityFresh s => exact PriorityFresh.pfp_get_wf C id now s h
    | paf s => exact PAFTinyLFU.paf_get_wf C id now s h
  | has id now =>
    cases p with
    | lru s => exact LRU.lru_get_wf C id now s h
    | ttlOnly s => exact TTLOnly.ttl_get_wf C id now s h
    | priorityFresh s => exact PriorityFresh.pfp_get_wf C id now s h
    | paf s => exact PAFTinyLFU.paf_get_wf C id now s h
  | entries now =>
    cases p with
    | lru s => exact LRU.lru_entries_wf C now s h
    | ttlOnly s => exact TTLOnly.ttl_entries_wf C now s h
    | priorityFresh s => exact PriorityFresh.pfp_entries_wf C now s h
    | paf s => exact PAFTinyLFU.paf_entries_wf C now s h

theorem runOps_wf (C : ℕ) (hC : 1 ≤ C) (M : MathModel) :
    ∀ (ops : List CacheOp) (sp : PolicyState × Option PFModel),
      (∀ a now, CacheOp.put a now ∈ ops → a.id ≠ "") →
      PolicyWf C sp.1 → PolicyWf C (runOps M ops sp).1 := by
  intro ops
  induction ops with
  | nil =>
    intro sp _ h
    exact h
  | cons op rest ih =>
    intro sp hids h
    have h2 := applyOp_wf C hC M sp.1 sp.2 op
      (fun a now he => hids a now (he ▸ List.mem_cons_self op rest)) h
    exact ih (PolicyState.applyOp M sp op)
      (fun a now hmem => hids a now (List.mem_cons_of_mem op hmem)) h2

theorem createPolicy_wf (C : ℕ) (opts : RunOptions) (pf : Option PFModel)
    (hcap : opts.cacheSize = (C : ℚ)) : PolicyWf C (createPolicy opts pf) := by
  cases hp : opts.policy with
  | LRU =>
    simp only [createPolicy, hp]
    exact ⟨hcap, List.not_mem_nil "", fun p hp2 => absurd hp2 (List.not_mem_nil p),
      List.nodup_nil, Nat.zero_le C⟩
  | TTLOnly =>
    simp only [createPolicy, hp]
    exact ⟨hcap, List.not_mem_nil "", fun p hp2 => absurd hp2 (List.not_mem_nil p),
      List.nodup_nil, Nat.zero_le C⟩
  | PriorityFresh =>
    simp only [createPolicy, hp]
    exact ⟨hcap, fun p hp2 => absurd hp2 (List.not_mem_nil p),
      List.nodup_nil, Nat.zero_le C⟩
  | PAFTinyLFU =>
    simp only [createPolicy, hp]
    exact ⟨hcap, List.not_mem_nil "", List.nodup_nil,
      fun p hp2 => absurd hp2 (List.not_mem_nil p),
      fun k hk => absurd hk (List.not_mem_nil k),
      List.nodup_nil, Nat.zero_le C⟩

/-- C5 (amended): for every policy and every call sequence, when the
configured capacity is a positive integer `C` and every put id is a
non-empty string, `size() ≤ C` holds after every operation (the sequence is
arbitrary, so the bound holds at every intermediate state). -/
theorem cache_size_bounded (M : MathModel) (C : ℕ) (hC : 1 ≤ C)
    (opts : RunOptions) (hcap : opts.cacheSize = (C : ℚ))
    (pf0 : Option PFModel) (ops : List CacheOp)
    (hids : ∀ a now, CacheOp.put a now ∈ ops → a.id ≠ "") :
    PolicyState.size (runOps M ops (createPolicy opts pf0, pf0)).1 ≤ C := by
  have hwf := runOps_wf C hC M ops (createPolicy opts pf0, pf0) hids
    (createPolicy_wf C opts pf0 hcap)
  cases hfin : (runOps M ops (createPolicy opts pf0, pf0)).1 with
  | lru s =>
    rw [hfin] at hwf
    exact hwf.2.2.2.2
  | ttlOnly s =>
    rw [hfin] at hwf
    exact hwf.2.2.2.2
  | priorityFresh s =>
    rw [hfin] at hwf
    exact hwf.2.2.2
  | paf s =>
    rw [hfin] at hwf
    exact hwf.2.2.2.2.2.2

/-- Minimal options record exercising the C5 witness. -/
def optsC5 : RunOptions :=
  { scenario := .Rural, policy := .LRU, cacheSize := 1, alerts := 0,
    reliability := 0, durationSec := 0, queryRatePerMin := 0, seed := "s" }

theorem cache_size_bounded_witness :
    optsC5.cacheSize = ((1 : ℕ) : ℚ) ∧
    PolicyState.size (runOps mathOne [CacheOp.put alertA6 0]
      (createPolicy optsC5 none, none)).1 ≤ 1 :=
  ⟨by norm_num [optsC5],
   cache_size_bounded mathOne 1 (le_refl 1) optsC5 (by norm_num [optsC5]) none
     [CacheOp.put alertA6 0]
     (by
       intro a now hmem
       have h := List.mem_singleton.mp hmem
       injection h with h1 h2
       rw [h1]
       decide)⟩

set_option maxRecDepth 10000 in
/-- C5 counterexample: a `PriorityFresh` cache constructed with capacity 0
accepts a put and ends with `size() = 1 > 0`: with no cached entry there is
no eviction victim (`worstId` stays falsy) and the candidate is inserted
unconditionally, so the claimed bound fails for capacity 0. -/
theorem priorityFresh_capacity_zero_exceeded :
    PriorityFresh.size (PriorityFresh.put mathOne alertA6 0
      (PriorityFresh.mk 0 none none none) none).1 = 1 ∧
    ¬ ((PriorityFresh.size (PriorityFresh.put mathOne alertA6 0
      (PriorityFresh.mk 0 none none none) none).1 : ℚ) ≤
      (PriorityFresh.mk 0 none none none).cap) := by
  constructor <;> with_unfolding_all decide

end Aware

namespace Aware

/-! ## Claim C8: sketch aging -/

/-- `n` repeated `increment key` calls on the frequency-sketch.ts sketch. -/
def incrementN (key : String) : ℕ → SketchState → SketchState
  | 0, s => s
  | n + 1, s => FrequencySketch.increment key (incrementN key n s)

theorem incrementN_lanes :
    ∀ n : ℕ, n < 65536 →
      (incrementN "a" n (FrequencySketch.mk 4096)).size = 4096 ∧
      (incrementN "a" n (FrequencySketch.mk 4096)).laneA
        (FrequencySketch.hash "a" &&& 4095) = n ∧
      (incrementN "a" n (FrequencySketch.mk 4096)).laneB
        ((FrequencySketch.hash "a" >>> 8) &&& 4095) = n ∧
      (incrementN "a" n (FrequencySketch.mk 4096)).laneC
        ((FrequencySketch.hash "a" >>> 16) &&& 4095) = n ∧
      (incrementN "a" n (FrequencySketch.mk 4096)).laneD
        ((FrequencySketch.hash "a" >>> 24) &&& 4095) = n := by
  intro n
  induction n with
  | zero =>
    intro _
    refine ⟨?_, ?_, ?_, ?_, ?_⟩ <;> rw [show incrementN "a" 0
      (FrequencySketch.mk 4096) = FrequencySketch.mk 4096 from rfl,
      FrequencySketch.mk_eval]
  | succ n ih =>
    intro hn
    obtain ⟨hsz, hA, hB, hC, hD⟩ := ih (Nat.lt_of_succ_lt hn)
    have hstep : incrementN "a" (n + 1) (FrequencySketch.mk 4096) =
        FrequencySketch.increment "a"
          (incrementN "a" n (FrequencySketch.mk 4096)) := rfl
    rw [hstep]
    simp only [FrequencySketch.increment, FrequencySketch.bump, hsz]
    norm_num
    refine ⟨?_, ?_, ?_, ?_⟩ <;>
      · first
          | rw [hA] | rw [hB] | rw [hC] | rw [hD]
        omega
end Aware

namespace Aware

/-- C8 counterexample: the frequency-sketch.ts sketch cited by the claim
performs no aging at all: after 50000 increments of one key — far past the
10 × expectedItems = 40960 sample size the spec prescribes — its estimate is
exactly 50000, so no counter was ever halved. -/
theorem frequencySketch_never_ages :
    FrequencySketch.estimate "a"
      (incrementN "a" 50000 (FrequencySketch.mk 4096)) = 50000 ∧
    10 * 4096 < 50000 := by
  obtain ⟨hsz, hA, hB, hC, hD⟩ := incrementN_lanes 50000 (by norm_num)
  refine ⟨?_, by norm_num⟩
  simp only [FrequencySketch.estimate, hsz]
  norm_num
  rw [hA, hB, hC, hD]
  simp

/-- C8 (amended): the aging TinyLFU sketch of the research harness (the
second `FrequencySketch` class of the tree): when an increment brings the
running count up to the sample size, the counter table is halved cell by
cell (integer division) and the running count returns to zero. -/
theorem tinySketch_increment_ages (key : String) (s : TinySketch)
    (htrig : s.sampleSize ≤ s.size + 1) :
    (TinySketch.increment key s).size = 0 ∧
    ∀ i j, (TinySketch.increment key s).counters i j =
      TinySketch.incCounters s key i j / 2 := by
  unfold TinySketch.increment
  rw [if_pos htrig]
  exact ⟨rfl, fun i j => rfl⟩

/-- Aging sketch one increment short of its sample size. -/
def tinyW : TinySketch :=
  { width := 4, depth := 4, size := 9, sampleSize := 10, tableMask := 3,
    counters := fun _ _ => 4 }

theorem tinySketch_increment_ages_witness :
    tinyW.sampleSize ≤ tinyW.size + 1 ∧
    (TinySketch.increment "a" tinyW).size = 0 ∧
    (TinySketch.increment "a" tinyW).counters 0 0 =
      TinySketch.incCounters tinyW "a" 0 0 / 2 :=
  ⟨by decide,
   (tinySketch_increment_ages "a" tinyW (by decide)).1,
   (tinySketch_increment_ages "a" tinyW (by decide)).2 0 0⟩

end Aware

namespace Aware

/-! ## Claim C9: configuration handling -/

/-- C9 (amended): invalid options never fail fast — there is no
`ConfigurationError` anywhere in the code.  `sanitizeConfig` silently clamps
`replicates` to `max(1, floor(replicates || 1))` and defaults the seed mode,
and `createPolicy` constructs an (empty) policy for every option record,
any cache size (including zero and negatives), any seed string (including
the empty one) and any scenario name included. -/
theorem invalid_options_clamped_not_rejected :
    (∀ cfg : BatchConfig, 1 ≤ (sanitizeConfig cfg).replicates ∧
      (sanitizeConfig cfg).seedMode = some (cfg.seedMode.getD .Fixed)) ∧
    (∀ (opts : RunOptions) (pf : Option PFModel),
      PolicyState.size (createPolicy opts pf) = 0) := by
  constructor
  · intro cfg
    exact ⟨le_max_left 1 _, rfl⟩
  · intro opts pf
    cases hp : opts.policy <;> simp [createPolicy, hp, PolicyState.size,
      LRU.size, TTLOnly.size, PriorityFresh.size, PAFTinyLFU.size,
      LRU.mk, TTLOnly.mk, PriorityFresh.mk, PAFTinyLFU.mk, JsMap.size]

/-- Options with a negative cache size and an empty seed string. -/
def optsC9 : RunOptions :=
  { scenario := .Rural, policy := .PriorityFresh, cacheSize := -1, alerts := 0,
    reliability := 0, durationSec := 0, queryRatePerMin := 0, seed := "" }

set_option maxRecDepth 10000 in
/-- C9 counterexample: nothing fails fast on invalid options —
`replicates = 0` is silently clamped to 1, a policy is constructed from a
negative cache size and an empty seed, and that policy even accepts a put
(its size grows to 1) instead of being rejected at construction. -/
theorem no_configuration_error_on_invalid_options :
    (sanitizeConfig { replicates := 0, seedMode := none }).replicates = 1 ∧
    PolicyState.size (createPolicy optsC9 none) = 0 ∧
    PolicyState.size (PolicyState.put mathOne alertA6 0 none
      (createPolicy optsC9 none)).1 = 1 := by
  refine ⟨?_, ?_, ?_⟩ <;> with_unfolding_all decide

end Aware

namespace Aware

/-! ## Claims C4/C10 groundwork: hits come from purged caches -/

/-- The backing alert map of a policy state. -/
def policyMap : PolicyState → JsMap String Alert
  | .lru s => s.map
  | .ttlOnly s => s.map
  | .priorityFresh s => s.map
  | .paf s => s.map

theorem policyGet_fst (id : String) (now : ℚ) (p : PolicyState) :
    (PolicyState.get id now p).1 = (purgeMap now (policyMap p)).get? id := by
  cases p with
  | lru s => exact LRU.lru_get_fst id now s
  | ttlOnly s => exact TTLOnly.ttl_get_fst id now s
  | priorityFresh s => exact PriorityFresh.pfp_get_fst id now s
  | paf s => exact PAFTinyLFU.paf_get_fst id now s

theorem policyGet_unexpired (id : String) (now : ℚ) (p : PolicyState)
    (a : Alert) (h : (PolicyState.get id now p).1 = some a) :
    isExpired a now = false := by
  rw [policyGet_fst] at h
  exact purgeMap_get?_unexpired now (policyMap p) id a h

theorem engineFreshness_pos (M : MathModel)
    (hM : ∀ x : ℚ, -1 ≤ x → x ≤ 0 → 0 < M.exp x) (a : Alert) (now : ℚ)
    (h : isExpired a now = false) : 0 < engineFreshness M a now := by
  unfold engineFreshness clamp01
  have hden : (1 : ℚ) ≤ max 1 a.ttlSec := le_max_left 1 a.ttlSec
  have hden0 : (0 : ℚ) < max 1 a.ttlSec := lt_of_lt_of_le one_pos hden
  have hage0 : (0 : ℚ) ≤ max 0 (now - a.issuedAt) := le_max_left 0 _
  have hx1 : -(max 0 (now - a.issuedAt) / max 1 a.ttlSec) ≤ 0 := by
    apply neg_nonpos_of_nonneg
    exact div_nonneg hage0 hden0.le
  have hagelt : max 0 (now - a.issuedAt) ≤ max 1 a.ttlSec := by
    rcases le_or_lt (now - a.issuedAt) 0 with h2 | h2
    · rw [max_eq_left h2]
      exact hden0.le
    · rw [max_eq_right h2.le]
      have hlt : now < a.issuedAt + a.ttlSec := by
        by_contra hge
        rw [show isExpired a now = decide (a.issuedAt + a.ttlSec ≤ now) from rfl] at h
        simp only [decide_eq_false_iff_not, not_le] at h
        exact absurd (not_lt.mp hge) (not_le.mpr h)
      have : now - a.issuedAt ≤ a.ttlSec := by linarith
      exact le_trans this (le_max_right 1 a.ttlSec)
  have hx2 : (-1 : ℚ) ≤ -(max 0 (now - a.issuedAt) / max 1 a.ttlSec) := by
    rw [neg_le_neg_iff]
    rw [div_le_one hden0]
    exact hagelt
  have hexp := hM _ hx2 hx1
  have hmin : 0 < min 1 (M.exp (-(max 0 (now - a.issuedAt) / max 1 a.ttlSec))) :=
    lt_min one_pos hexp
  exact lt_of_lt_of_le hmin (le_max_right 0 _)

end Aware

namespace Aware

/-! ## Engine frame lemmas -/

/-- The engine fields the C2 and C4/C10 invariants track, unchanged. -/
def FrameEq (s s2 : SimState) : Prop :=
  s2.staleAccess = s.staleAccess ∧ s2.specHitFresh = s.specHitFresh ∧
  s2.hits = s.hits ∧ s2.misses = s.misses ∧ s2.delivered = s.delivered ∧
  s2.deliveredAlerts = s.deliveredAlerts ∧ s2.issuedAlerts = s.issuedAlerts ∧
  s2.pending = s.pending ∧ s2.regionStatsMap = s.regionStatsMap

theorem FrameEq.refl (s : SimState) : FrameEq s s :=
  ⟨rfl, rfl, rfl, rfl, rfl, rfl, rfl, rfl, rfl⟩

theorem FrameEq.trans {s1 s2 s3 : SimState} (h : FrameEq s1 s2)
    (h2 : FrameEq s2 s3) : FrameEq s1 s3 := by
  obtain ⟨a1, a2, a3, a4, a5, a6, a7, a8, a9⟩ := h
  obtain ⟨b1, b2, b3, b4, b5, b6, b7, b8, b9⟩ := h2
  exact ⟨b1.trans a1, b2.trans a2, b3.trans a3, b4.trans a4, b5.trans a5,
    b6.trans a6, b7.trans a7, b8.trans a8, b9.trans a9⟩

theorem pushWindow_frame (R now : ℚ) (s : SimState) :
    FrameEq s (pushWindow R now s).2 := by
  simp only [pushWindow]
  split_ifs <;> exact ⟨rfl, rfl, rfl, rfl, rfl, rfl, rfl, rfl, rfl⟩

theorem pushProb_frame (M : MathModel) (a : Alert) (now : ℚ) (s : SimState) :
    FrameEq s (pushProb M a now s).2 := by
  unfold pushProb
  cases hpf : s.pf <;> exact ⟨rfl, rfl, rfl, rfl, rfl, rfl, rfl, rfl, rfl⟩

theorem pushSend_frame (ctx : RunCtx) (a : Alert) (thread : String)
    (lastPushT : Option ℚ) (withinRate notDuplicate : Bool) (p tau now : ℚ)
    (s : SimState) :
    FrameEq s (pushSend ctx a thread lastPushT withinRate notDuplicate
      p tau now s) := by
  simp only [pushSend]
  split_ifs <;> exact ⟨rfl, rfl, rfl, rfl, rfl, rfl, rfl, rfl, rfl⟩

theorem pushDecision_frame (ctx : RunCtx) (a : Alert) (regionId : String)
    (now : ℚ) (s : SimState) :
    FrameEq s (pushDecision ctx a regionId now s) := by
  unfold pushDecision
  exact ((pushWindow_frame _ now s).trans
    (pushProb_frame ctx.M a now _)).trans (pushSend_frame ctx a _ _ _ _ _ _ now _)

end Aware

namespace Aware

/-! ## Claim C2 groundwork: the dropped-counter sum -/

/-- Total dropped count over the per-region accumulators. -/
def droppedSum (m : JsMap String RegionAcc) : ℕ :=
  (m.entries.map (fun p => p.2.dropped)).sum

theorem mapSum_set_present (f : RegionAcc → ℕ) (k : String) (v : RegionAcc) :
    ∀ (l : List (String × RegionAcc)), (l.map (fun p => p.1)).Nodup →
      ∀ st, (k, st) ∈ l →
      ((l.map (fun p => if p.1 = k then (k, v) else p)).map
        (fun p => f p.2)).sum + f st =
      (l.map (fun p => f p.2)).sum + f v := by
  intro l
  induction l with
  | nil =>
    intro _ st hst
    exact absurd hst (List.not_mem_nil _)
  | cons q rest ih =>
    intro hnd st hst
    rw [List.map_cons, List.nodup_cons] at hnd
    by_cases hq : q.1 = k
    · have hqst : q = (k, st) := by
        rcases List.mem_cons.mp hst with h | h
        · exact h.symm
        · exact absurd (hq ▸ List.mem_map_of_mem (fun p => p.1) h) hnd.1
      have hrest : rest.map (fun p => if p.1 = k then (k, v) else p) = rest := by
        have hall : ∀ p ∈ rest, (if p.1 = k then (k, v) else p) = p := by
          intro p hp
          rw [if_neg]
          intro hpk
          exact hnd.1 (hq ▸ hpk ▸ List.mem_map_of_mem (fun p => p.1) hp)
        rw [List.map_congr_left hall]
        exact List.map_id _
      simp only [List.map_cons, if_pos hq, hrest, List.sum_cons]
      rw [hqst]
      have hsnd : ((k, st) : String × RegionAcc).2 = st := rfl
      rw [hsnd]
      omega
    · have hst2 : (k, st) ∈ rest := by
        rcases List.mem_cons.mp hst with h | h
        · exact absurd (congrArg Prod.fst h.symm) hq
        · exact h
      have := ih hnd.2 st hst2
      simp only [List.map_cons, if_neg hq, List.sum_cons]
      omega

theorem JsMap.has_iff_any {κ β : Type} [DecidableEq κ] (m : JsMap κ β)
    (k : κ) : m.has k = true ↔
      m.entries.any (fun q => q.1 = k) = true := by
  unfold JsMap.has JsMap.get?
  cases hf : m.entries.find? (fun q => q.1 = k) with
  | none =>
    constructor
    · intro h
      exact absurd h (by simp)
    · intro h
      rcases List.any_eq_true.mp h with ⟨p, hp, hpk⟩
      have h2 := List.find?_eq_none.mp hf p hp
      exact absurd hpk h2
  | some p =>
    constructor
    · intro _
      rw [List.any_eq_true]
      have hp := List.find?_some hf
      exact ⟨p, List.mem_of_find?_eq_some hf, hp⟩
    · intro _
      rfl

theorem droppedSum_set_present (m : JsMap String RegionAcc) (k : String)
    (st v : RegionAcc) (hnd : m.keys.Nodup) (hget : m.get? k = some st) :
    droppedSum (m.set k v) + st.dropped = droppedSum m + v.dropped := by
  have hmem := JsMap.get?_some_mem m k st hget
  have hany : m.entries.any (fun q => q.1 = k) = true := by
    rw [List.any_eq_true]
    exact ⟨(k, st), hmem, by simp⟩
  unfold droppedSum JsMap.set
  rw [if_pos hany]
  unfold JsMap.keys at hnd
  exact mapSum_set_present (fun r => r.dropped) k v m.entries hnd st hmem

theorem ensureRegionStats_facts (m : JsMap String RegionAcc) (r : String)
    (hnd : m.keys.Nodup) :
    droppedSum (ensureRegionStats m r) = droppedSum m ∧
    (ensureRegionStats m r).keys.Nodup ∧
    ∃ st, (ensureRegionStats m r).get? r = some st := by
  unfold ensureRegionStats
  by_cases h : m.has r
  · rw [if_pos h]
    refine ⟨rfl, hnd, ?_⟩
    unfold JsMap.has at h
    rcases Option.isSome_iff_exists.mp h with ⟨st, hst⟩
    exact ⟨st, hst⟩
  · rw [if_neg h]
    have hany : ¬ m.entries.any (fun q => q.1 = r) = true := by
      intro ha
      exact h ((JsMap.has_iff_any m r).mpr ha)
    refine ⟨?_, JsMap.nodup_set m r zeroAcc hnd,
      zeroAcc, JsMap.get?_set_self m r zeroAcc⟩
    unfold droppedSum JsMap.set
    rw [if_neg hany]
    simp [zeroAcc]

theorem recordDrop_acct (ctx : RunCtx) (a : Alert) (now : ℚ) (s : SimState)
    (hnd : s.regionStatsMap.keys.Nodup) :
    droppedSum (recordDrop ctx a now s).regionStatsMap =
      droppedSum s.regionStatsMap + 1 ∧
    (recordDrop ctx a now s).regionStatsMap.keys.Nodup ∧
    (recordDrop ctx a now s).staleAccess = s.staleAccess ∧
    (recordDrop ctx a now s).specHitFresh = s.specHitFresh ∧
    (recordDrop ctx a now s).hits = s.hits ∧
    (recordDrop ctx a now s).misses = s.misses ∧
    (recordDrop ctx a now s).delivered = s.delivered ∧
    (recordDrop ctx a now s).deliveredAlerts = s.deliveredAlerts ∧
    (recordDrop ctx a now s).issuedAlerts = s.issuedAlerts ∧
    (recordDrop ctx a now s).pending = s.pending := by
  obtain ⟨hds, hnd2, st, hget⟩ := ensureRegionStats_facts s.regionStatsMap
    ((a.regionId.orElse (fun _ => a.geokey)).getD "") hnd
  have hgetD : (ensureRegionStats s.regionStatsMap
      ((a.regionId.orElse (fun _ => a.geokey)).getD "")).getD
      ((a.regionId.orElse (fun _ => a.geokey)).getD "") zeroAcc = st := by
    unfold JsMap.getD
    rw [hget]
    rfl
  have hsum := droppedSum_set_present
    (ensureRegionStats s.regionStatsMap
      ((a.regionId.orElse (fun _ => a.geokey)).getD ""))
    ((a.regionId.orElse (fun _ => a.geokey)).getD "")
    st { st with dropped := st.dropped + 1 } hnd2 hget
  simp only [recordDrop, hgetD]
  cases hpf : s.pf <;>
    simp only [hpf] <;>
    refine ⟨by simp only [droppedSum] at hsum hds ⊢; omega,
      JsMap.nodup_set _ _ _ hnd2, ?_, ?_, ?_, ?_, ?_, ?_, ?_, ?_⟩ <;> trivial

end Aware

namespace Aware

theorem attemptDelivery_acct (ctx : RunCtx) (a : Alert) (now : ℚ)
    (s : SimState) (hnd : s.regionStatsMap.keys.Nodup) :
    ((attemptDelivery ctx a now s).2.staleAccess = s.staleAccess ∧
     (attemptDelivery ctx a now s).2.specHitFresh = s.specHitFresh ∧
     (attemptDelivery ctx a now s).2.hits = s.hits ∧
     (attemptDelivery ctx a now s).2.misses = s.misses ∧
     (attemptDelivery ctx a now s).2.issuedAlerts = s.issuedAlerts ∧
     (attemptDelivery ctx a now s).2.pending = s.pending) ∧
    droppedSum (attemptDelivery ctx a now s).2.regionStatsMap =
      droppedSum s.regionStatsMap ∧
    (attemptDelivery ctx a now s).2.regionStatsMap.keys.Nodup ∧
    ((attemptDelivery ctx a now s).1 = true →
      (attemptDelivery ctx a now s).2.delivered = s.delivered + 1 ∧
      (attemptDelivery ctx a now s).2.deliveredAlerts.length =
        s.deliveredAlerts.length + 1) ∧
    ((attemptDelivery ctx a now s).1 = false →
      (attemptDelivery ctx a now s).2.delivered = s.delivered ∧
      (attemptDelivery ctx a now s).2.deliveredAlerts = s.deliveredAlerts) := by
  obtain ⟨hens, hnd2, st, hget⟩ := ensureRegionStats_facts s.regionStatsMap
    ((a.regionId.orElse (fun _ => a.geokey)).getD "") hnd
  have hgetD : (ensureRegionStats s.regionStatsMap
      ((a.regionId.orElse (fun _ => a.geokey)).getD "")).getD
      ((a.regionId.orElse (fun _ => a.geokey)).getD "") zeroAcc = st := by
    unfold JsMap.getD
    rw [hget]
    rfl
  have hsum := droppedSum_set_present
    (ensureRegionStats s.regionStatsMap
      ((a.regionId.orElse (fun _ => a.geokey)).getD ""))
    ((a.regionId.orElse (fun _ => a.geokey)).getD "")
    st { st with delivered := st.delivered + 1 } hnd2 hget
  simp only [attemptDelivery, hgetD]
  split
  · -- success branch: the alert is delivered and admitted, then the push
    -- decision runs; the match on threadKey only touches thread counters
    have hfr := pushDecision_frame ctx a
      ((a.regionId.orElse (fun _ => a.geokey)).getD "") now
    split
    all_goals try split
    all_goals
      obtain ⟨f1, f2, f3, f4, f5, f6, f7, f8, f9⟩ := hfr _
      refine ⟨⟨f1.trans rfl, f2.trans rfl, f3.trans rfl, f4.trans rfl,
        f7.trans rfl, f8.trans rfl⟩, ?_, ?_, fun _ => ⟨?_, ?_⟩, ?_⟩
      · rw [f9]
        show droppedSum ((ensureRegionStats _ _).set _ _) = _
        have hdr : ({ st with delivered := st.delivered + 1 } : RegionAcc).dropped
            = st.dropped := rfl
        rw [hdr] at hsum
        omega
      · rw [f9]
        exact JsMap.nodup_set _ _ _ hnd2
      · rw [f5]
      · rw [f6]
        simp
      · intro h
        exact absurd h (by simp)
  · refine ⟨⟨rfl, rfl, rfl, rfl, rfl, rfl⟩, hens, hnd2, ?_, fun _ => ⟨rfl, rfl⟩⟩
    intro h
    exact absurd h (by simp)

end Aware

namespace Aware

theorem arrivalOne_acct (ctx : RunCtx) (s : SimState) (a : Alert)
    (hnd : s.regionStatsMap.keys.Nodup) :
    (arrivalOne ctx s a).staleAccess = s.staleAccess ∧
    (arrivalOne ctx s a).specHitFresh = s.specHitFresh ∧
    (arrivalOne ctx s a).hits = s.hits ∧
    (arrivalOne ctx s a).misses = s.misses ∧
    (arrivalOne ctx s a).regionStatsMap.keys.Nodup ∧
    (arrivalOne ctx s a).issuedAlerts.length = s.issuedAlerts.length + 1 ∧
    (arrivalOne ctx s a).delivered +
        droppedSum (arrivalOne ctx s a).regionStatsMap +
        (arrivalOne ctx s a).pending.length
      = s.delivered + droppedSum s.regionStatsMap + s.pending.length + 1 ∧
    (s.deliveredAlerts.length = s.delivered →
      (arrivalOne ctx s a).deliveredAlerts.length =
        (arrivalOne ctx s a).delivered) := by
  obtain ⟨hens, hnd2, st0, hget0⟩ := ensureRegionStats_facts s.regionStatsMap
    ((a.regionId.orElse (fun _ => a.geokey)).getD "") hnd
  simp only [arrivalOne]
  set s2 : SimState :=
    { s with issuedAlerts := s.issuedAlerts ++ [a]
             regionStatsMap := ensureRegionStats s.regionStatsMap
               ((a.regionId.orElse (fun _ => a.geokey)).getD "") } with hs2
  have hnd2b : s2.regionStatsMap.keys.Nodup := hnd2
  obtain ⟨⟨g1, g2, g3, g4, g5, g6⟩, gds, gnd, gsucc, gfail⟩ :=
    attemptDelivery_acct ctx a s.t s2 hnd2b
  have e1 : s2.delivered = s.delivered := rfl
  have e2 : s2.pending = s.pending := rfl
  have e3 : s2.deliveredAlerts = s.deliveredAlerts := rfl
  have e4 : s2.issuedAlerts = s.issuedAlerts ++ [a] := rfl
  have e5 : droppedSum s2.regionStatsMap = droppedSum s.regionStatsMap := hens
  rcases hADeq : attemptDelivery ctx a s.t s2 with ⟨ok, s3⟩
  rw [hADeq] at g1 g2 g3 g4 g5 g6 gds gnd gsucc gfail
  simp only at g1 g2 g3 g4 g5 g6 gds gnd gsucc gfail
  cases ok with
  | true =>
    rw [if_pos rfl]
    obtain ⟨gd, gda⟩ := gsucc rfl
    refine ⟨g1.trans rfl, g2.trans rfl, g3.trans rfl, g4.trans rfl, gnd,
      ?_, ?_, ?_⟩
    · simp only [g5, e4, hens]
      simp
    · simp only [gd, gds, g6, e1, e2, e5, hens]
      omega
    · intro hde
      simp only [gda, gd, e1, e3, hens]
      omega
  | false =>
    rw [if_neg (by simp)]
    obtain ⟨gd, gda⟩ := gfail rfl
    split
    · refine ⟨g1.trans rfl, g2.trans rfl, g3.trans rfl, g4.trans rfl, gnd,
        ?_, ?_, ?_⟩
      · show s3.issuedAlerts.length = _
        simp only [g5, e4, hens]
        simp
      · show s3.delivered + droppedSum s3.regionStatsMap +
            (s3.pending ++ [_]).length = _
        simp only [gd, gds, g6, e1, e2, e5, hens, List.length_append,
          List.length_cons, List.length_nil]
        omega
      · intro hde
        show s3.deliveredAlerts.length = s3.delivered
        simp only [gda, gd, e1, e3, hens]
        omega
    · obtain ⟨rds, rnd, r1, r2, r3, r4, r5, r6, r7, r8⟩ :=
        recordDrop_acct ctx a s.t s3 gnd
      refine ⟨r1.trans (g1.trans rfl), r2.trans (g2.trans rfl),
        r3.trans (g3.trans rfl), r4.trans (g4.trans rfl), rnd, ?_, ?_, ?_⟩
      · simp only [r7, g5, e4, hens]
        simp
      · simp only [rds, r5, r8, gd, gds, g6, e1, e2, e5, hens]
        omega
      · intro hde
        simp only [r6, r5, gda, gd, e1, e3, hens]
        omega

end Aware

namespace Aware

theorem arrivalsFold_acct (ctx : RunCtx) :
    ∀ (l : List Alert) (s : SimState), s.regionStatsMap.keys.Nodup →
      (l.foldl (arrivalOne ctx) s).staleAccess = s.staleAccess ∧
      (l.foldl (arrivalOne ctx) s).specHitFresh = s.specHitFresh ∧
      (l.foldl (arrivalOne ctx) s).hits = s.hits ∧
      (l.foldl (arrivalOne ctx) s).misses = s.misses ∧
      (l.foldl (arrivalOne ctx) s).regionStatsMap.keys.Nodup ∧
      (l.foldl (arrivalOne ctx) s).issuedAlerts.length =
        s.issuedAlerts.length + l.length ∧
      (l.foldl (arrivalOne ctx) s).delivered +
          droppedSum (l.foldl (arrivalOne ctx) s).regionStatsMap +
          (l.foldl (arrivalOne ctx) s).pending.length
        = s.delivered + droppedSum s.regionStatsMap + s.pending.length +
            l.length ∧
      (s.deliveredAlerts.length = s.delivered →
        (l.foldl (arrivalOne ctx) s).deliveredAlerts.length =
          (l.foldl (arrivalOne ctx) s).delivered) := by
  intro l
  induction l with
  | nil =>
    intro s hnd
    exact ⟨rfl, rfl, rfl, rfl, hnd, by simp, by simp, fun h => h⟩
  | cons a rest ih =>
    intro s hnd
    obtain ⟨a1, a2, a3, a4, a5, a6, a7, a8⟩ := arrivalOne_acct ctx s a hnd
    obtain ⟨b1, b2, b3, b4, b5, b6, b7, b8⟩ := ih (arrivalOne ctx s a) a5
    simp only [List.foldl_cons, List.length_cons]
    refine ⟨b1.trans a1, b2.trans a2, b3.trans a3, b4.trans a4, b5,
      ?_, ?_, ?_⟩
    · omega
    · omega
    · intro hde
      exact b8 (a8 hde)

theorem queryHitPF_acct (ctx : RunCtx) (cached : Alert) (fresh : ℚ)
    (s : SimState) :
    (queryHitPF ctx cached fresh s).staleAccess = s.staleAccess ∧
    (queryHitPF ctx cached fresh s).specHitFresh = s.specHitFresh ∧
    (queryHitPF ctx cached fresh s).hits = s.hits ∧
    (queryHitPF ctx cached fresh s).misses = s.misses ∧
    (queryHitPF ctx cached fresh s).delivered = s.delivered ∧
    (queryHitPF ctx cached fresh s).deliveredAlerts = s.deliveredAlerts ∧
    (queryHitPF ctx cached fresh s).issuedAlerts = s.issuedAlerts ∧
    (queryHitPF ctx cached fresh s).pending = s.pending ∧
    (queryHitPF ctx cached fresh s).regionStatsMap = s.regionStatsMap := by
  simp only [queryHitPF]
  cases hpf : s.pf <;> simp only [hpf] <;>
    refine ⟨?_, ?_, ?_, ?_, ?_, ?_, ?_, ?_, ?_⟩ <;> trivial

theorem queryHitCount_acct (ctx : RunCtx) (cached : Alert) (s : SimState) :
    (0 < engineFreshness ctx.M cached s.t →
      (queryHitCount ctx cached s).staleAccess = s.staleAccess) ∧
    (queryHitCount ctx cached s).specHitFresh =
      s.specHitFresh ++ [engineFreshness ctx.M cached s.t] ∧
    (queryHitCount ctx cached s).hits = s.hits + 1 ∧
    (queryHitCount ctx cached s).misses = s.misses ∧
    (queryHitCount ctx cached s).delivered = s.delivered ∧
    (queryHitCount ctx cached s).deliveredAlerts = s.deliveredAlerts ∧
    (queryHitCount ctx cached s).issuedAlerts = s.issuedAlerts ∧
    (queryHitCount ctx cached s).pending = s.pending ∧
    (queryHitCount ctx cached s).regionStatsMap = s.regionStatsMap := by
  simp only [queryHitCount]
  rcases le_or_lt (engineFreshness ctx.M cached s.t) 0 with hsf | hsf
  · rw [if_pos hsf]
    exact ⟨fun h => absurd hsf (not_le.mpr h),
      (queryHitPF_acct ctx cached _ _).2.1.trans rfl,
      (queryHitPF_acct ctx cached _ _).2.2.1.trans rfl,
      (queryHitPF_acct ctx cached _ _).2.2.2.1.trans rfl,
      (queryHitPF_acct ctx cached _ _).2.2.2.2.1.trans rfl,
      (queryHitPF_acct ctx cached _ _).2.2.2.2.2.1.trans rfl,
      (queryHitPF_acct ctx cached _ _).2.2.2.2.2.2.1.trans rfl,
      (queryHitPF_acct ctx cached _ _).2.2.2.2.2.2.2.1.trans rfl,
      (queryHitPF_acct ctx cached _ _).2.2.2.2.2.2.2.2.trans rfl⟩
  · rw [if_neg (not_le.mpr hsf)]
    exact ⟨fun _ => (queryHitPF_acct ctx cached _ _).1.trans rfl,
      (queryHitPF_acct ctx cached _ _).2.1.trans rfl,
      (queryHitPF_acct ctx cached _ _).2.2.1.trans rfl,
      (queryHitPF_acct ctx cached _ _).2.2.2.1.trans rfl,
      (queryHitPF_acct ctx cached _ _).2.2.2.2.1.trans rfl,
      (queryHitPF_acct ctx cached _ _).2.2.2.2.2.1.trans rfl,
      (queryHitPF_acct ctx cached _ _).2.2.2.2.2.2.1.trans rfl,
      (queryHitPF_acct ctx cached _ _).2.2.2.2.2.2.2.1.trans rfl,
      (queryHitPF_acct ctx cached _ _).2.2.2.2.2.2.2.2.trans rfl⟩

theorem queryHitFirst_acct (ctx : RunCtx) (cached : Alert) (s : SimState)
    (hnd : s.regionStatsMap.keys.Nodup) :
    (queryHitFirst ctx cached s).staleAccess = s.staleAccess ∧
    (queryHitFirst ctx cached s).specHitFresh = s.specHitFresh ∧
    (queryHitFirst ctx cached s).hits = s.hits ∧
    (queryHitFirst ctx cached s).misses = s.misses ∧
    (queryHitFirst ctx cached s).delivered = s.delivered ∧
    (queryHitFirst ctx cached s).deliveredAlerts = s.deliveredAlerts ∧
    (queryHitFirst ctx cached s).issuedAlerts = s.issuedAlerts ∧
    (queryHitFirst ctx cached s).pending = s.pending ∧
    droppedSum (queryHitFirst ctx cached s).regionStatsMap =
      droppedSum s.regionStatsMap ∧
    (queryHitFirst ctx cached s).regionStatsMap.keys.Nodup := by
  obtain ⟨hens, hnd2, st0, hget0⟩ := ensureRegionStats_facts s.regionStatsMap
    ((cached.regionId.orElse (fun _ => cached.geokey)).getD "") hnd
  have hgetD : (ensureRegionStats s.regionStatsMap
      ((cached.regionId.orElse (fun _ => cached.geokey)).getD "")).getD
      ((cached.regionId.orElse (fun _ => cached.geokey)).getD "") zeroAcc
      = st0 := by
    unfold JsMap.getD
    rw [hget0]
    rfl
  have hsum := droppedSum_set_present
    (ensureRegionStats s.regionStatsMap
      ((cached.regionId.orElse (fun _ => cached.geokey)).getD ""))
    ((cached.regionId.orElse (fun _ => cached.geokey)).getD "")
    st0 { st0 with firstRetrievals := st0.firstRetrievals + 1
                   firstLatSum := st0.firstLatSum +
                     max 0 (s.t - cached.issuedAt) } hnd2 hget0
  have hdr : ({ st0 with firstRetrievals := st0.firstRetrievals + 1
                         firstLatSum := st0.firstLatSum +
                           max 0 (s.t - cached.issuedAt) } :
      RegionAcc).dropped = st0.dropped := rfl
  rw [hdr] at hsum
  simp only [queryHitFirst]
  split_ifs <;>
    refine ⟨rfl, rfl, rfl, rfl, rfl, rfl, rfl, rfl, ?_, ?_⟩
  all_goals
    first
      | exact hnd
      | exact JsMap.nodup_set _ _ _ hnd2
      | rfl
      | (rw [hgetD]
         simp only [droppedSum] at hsum hens ⊢
         omega)

theorem queryHit_acct (ctx : RunCtx) (cached : Alert) (s : SimState)
    (hnd : s.regionStatsMap.keys.Nodup) :
    (0 < engineFreshness ctx.M cached s.t →
      (queryHit ctx cached s).staleAccess = s.staleAccess) ∧
    (queryHit ctx cached s).specHitFresh =
      s.specHitFresh ++ [engineFreshness ctx.M cached s.t] ∧
    (queryHit ctx cached s).hits = s.hits + 1 ∧
    (queryHit ctx cached s).misses = s.misses ∧
    (queryHit ctx cached s).delivered = s.delivered ∧
    (queryHit ctx cached s).deliveredAlerts = s.deliveredAlerts ∧
    (queryHit ctx cached s).issuedAlerts = s.issuedAlerts ∧
    (queryHit ctx cached s).pending = s.pending ∧
    droppedSum (queryHit ctx cached s).regionStatsMap =
      droppedSum s.regionStatsMap ∧
    (queryHit ctx cached s).regionStatsMap.keys.Nodup := by
  obtain ⟨c1, c2, c3, c4, c5, c6, c7, c8, c9⟩ :=
    queryHitCount_acct ctx cached s
  have hndc : (queryHitCount ctx cached s).regionStatsMap.keys.Nodup := by
    rw [c9]
    exact hnd
  obtain ⟨f1, f2, f3, f4, f5, f6, f7, f8, f9, f10⟩ :=
    queryHitFirst_acct ctx cached (queryHitCount ctx cached s) hndc
  unfold queryHit
  refine ⟨fun h => (f1.trans (c1 h)), f2.trans c2, f3.trans (by rw [c3]),
    f4.trans c4, f5.trans c5, f6.trans c6, f7.trans c7, f8.trans c8,
    ?_, f10⟩
  rw [f9, c9]

end Aware

namespace Aware

theorem queryOnce_acct (ctx : RunCtx) (s : SimState)
    (hnd : s.regionStatsMap.keys.Nodup) :
    ∃ fr : List ℚ,
      (queryOnce ctx s).specHitFresh = s.specHitFresh ++ fr ∧
      (queryOnce ctx s).hits = s.hits + fr.length ∧
      ((∀ x : ℚ, -1 ≤ x → x ≤ 0 → 0 < ctx.M.exp x) →
        (∀ f ∈ fr, 0 < f) ∧ (queryOnce ctx s).staleAccess = s.staleAccess) ∧
      (queryOnce ctx s).delivered = s.delivered ∧
      (queryOnce ctx s).deliveredAlerts = s.deliveredAlerts ∧
      (queryOnce ctx s).issuedAlerts = s.issuedAlerts ∧
      (queryOnce ctx s).pending = s.pending ∧
      droppedSum (queryOnce ctx s).regionStatsMap =
        droppedSum s.regionStatsMap ∧
      (queryOnce ctx s).regionStatsMap.keys.Nodup := by
  rcases hbp : biasedPick ctx.M s.t s.policy s.rng with ⟨pick, pol1, rng1⟩
  simp only [queryOnce, hbp]
  cases pick with
  | none =>
    exact ⟨[], by simp, by simp, fun _ => ⟨by simp, rfl⟩, rfl, rfl, rfl, rfl,
      rfl, hnd⟩
  | some choice =>
    rcases hg : PolicyState.get choice.id s.t pol1 with ⟨got, pol2⟩
    simp only [hg]
    cases got with
    | some cached =>
      have hfst : (PolicyState.get choice.id s.t pol1).1 = some cached := by
        rw [hg]
      have hexp := policyGet_unexpired choice.id s.t pol1 cached hfst
      obtain ⟨q1, q2, q3, q4, q5, q6, q7, q8, q9, q10⟩ :=
        queryHit_acct ctx cached { s with policy := pol2, rng := rng1 } hnd
      refine ⟨[engineFreshness ctx.M cached s.t], q2.trans rfl, q3.trans rfl,
        ?_, q5.trans rfl, q6.trans rfl, q7.trans rfl, q8.trans rfl,
        q9.trans rfl, q10⟩
      intro hM
      refine ⟨?_, (q1 (engineFreshness_pos ctx.M hM cached s.t hexp)).trans rfl⟩
      intro f hf
      rw [List.mem_singleton] at hf
      subst hf
      exact engineFreshness_pos ctx.M hM cached s.t hexp
    | none =>
      cases hpf : s.pf <;> simp only [hpf] <;>
        refine ⟨[], by simp, by simp, fun _ => ⟨by simp, ?_⟩, ?_, ?_, ?_, ?_,
          ?_, ?_⟩ <;>
        first | trivial | exact hnd

theorem queryLoop_acct (ctx : RunCtx) :
    ∀ (q : ℕ) (s : SimState), s.regionStatsMap.keys.Nodup →
    ∃ fr : List ℚ,
      (queryLoop ctx q s).specHitFresh = s.specHitFresh ++ fr ∧
      (queryLoop ctx q s).hits = s.hits + fr.length ∧
      ((∀ x : ℚ, -1 ≤ x → x ≤ 0 → 0 < ctx.M.exp x) →
        (∀ f ∈ fr, 0 < f) ∧ (queryLoop ctx q s).staleAccess = s.staleAccess) ∧
      (queryLoop ctx q s).delivered = s.delivered ∧
      (queryLoop ctx q s).deliveredAlerts = s.deliveredAlerts ∧
      (queryLoop ctx q s).issuedAlerts = s.issuedAlerts ∧
      (queryLoop ctx q s).pending = s.pending ∧
      droppedSum (queryLoop ctx q s).regionStatsMap =
        droppedSum s.regionStatsMap ∧
      (queryLoop ctx q s).regionStatsMap.keys.Nodup := by
  intro q
  induction q with
  | zero =>
    intro s hnd
    exact ⟨[], by simp [queryLoop], rfl, fun _ => ⟨by simp, rfl⟩, rfl, rfl,
      rfl, rfl, rfl, hnd⟩
  | succ n ih =>
    intro s hnd
    obtain ⟨fr1, a1, a2, a3, a4, a5, a6, a7, a8, a9⟩ := queryOnce_acct ctx s hnd
    obtain ⟨fr2, b1, b2, b3, b4, b5, b6, b7, b8, b9⟩ :=
      ih (queryOnce ctx s) a9
    refine ⟨fr1 ++ fr2, ?_, ?_, ?_, b4.trans a4, b5.trans a5, b6.trans a6,
      b7.trans a7, b8.trans a8, b9⟩
    · show (queryLoop ctx n (queryOnce ctx s)).specHitFresh = _
      rw [b1, a1, List.append_assoc]
    · show (queryLoop ctx n (queryOnce ctx s)).hits = _
      rw [b2, a2, List.length_append]
      omega
    · intro hM
      obtain ⟨ap, ast⟩ := a3 hM
      obtain ⟨bp, bst⟩ := b3 hM
      refine ⟨?_, bst.trans ast⟩
      intro f hf
      rcases List.mem_append.mp hf with h | h
      · exact ap f h
      · exact bp f h

theorem queriesPhase_acct (ctx : RunCtx) (s : SimState)
    (hnd : s.regionStatsMap.keys.Nodup) :
    ∃ fr : List ℚ,
      (queriesPhase ctx s).specHitFresh = s.specHitFresh ++ fr ∧
      (queriesPhase ctx s).hits = s.hits + fr.length ∧
      ((∀ x : ℚ, -1 ≤ x → x ≤ 0 → 0 < ctx.M.exp x) →
        (∀ f ∈ fr, 0 < f) ∧ (queriesPhase ctx s).staleAccess = s.staleAccess) ∧
      (queriesPhase ctx s).delivered = s.delivered ∧
      (queriesPhase ctx s).deliveredAlerts = s.deliveredAlerts ∧
      (queriesPhase ctx s).issuedAlerts = s.issuedAlerts ∧
      (queriesPhase ctx s).pending = s.pending ∧
      droppedSum (queriesPhase ctx s).regionStatsMap =
        droppedSum s.regionStatsMap ∧
      (queriesPhase ctx s).regionStatsMap.keys.Nodup := by
  simp only [queriesPhase]
  exact queryLoop_acct ctx _ _ hnd

theorem retryGo_acct (ctx : RunCtx) :
    ∀ (l : List PendingAttempt) (s : SimState),
      s.regionStatsMap.keys.Nodup →
      (retryGo ctx l s).1.staleAccess = s.staleAccess ∧
      (retryGo ctx l s).1.specHitFresh = s.specHitFresh ∧
      (retryGo ctx l s).1.hits = s.hits ∧
      (retryGo ctx l s).1.misses = s.misses ∧
      (retryGo ctx l s).1.issuedAlerts = s.issuedAlerts ∧
      (retryGo ctx l s).1.pending = s.pending ∧
      (retryGo ctx l s).1.regionStatsMap.keys.Nodup ∧
      (retryGo ctx l s).1.delivered +
          droppedSum (retryGo ctx l s).1.regionStatsMap +
          (retryGo ctx l s).2.length
        = s.delivered + droppedSum s.regionStatsMap + l.length ∧
      (s.deliveredAlerts.length = s.delivered →
        (retryGo ctx l s).1.deliveredAlerts.length =
          (retryGo ctx l s).1.delivered) := by
  intro l
  induction l with
  | nil =>
    intro s hnd
    exact ⟨rfl, rfl, rfl, rfl, rfl, rfl, hnd, rfl, fun h => h⟩
  | cons p rest ih =>
    intro s hnd
    obtain ⟨i1, i2, i3, i4, i5, i6, i7, i8, i9⟩ := ih s hnd
    rcases hr : retryGo ctx rest s with ⟨s1, kept⟩
    rw [hr] at i1 i2 i3 i4 i5 i6 i7 i8 i9
    simp only at i1 i2 i3 i4 i5 i6 i7 i8 i9
    simp only [retryGo, hr]
    rcases had : attemptDelivery ctx p.alert s1.t s1 with ⟨ok, s2⟩
    obtain ⟨⟨g1, g2, g3, g4, g5, g6⟩, gds, gnd, gsucc, gfail⟩ :=
      attemptDelivery_acct ctx p.alert s1.t s1 i7
    rw [had] at g1 g2 g3 g4 g5 g6 gds gnd gsucc gfail
    simp only at g1 g2 g3 g4 g5 g6 gds gnd gsucc gfail
    by_cases h1 : p.alert.issuedAt + p.alert.ttlSec ≤ s1.t
    · rw [if_pos h1]
      obtain ⟨rds, rnd, r1, r2, r3, r4, r5, r6, r7, r8⟩ :=
        recordDrop_acct ctx p.alert s1.t s1 i7
      refine ⟨r1.trans i1, r2.trans i2, r3.trans i3, r4.trans i4,
        r7.trans i5, r8.trans i6, rnd, ?_, ?_⟩
      · show (recordDrop ctx p.alert s1.t s1).delivered +
            droppedSum (recordDrop ctx p.alert s1.t s1).regionStatsMap +
            kept.length = _
        rw [r5, rds, List.length_cons]
        omega
      · intro hde
        show (recordDrop ctx p.alert s1.t s1).deliveredAlerts.length =
          (recordDrop ctx p.alert s1.t s1).delivered
        rw [r6, r5]
        exact i9 hde
    · rw [if_neg h1]
      by_cases h2 : p.nextAttemptAt ≤ s1.t
      · rw [if_pos h2]
        cases ok with
        | true =>
          rw [if_pos rfl]
          obtain ⟨gd, gda⟩ := gsucc rfl
          refine ⟨g1.trans i1, g2.trans i2, g3.trans i3, g4.trans i4,
            g5.trans i5, g6.trans i6, gnd, ?_, ?_⟩
          · show s2.delivered + droppedSum s2.regionStatsMap + kept.length = _
            rw [gd, gds, List.length_cons]
            omega
          · intro hde
            show s2.deliveredAlerts.length = s2.delivered
            have := i9 hde
            omega
        | false =>
          rw [if_neg (by simp)]
          obtain ⟨gd, gda⟩ := gfail rfl
          by_cases h3 : 1 < p.attemptsLeft
          · rw [if_pos h3]
            refine ⟨g1.trans i1, g2.trans i2, g3.trans i3, g4.trans i4,
              g5.trans i5, g6.trans i6, gnd, ?_, ?_⟩
            · show s2.delivered + droppedSum s2.regionStatsMap +
                  (List.length _) = _
              rw [gd, gds]
              simp only [List.length_cons]
              omega
            · intro hde
              show s2.deliveredAlerts.length = s2.delivered
              rw [gda, gd]
              exact i9 hde
          · rw [if_neg h3]
            obtain ⟨rds2, rnd2, rb1, rb2, rb3, rb4, rb5, rb6, rb7, rb8⟩ :=
              recordDrop_acct ctx p.alert s1.t s2 gnd
            refine ⟨rb1.trans (g1.trans i1), rb2.trans (g2.trans i2),
              rb3.trans (g3.trans i3), rb4.trans (g4.trans i4),
              rb7.trans (g5.trans i5), rb8.trans (g6.trans i6), rnd2,
              ?_, ?_⟩
            · show (recordDrop ctx p.alert s1.t s2).delivered +
                  droppedSum (recordDrop ctx p.alert s1.t s2).regionStatsMap +
                  kept.length = _
              rw [rb5, rds2, gd, gds, List.length_cons]
              omega
            · intro hde
              show (recordDrop ctx p.alert s1.t s2).deliveredAlerts.length =
                (recordDrop ctx p.alert s1.t s2).delivered
              rw [rb6, rb5, gda, gd]
              exact i9 hde
      · rw [if_neg h2]
        refine ⟨i1, i2, i3, i4, i5, i6, i7, ?_, i9⟩
        simp only [List.length_cons]
        omega

theorem retryPhase_acct (ctx : RunCtx) (s : SimState)
    (hnd : s.regionStatsMap.keys.Nodup) :
    (retryPhase ctx s).staleAccess = s.staleAccess ∧
    (retryPhase ctx s).specHitFresh = s.specHitFresh ∧
    (retryPhase ctx s).hits = s.hits ∧
    (retryPhase ctx s).misses = s.misses ∧
    (retryPhase ctx s).issuedAlerts = s.issuedAlerts ∧
    (retryPhase ctx s).regionStatsMap.keys.Nodup ∧
    (retryPhase ctx s).delivered + droppedSum (retryPhase ctx s).regionStatsMap +
        (retryPhase ctx s).pending.length
      = s.delivered + droppedSum s.regionStatsMap + s.pending.length ∧
    (s.deliveredAlerts.length = s.delivered →
      (retryPhase ctx s).deliveredAlerts.length = (retryPhase ctx s).delivered) ∧
    (s.pending = [] → (retryPhase ctx s).pending = []) := by
  simp only [retryPhase]
  by_cases hp : s.pending.isEmpty
  · rw [if_pos hp]
    exact ⟨rfl, rfl, rfl, rfl, rfl, hnd, rfl, fun h => h, fun h => h⟩
  · rw [if_neg hp]
    have hnd0 : ({ s with pending := [] } : SimState).regionStatsMap.keys.Nodup :=
      hnd
    obtain ⟨i1, i2, i3, i4, i5, i6, i7, i8, i9⟩ :=
      retryGo_acct ctx s.pending { s with pending := [] } hnd0
    rcases hr : retryGo ctx s.pending { s with pending := [] } with ⟨s1, kept⟩
    rw [hr] at i1 i2 i3 i4 i5 i6 i7 i8 i9
    simp only at i1 i2 i3 i4 i5 i6 i7 i8 i9
    refine ⟨i1, i2, i3, i4, i5, i7, ?_, i9, ?_⟩
    · show s1.delivered + droppedSum s1.regionStatsMap + kept.length = _
      omega
    · intro hnil
      exact absurd (by rw [hnil]; rfl) hp

theorem arrivalOne_pending (ctx : RunCtx) (s : SimState) (a : Alert)
    (hma : ctx.maxAttempts = 1) (hnd : s.regionStatsMap.keys.Nodup) :
    (arrivalOne ctx s a).pending = s.pending := by
  obtain ⟨hens, hnd2, st0, hget0⟩ := ensureRegionStats_facts s.regionStatsMap
    ((a.regionId.orElse (fun _ => a.geokey)).getD "") hnd
  simp only [arrivalOne]
  set s2 : SimState :=
    { s with issuedAlerts := s.issuedAlerts ++ [a]
             regionStatsMap := ensureRegionStats s.regionStatsMap
               ((a.regionId.orElse (fun _ => a.geokey)).getD "") } with hs2
  have hnd2b : s2.regionStatsMap.keys.Nodup := hnd2
  obtain ⟨⟨g1, g2, g3, g4, g5, g6⟩, gds, gnd, gsucc, gfail⟩ :=
    attemptDelivery_acct ctx a s.t s2 hnd2b
  rcases hADeq : attemptDelivery ctx a s.t s2 with ⟨ok, s3⟩
  rw [hADeq] at g1 g2 g3 g4 g5 g6 gds gnd gsucc gfail
  simp only at g1 g2 g3 g4 g5 g6 gds gnd gsucc gfail
  cases ok with
  | true =>
    rw [if_pos rfl]
    exact g6.trans rfl
  | false =>
    rw [if_neg (by simp)]
    rw [hma]
    rw [if_neg (lt_irrefl (1 : ℚ))]
    obtain ⟨rds2, rnd2, rb1, rb2, rb3, rb4, rb5, rb6, rb7, rb8⟩ :=
      recordDrop_acct ctx a s.t s3 gnd
    exact rb8.trans (g6.trans rfl)

theorem arrivalsFold_pending (ctx : RunCtx) (hma : ctx.maxAttempts = 1) :
    ∀ (l : List Alert) (s : SimState), s.regionStatsMap.keys.Nodup →
      (l.foldl (arrivalOne ctx) s).pending = s.pending := by
  intro l
  induction l with
  | nil =>
    intro s _
    rfl
  | cons a rest ih =>
    intro s hnd
    have h5 := (arrivalOne_acct ctx s a hnd).2.2.2.2.1
    rw [List.foldl_cons]
    exact (ih (arrivalOne ctx s a) h5).trans (arrivalOne_pending ctx s a hma hnd)

theorem simStep_acct (ctx : RunCtx) (s : SimState)
    (hnd : s.regionStatsMap.keys.Nodup) :
    ∃ fr : List ℚ,
      (simStep ctx s).specHitFresh = s.specHitFresh ++ fr ∧
      (simStep ctx s).hits = s.hits + fr.length ∧
      ((∀ x : ℚ, -1 ≤ x → x ≤ 0 → 0 < ctx.M.exp x) →
        (∀ f ∈ fr, 0 < f) ∧ (simStep ctx s).staleAccess = s.staleAccess) ∧
      (simStep ctx s).regionStatsMap.keys.Nodup ∧
      (simStep ctx s).delivered + droppedSum (simStep ctx s).regionStatsMap +
          (simStep ctx s).pending.length + s.issuedAlerts.length
        = (simStep ctx s).issuedAlerts.length +
            (s.delivered + droppedSum s.regionStatsMap + s.pending.length) ∧
      (s.deliveredAlerts.length = s.delivered →
        (simStep ctx s).deliveredAlerts.length = (simStep ctx s).delivered) ∧
      (ctx.maxAttempts = 1 → s.pending = [] → (simStep ctx s).pending = []) := by
  simp only [simStep, arrivalsPhase, samplePhase]
  obtain ⟨a1, a2, a3, a4, a5, a6, a7, a8⟩ :=
    arrivalsFold_acct ctx (ctx.byTime.getD (jsFloor s.t) []) s hnd
  obtain ⟨r1, r2, r3, r4, r5, r6, r7, r8, r9⟩ :=
    retryPhase_acct ctx ((ctx.byTime.getD (jsFloor s.t) []).foldl
      (arrivalOne ctx) s) a5
  obtain ⟨fr, q1, q2, q3, q4, q5, q6, q7, q8, q9⟩ :=
    queriesPhase_acct ctx (retryPhase ctx ((ctx.byTime.getD (jsFloor s.t) []).foldl
      (arrivalOne ctx) s)) r6
  refine ⟨fr, ?_, ?_, ?_, q9, ?_, ?_, ?_⟩
  · show (queriesPhase ctx (retryPhase ctx _)).specHitFresh = _
    rw [q1, r2, a2]
  · show (queriesPhase ctx (retryPhase ctx _)).hits = _
    rw [q2, r3, a3]
  · intro hM
    obtain ⟨qp, qs⟩ := q3 hM
    exact ⟨qp, qs.trans (r1.trans a1)⟩
  · have hQp := congrArg List.length q7
    have hQi : (queriesPhase ctx (retryPhase ctx ((ctx.byTime.getD (jsFloor s.t)
        []).foldl (arrivalOne ctx) s))).issuedAlerts.length =
        ((ctx.byTime.getD (jsFloor s.t) []).foldl (arrivalOne ctx)
          s).issuedAlerts.length := by
      rw [q6, r5]
    show (queriesPhase ctx (retryPhase ctx _)).delivered +
        droppedSum (queriesPhase ctx (retryPhase ctx _)).regionStatsMap +
        (queriesPhase ctx (retryPhase ctx _)).pending.length +
        s.issuedAlerts.length =
      (queriesPhase ctx (retryPhase ctx _)).issuedAlerts.length + _
    omega
  · intro hde
    show (queriesPhase ctx (retryPhase ctx _)).deliveredAlerts.length =
      (queriesPhase ctx (retryPhase ctx _)).delivered
    rw [q5, q4]
    exact r8 (a8 hde)
  · intro hma hnil
    show (queriesPhase ctx (retryPhase ctx _)).pending = []
    rw [q7]
    exact r9 ((arrivalsFold_pending ctx hma _ s hnd).trans hnil)

theorem simLoop_acct (ctx : RunCtx) :
    ∀ (n : ℕ) (s : SimState), s.regionStatsMap.keys.Nodup →
    ∃ fr : List ℚ,
      (simLoop ctx n s).specHitFresh = s.specHitFresh ++ fr ∧
      (simLoop ctx n s).hits = s.hits + fr.length ∧
      ((∀ x : ℚ, -1 ≤ x → x ≤ 0 → 0 < ctx.M.exp x) →
        (∀ f ∈ fr, 0 < f) ∧ (simLoop ctx n s).staleAccess = s.staleAccess) ∧
      (simLoop ctx n s).regionStatsMap.keys.Nodup ∧
      (simLoop ctx n s).delivered +
          droppedSum (simLoop ctx n s).regionStatsMap +
          (simLoop ctx n s).pending.length + s.issuedAlerts.length
        = (simLoop ctx n s).issuedAlerts.length +
            (s.delivered + droppedSum s.regionStatsMap + s.pending.length) ∧
      (s.deliveredAlerts.length = s.delivered →
        (simLoop ctx n s).deliveredAlerts.length =
          (simLoop ctx n s).delivered) ∧
      (ctx.maxAttempts = 1 → s.pending = [] → (simLoop ctx n s).pending = []) := by
  intro n
  induction n with
  | zero =>
    intro s hnd
    exact ⟨[], by simp [simLoop], rfl, fun _ => ⟨by simp, rfl⟩, hnd,
      by simp only [simLoop]; omega, fun h => h, fun _ h => h⟩
  | succ m ih =>
    intro s hnd
    obtain ⟨fr1, a1, a2, a3, a4, a5, a6, a7⟩ := simStep_acct ctx s hnd
    obtain ⟨fr2, b1, b2, b3, b4, b5, b6, b7⟩ := ih (simStep ctx s) a4
    refine ⟨fr1 ++ fr2, ?_, ?_, ?_, b4, ?_, ?_, ?_⟩
    · show (simLoop ctx m (simStep ctx s)).specHitFresh = _
      rw [b1, a1, List.append_assoc]
    · show (simLoop ctx m (simStep ctx s)).hits = _
      rw [b2, a2, List.length_append]
      omega
    · intro hM
      obtain ⟨ap, ast⟩ := a3 hM
      obtain ⟨bp, bst⟩ := b3 hM
      refine ⟨?_, bst.trans ast⟩
      intro f hf
      rcases List.mem_append.mp hf with h | h
      · exact ap f h
      · exact bp f h
    · show (simLoop ctx m (simStep ctx s)).delivered +
          droppedSum (simLoop ctx m (simStep ctx s)).regionStatsMap +
          (simLoop ctx m (simStep ctx s)).pending.length +
          s.issuedAlerts.length =
        (simLoop ctx m (simStep ctx s)).issuedAlerts.length + _
      omega
    · intro hde
      exact b6 (a6 hde)
    · intro hma hnil
      exact b7 hma (a7 hma hnil)

theorem droppedSum_set_zeroAcc (m : JsMap String RegionAcc) (k : String)
    (h : droppedSum m = 0) : droppedSum (m.set k zeroAcc) = 0 := by
  unfold droppedSum at h ⊢
  unfold JsMap.set
  rw [List.sum_eq_zero_iff] at h
  split
  · rw [List.sum_eq_zero_iff]
    intro x hx
    rw [List.mem_map] at hx
    obtain ⟨p, hp, hpx⟩ := hx
    rw [List.mem_map] at hp
    obtain ⟨q, hq, hqp⟩ := hp
    subst hqp
    subst hpx
    by_cases hqk : q.1 = k
    · rw [if_pos hqk]
      rfl
    · rw [if_neg hqk]
      exact h q.2.dropped (List.mem_map_of_mem _ hq)
  · rw [List.sum_eq_zero_iff]
    intro x hx
    rw [List.map_append, List.mem_append] at hx
    rcases hx with hx | hx
    · exact h x hx
    · rw [List.map_cons, List.mem_cons] at hx
      rcases hx with hx | hx
      · subst hx
        rfl
      · simp at hx

theorem regionStats0_facts (l : List Region) :
    ∀ m : JsMap String RegionAcc, m.keys.Nodup → droppedSum m = 0 →
      (l.foldl (fun (m : JsMap String RegionAcc) r => m.set r.id zeroAcc)
        m).keys.Nodup ∧
      droppedSum (l.foldl (fun (m : JsMap String RegionAcc) r =>
        m.set r.id zeroAcc) m) = 0 := by
  induction l with
  | nil =>
    intro m hnd hds
    exact ⟨hnd, hds⟩
  | cons r rest ih =>
    intro m hnd hds
    rw [List.foldl_cons]
    exact ih (m.set r.id zeroAcc) (JsMap.nodup_set m r.id zeroAcc hnd)
      (droppedSum_set_zeroAcc m r.id hds)

theorem simLoop_initState_facts (ctx : RunCtx) (n : ℕ)
    (rsm0 : JsMap String RegionAcc) (policy : PolicyState)
    (pf : Option PFModel) (rng : ℕ) (hnd0 : rsm0.keys.Nodup)
    (hds0 : droppedSum rsm0 = 0) :
    (simLoop ctx n (initState rsm0 policy pf rng)).deliveredAlerts.length =
      (simLoop ctx n (initState rsm0 policy pf rng)).delivered ∧
    (simLoop ctx n (initState rsm0 policy pf rng)).delivered +
        droppedSum (simLoop ctx n (initState rsm0 policy pf rng)).regionStatsMap +
        (simLoop ctx n (initState rsm0 policy pf rng)).pending.length
      = (simLoop ctx n (initState rsm0 policy pf rng)).issuedAlerts.length ∧
    (simLoop ctx n (initState rsm0 policy pf rng)).specHitFresh.length =
      (simLoop ctx n (initState rsm0 policy pf rng)).hits ∧
    ((∀ x : ℚ, -1 ≤ x → x ≤ 0 → 0 < ctx.M.exp x) →
      (simLoop ctx n (initState rsm0 policy pf rng)).staleAccess = 0 ∧
      ∀ f ∈ (simLoop ctx n (initState rsm0 policy pf rng)).specHitFresh,
        0 < f) ∧
    (ctx.maxAttempts = 1 →
      (simLoop ctx n (initState rsm0 policy pf rng)).pending = []) := by
  have hndI : (initState rsm0 policy pf rng).regionStatsMap.keys.Nodup := hnd0
  obtain ⟨fr, l1, l2, l3, l4, l5, l6, l7⟩ :=
    simLoop_acct ctx n (initState rsm0 policy pf rng) hndI
  have eSpec : (initState rsm0 policy pf rng).specHitFresh = [] := rfl
  rw [eSpec, List.nil_append] at l1
  have eHits : (initState rsm0 policy pf rng).hits = 0 := rfl
  rw [eHits, Nat.zero_add] at l2
  have eDs : droppedSum (initState rsm0 policy pf rng).regionStatsMap = 0 :=
    hds0
  have eIss : (initState rsm0 policy pf rng).issuedAlerts.length = 0 := rfl
  have eDel : (initState rsm0 policy pf rng).delivered = 0 := rfl
  have ePen : (initState rsm0 policy pf rng).pending.length = 0 := rfl
  refine ⟨l6 rfl, by omega, ?_, ?_, fun hma => l7 hma rfl⟩
  · rw [l1, l2]
  · intro hM
    obtain ⟨lp, lst⟩ := l3 hM
    refine ⟨lst.trans rfl, ?_⟩
    rw [l1]
    exact lp

set_option maxHeartbeats 2000000 in
theorem simFinalState_facts (M : MathModel) (opts : RunOptions)
    (oracle : ℕ → ℚ) :
    (simFinalState M opts oracle).deliveredAlerts.length =
      (simFinalState M opts oracle).delivered ∧
    (simFinalState M opts oracle).delivered +
        droppedSum (simFinalState M opts oracle).regionStatsMap +
        (simFinalState M opts oracle).pending.length
      = (simFinalState M opts oracle).issuedAlerts.length ∧
    (simFinalState M opts oracle).specHitFresh.length =
      (simFinalState M opts oracle).hits ∧
    ((∀ x : ℚ, -1 ≤ x → x ≤ 0 → 0 < M.exp x) →
      (simFinalState M opts oracle).staleAccess = 0 ∧
      ∀ f ∈ (simFinalState M opts oracle).specHitFresh, 0 < f) ∧
    (opts.deliveryMaxAttempts = none →
      (simFinalState M opts oracle).pending = []) := by
  obtain ⟨hnd0, hds0⟩ := regionStats0_facts
    (buildEnvironmentForRun M opts).regions ⟨[]⟩ List.nodup_nil rfl
  have key := simLoop_initState_facts
    { M := M, opts := opts, scenario := pickScenario opts.scenario,
      environment := buildEnvironmentForRun M opts,
      regionLookup := ⟨(buildEnvironmentForRun M opts).regions.map
        (fun r => (r.id, r))⟩,
      byTime := mkByTime (synthAlerts M opts (pickScenario opts.scenario)
        (buildEnvironmentForRun M opts) (hashStringToSeed opts.seed)).1,
      retryInterval := max 1 (jsFloor (opts.deliveryRetryIntervalSec.getD 0)),
      maxAttempts := max 1 (jsFloor (opts.deliveryMaxAttempts.getD 1)) }
    (max 1 ⌊opts.durationSec⌋).toNat
    ((buildEnvironmentForRun M opts).regions.foldl
      (fun (m : JsMap String RegionAcc) r => m.set r.id zeroAcc) ⟨[]⟩)
    (createPolicy opts (pfSetup M opts (buildEnvironmentForRun M opts)
      (mkPfRng opts oracle)))
    (pfSetup M opts (buildEnvironmentForRun M opts) (mkPfRng opts oracle))
    (synthAlerts M opts (pickScenario opts.scenario)
      (buildEnvironmentForRun M opts) (hashStringToSeed opts.seed)).2
    hnd0 hds0
  obtain ⟨k1, k2, k3, k4, k5⟩ := key
  refine ⟨k1, k2, k3, k4, ?_⟩
  intro hnone
  apply k5
  show max 1 (jsFloor (opts.deliveryMaxAttempts.getD 1)) = 1
  rw [hnone]
  show max 1 (jsFloor 1) = 1
  rw [show jsFloor 1 = 1 from by unfold jsFloor; norm_num]
  exact max_self 1

theorem mkRunResult_fields (M : MathModel) (opts : RunOptions) (s : SimState) :
    (mkRunResult M opts s).deliveredAlerts = s.deliveredAlerts ∧
    (mkRunResult M opts s).issuedAlerts = s.issuedAlerts ∧
    ((mkRunResult M opts s).regionStats.map (fun r => r.dropped)).sum
      = droppedSum s.regionStatsMap ∧
    (mkRunResult M opts s).metrics.staleAccessRate =
      (if s.hits + s.misses = 0 then 0
       else (s.staleAccess : ℚ) / ((s.hits + s.misses : ℕ) : ℚ)) := by
  refine ⟨rfl, rfl, ?_, rfl⟩
  show ((s.regionStatsMap.entries.map _).map _).sum = _
  rw [List.map_map]
  rfl

/-- C2 (amended): with retries disabled (`deliveryMaxAttempts` left unset,
so the engine clamps the attempt budget to one), every issued alert is
either delivered or dropped by the end of the run, so
`deliveredAlerts.length + Σ regionStats.dropped = issuedAlerts.length` in
the returned RunResult; with a retry budget greater than one the equation
can fail because attempts still pending at the horizon are neither
delivered nor dropped. -/
theorem delivered_plus_dropped_eq_issued_single_attempt (M : MathModel)
    (opts : RunOptions) (oracle : ℕ → ℚ) :
    (runSimulation M { opts with deliveryMaxAttempts := none }
        oracle).deliveredAlerts.length +
      ((runSimulation M { opts with deliveryMaxAttempts := none }
        oracle).regionStats.map (fun r => r.dropped)).sum
      = (runSimulation M { opts with deliveryMaxAttempts := none }
          oracle).issuedAlerts.length := by
  obtain ⟨f1, f2, f3, f4, f5⟩ :=
    simFinalState_facts M { opts with deliveryMaxAttempts := none } oracle
  have hpen := f5 rfl
  obtain ⟨m1, m2, m3, m4⟩ := mkRunResult_fields M
    { opts with deliveryMaxAttempts := none }
    (simFinalState M { opts with deliveryMaxAttempts := none } oracle)
  simp only [runSimulation]
  rw [m1, m2, m3, f1]
  rw [hpen] at f2
  simp only [List.length_nil] at f2
  omega

/-- C10: in every simulation run [under the modelling hypothesis that the
math model's `exp` is strictly positive on `[-1, 0]`, as the real
`Math.exp` is], the stale-access counter never increments — every query
hit is served from a purged cache, so the hit alert is unexpired and its
freshness `clamp01(exp(-age/max(1,ttl)))` is strictly positive — and the
reported `staleAccessRate` metric is exactly 0. -/
theorem stale_access_rate_always_zero (M : MathModel) (opts : RunOptions)
    (oracle : ℕ → ℚ)
    (hM : ∀ x : ℚ, -1 ≤ x → x ≤ 0 → 0 < M.exp x) :
    (simFinalState M opts oracle).staleAccess = 0 ∧
    (runSimulation M opts oracle).metrics.staleAccessRate = 0 := by
  obtain ⟨f1, f2, f3, f4, f5⟩ := simFinalState_facts M opts oracle
  obtain ⟨hZ, hPos⟩ := f4 hM
  refine ⟨hZ, ?_⟩
  have hm := (mkRunResult_fields M opts (simFinalState M opts oracle)).2.2.2
  simp only [runSimulation]
  rw [hm, hZ]
  simp

/-- Witness for C10 at a concrete model, options, and oracle. -/
theorem stale_access_rate_always_zero_witness :
    (∀ x : ℚ, -1 ≤ x → x ≤ 0 → 0 < mathOne.exp x) ∧
    ((simFinalState mathOne optsC5 (fun _ => 0)).staleAccess = 0 ∧
     (runSimulation mathOne optsC5 (fun _ => 0)).metrics.staleAccessRate
       = 0) :=
  ⟨fun x h1 h2 => one_pos,
   stale_access_rate_always_zero mathOne optsC5 (fun _ => 0)
     (fun x h1 h2 => one_pos)⟩

/-- C4: the `staleAccessRate` metric equals the fraction of cache hits
whose observed freshness is 0 [under the modelling hypothesis that the
math model's `exp` is strictly positive on `[-1, 0]`, as the real
`Math.exp` is]: both sides are 0 in every run — no hit is ever observed
with freshness 0, and the stale counter never increments.
(`specHitFresh` is the specification-instrumentation list of the freshness
values observed at each hit; its length equals `hits`.) -/
theorem stale_rate_eq_zero_fresh_fraction (M : MathModel)
    (opts : RunOptions) (oracle : ℕ → ℚ)
    (hM : ∀ x : ℚ, -1 ≤ x → x ≤ 0 → 0 < M.exp x) :
    (runSimulation M opts oracle).metrics.staleAccessRate =
      (if (simFinalState M opts oracle).hits = 0 then 0
       else (((simFinalState M opts oracle).specHitFresh.filter
           (fun f => decide (f = 0))).length : ℚ) /
         ((simFinalState M opts oracle).hits : ℚ)) := by
  obtain ⟨f1, f2, f3, f4, f5⟩ := simFinalState_facts M opts oracle
  obtain ⟨hZ, hPos⟩ := f4 hM
  have hfilter : (simFinalState M opts oracle).specHitFresh.filter
      (fun f => decide (f = 0)) = [] := by
    rw [List.filter_eq_nil]
    intro f hf
    simp only [decide_eq_true_eq]
    exact ne_of_gt (hPos f hf)
  have hm := (mkRunResult_fields M opts (simFinalState M opts oracle)).2.2.2
  simp only [runSimulation]
  rw [hm, hZ, hfilter]
  simp

/-- Witness for C4 at a concrete model, options, and oracle. -/
theorem stale_rate_eq_zero_fresh_fraction_witness :
    (∀ x : ℚ, -1 ≤ x → x ≤ 0 → 0 < mathOne.exp x) ∧
    (runSimulation mathOne optsC5 (fun _ => 0)).metrics.staleAccessRate =
      (if (simFinalState mathOne optsC5 (fun _ => 0)).hits = 0 then 0
       else (((simFinalState mathOne optsC5 (fun _ => 0)).specHitFresh.filter
           (fun f => decide (f = 0))).length : ℚ) /
         ((simFinalState mathOne optsC5 (fun _ => 0)).hits : ℚ)) :=
  ⟨fun x h1 h2 => one_pos,
   stale_rate_eq_zero_fresh_fraction mathOne optsC5 (fun _ => 0)
     (fun x h1 h2 => one_pos)⟩

/-- Concrete math model of the run-level counterexamples: rational
stand-ins for the JS transcendentals (`exp` is 1/4 on negatives and 1
otherwise; `sqrt` is the constant 1000, so `pickCenters` accepts every
candidate center and the rejection loop stops early). -/
def Mc : MathModel :=
  { exp := fun x => if x < 0 then 1/4 else 1, log := fun _ => 0,
    sin := fun _ => 0, cos := fun _ => 0, sqrt := fun _ => 1000, pi := 0 }

/-- Options of the C2 counterexample: one alert, reliability 0, a retry
budget of two attempts, and a one-second horizon, so the single failed
delivery is re-queued and the horizon ends before its retry is due. -/
def optsC2 : RunOptions :=
  { scenario := .Rural, policy := .LRU, cacheSize := 32, alerts := 1,
    reliability := 0, durationSec := 1, queryRatePerMin := 0, seed := "x",
    deliveryMaxAttempts := some 2 }

/-- Options of the C1 counterexample: PriorityFresh with `pfRandomize`
enabled and exploration ε = 1, so the eviction scan of a full cache
consumes `Math.random` draws that perturb the eviction scores. -/
def optsC1 : RunOptions :=
  { scenario := .Rural, policy := .PriorityFresh, cacheSize := 2, alerts := 3,
    reliability := 100, durationSec := 4, queryRatePerMin := 60, seed := "y",
    pfRandomize := true, pfExplorationEpsilon := some 1,
    pfHashBuckets := some 0 }

/-- The all-zeros `Math.random` stream. -/
def oracle0 : ℕ → ℚ := fun _ => 0

/-- A `Math.random` stream that differs from `oracle0` only at draw 3 (the
exploration draw for the second scanned entry of the C1 eviction scan). -/
def oracle3 : ℕ → ℚ := fun n => if n = 3 then 1 else 0

/-- C1 (amended): `runSimulation` is a deterministic function of the math
model, the options, and the `Math.random` stream; when `pfRandomize` is
false (the default), `Math.random` is never consulted and the result is a
pure function of the options alone — two calls with structurally equal
options and arbitrary `Math.random` streams return structurally identical
RunResults.  With `pfRandomize` true the result depends on the
`Math.random` stream, so it is not a pure function of the options. -/
theorem run_deterministic_without_pfRandomize (M : MathModel)
    (opts : RunOptions) (oa ob : ℕ → ℚ) :
    runSimulation M { opts with pfRandomize := false } oa =
      runSimulation M { opts with pfRandomize := false } ob := rfl

set_option maxRecDepth 7000 in
/-- C1 counterexample: with `pfRandomize` enabled, two runs with
structurally equal options but different `Math.random` streams return
different RunResults (the exploration draw flips the PriorityFresh
eviction victim, and the later query hits train the PF state of the two
runs apart), refuting the claim that `runSimulation` is a pure function of
its options. -/
theorem pfRandomize_breaks_determinism :
    runSimulation Mc optsC1 oracle0 ≠ runSimulation Mc optsC1 oracle3 := by
  with_unfolding_all decide

set_option maxRecDepth 7000 in
/-- C2 counterexample: with a retry budget of two attempts, a failed
delivery still pending at the horizon is neither delivered nor dropped, so
`deliveredAlerts.length + Σ regionStats.dropped < issuedAlerts.length`
(the run issues one alert, delivers zero, drops zero). -/
theorem pending_retries_break_delivered_dropped_issued :
    (runSimulation Mc optsC2 oracle0).deliveredAlerts.length +
      ((runSimulation Mc optsC2 oracle0).regionStats.map
        (fun r => r.dropped)).sum ≠
      (runSimulation Mc optsC2 oracle0).issuedAlerts.length := by
  with_unfolding_all decide

end Aware
